import Mathlib

/-!
Verification development for the `thesis-api` repository: a shallow
embedding in Lean 4 of its LaTeX thesis maintenance utility.

Modelling conventions
* Text is represented as `List Char` (`Str`); string literals are written
  with `\x7b`/`\x7d` for literal braces and turned into `List Char` via
  `.toList`.
* Filesystem paths are lists of path segments (the `.parts` view of
  `pathlib.Path`), relative to the thesis root directory.
* The filesystem is a flat association list from paths to entries (file
  with content, or directory), the association order being creation
  order.  The thesis root itself is an implicit directory.
* Python's in-place mutation plus exceptions is embedded as a state
  monad whose error results carry the state at the point of the raise
  (mutations before an exception persist, as in Python).
* `logging` calls are side effects outside the model and are dropped.
-/

/-- Text: Python strings as lists of characters. -/
abbrev Str := List Char

/-- A filesystem path, as its list of segments (`pathlib.Path.parts`),
relative to the thesis root directory. -/
abbrev FPath := List Str

/-- A filesystem entry: a regular file with its text content, or a
directory. -/
inductive Entry where
  | efile (content : Str)
  | edir
deriving DecidableEq

/-- The filesystem: a flat association list from paths to entries, in
creation order.  The thesis root `[]` is an implicit directory. -/
abbrev FS := List (FPath × Entry)

/-- The mutable state visible to the embedded code: the filesystem and
the `Maintainer._counter` field. -/
structure St where
  fs : FS
  counter : Nat
deriving DecidableEq

/-- Python exceptions raised by the embedded code. -/
inductive Err where
  | fileExistsE (p : FPath)
  | fileNotFoundE (p : FPath)
  | notADirE (p : FPath)
  | isADirE (p : FPath)
  | keyErrorE (k : Str)
  | assertionE (msg : Str)
  | valueE
  | indexE
  | attrE
  | typeE
  | fuelE
deriving DecidableEq

deriving instance DecidableEq for Except

/-- Result of running an embedded statement: like Python, an exception
carries the state at the raise point (prior mutations persist). -/
inductive Res (α : Type) where
  | ok (a : α) (s : St)
  | err (e : Err) (s : St)
deriving DecidableEq

/-- The embedding monad: state (filesystem + counter) with Python-style
exceptions. -/
def M (α : Type) : Type := St → Res α

def M.pure (a : α) : M α := fun s => .ok a s

def M.bind (x : M α) (f : α → M β) : M β := fun s =>
  match x s with
  | .ok a s' => f a s'
  | .err e s' => .err e s'

instance : Monad M where
  pure := M.pure
  bind := M.bind

/-- Raise a Python exception. -/
def M.throw (e : Err) : M α := fun s => .err e s

/-- Lift a pure `Except` computation (e.g. a template substitution)
into the monad. -/
def M.liftE (x : Except Err α) : M α := fun s =>
  match x with
  | .ok a => .ok a s
  | .error e => .err e s

/-- Read the current filesystem. -/
def M.getFS : M FS := fun s => .ok s.fs s

/-- Replace the current filesystem. -/
def M.setFS (fs : FS) : M Unit := fun s => .ok () { s with fs := fs }

/-- Look up the entry recorded for a path. -/
def entryAt (fs : FS) (p : FPath) : Option Entry :=
  match fs with
  | [] => none
  | (q, e) :: rest => if q = p then some e else entryAt rest p

/-- `pathlib.Path.exists()`. -/
def existsP (fs : FS) (p : FPath) : Bool :=
  (entryAt fs p).isSome

/-- Whether a path is currently a regular file. -/
def isFileAt (fs : FS) (p : FPath) : Bool :=
  match entryAt fs p with
  | some (.efile _) => true
  | _ => false

/-- Whether a path is currently a directory (the root `[]` always is). -/
def isDirAt (fs : FS) (p : FPath) : Bool :=
  match p, entryAt fs p with
  | [], _ => true
  | _ :: _, some .edir => true
  | _ :: _, _ => false

/-- The proper ancestors of a path, outermost first, the root excluded:
`properAncestors [a,b,c] = [[a],[a,b]]`. -/
def properAncestors (p : FPath) : List FPath :=
  (p.dropLast.inits.drop 1)

/-- Create every missing ancestor directory (the `parents=True` part of
`pathlib.Path.mkdir`); an ancestor that exists as a regular file makes
the creation fail. -/
def mkAncestors (fs : FS) : List FPath → Except Err FS
  | [] => .ok fs
  | q :: rest =>
    match entryAt fs q with
    | none => mkAncestors (fs ++ [(q, .edir)]) rest
    | some .edir => mkAncestors fs rest
    | some (.efile _) => .error (.notADirE q)

/-- `pathlib.Path.mkdir(parents=True, exist_ok=exist_ok)`: an existing
directory is an error unless `exist_ok`; an existing file is always a
`FileExistsError`; otherwise missing ancestors are created and the
directory is appended. -/
def mkdirp (exist_ok : Bool) (p : FPath) : M Unit := fun s =>
  match entryAt s.fs p with
  | some .edir =>
    if exist_ok then .ok () s else .err (.fileExistsE p) s
  | some (.efile _) => .err (.fileExistsE p) s
  | none =>
    match mkAncestors s.fs (properAncestors p) with
    | .error e => .err e s
    | .ok fs' => .ok () { s with fs := fs' ++ [(p, .edir)] }

/-- Replace the content of an existing file entry, in place. -/
def replaceContent (fs : FS) (p : FPath) (c : Str) : FS :=
  match fs with
  | [] => []
  | (q, e) :: rest =>
    if q = p then (q, .efile c) :: rest else (q, e) :: replaceContent rest p c

/-- `pathlib.Path.write_text`: overwrite an existing file, create a new
file under an existing parent directory, and fail on a directory target
or a missing/non-directory parent. -/
def writeText (p : FPath) (c : Str) : M Unit := fun s =>
  match entryAt s.fs p with
  | some (.efile _) => .ok () { s with fs := replaceContent s.fs p c }
  | some .edir => .err (.isADirE p) s
  | none =>
    if isDirAt s.fs p.dropLast then .ok () { s with fs := s.fs ++ [(p, .efile c)] }
    else .err (.fileNotFoundE p) s

/-- `pathlib.Path.read_text`. -/
def readText (p : FPath) : M Str := fun s =>
  match entryAt s.fs p with
  | some (.efile c) => .ok c s
  | some .edir => .err (.isADirE p) s
  | none => .err (.fileNotFoundE p) s

/-- Run a statement, swallowing a `FileExistsError` as the Python
`except FileExistsError:` handlers do; other exceptions propagate. -/
def catchFE (act : M Unit) : M Unit := fun s =>
  match act s with
  | .ok a s' => .ok a s'
  | .err (.fileExistsE _) s' => .ok () s'
  | .err e s' => .err e s'

/-- One decimal digit as a character. -/
def digitChar (n : Nat) : Char :=
  match n with
  | 0 => '0' | 1 => '1' | 2 => '2' | 3 => '3' | 4 => '4'
  | 5 => '5' | 6 => '6' | 7 => '7' | 8 => '8' | 9 => '9'
  | _ => '0'

/-- Fuelled decimal printer (the fuel is only an induction handle; it is
always sufficient at the use sites). -/
def natReprAux : Nat → Nat → Str
  | 0, _ => []
  | f + 1, n =>
    if n < 10 then [digitChar n]
    else natReprAux f (n / 10) ++ [digitChar (n % 10)]

/-- Python `str` on a non-negative `int`: decimal digits. -/
def natRepr (n : Nat) : Str := natReprAux (n + 1) n

/-- Value of a decimal digit character. -/
def digitVal (c : Char) : Nat := c.toNat - 48

/-- Parse decimal digits (left inverse of `natRepr`). -/
def parseNat (s : Str) : Nat := s.foldl (fun a c => a * 10 + digitVal c) 0

/-! ## `string.Template` substitution

The templates of `thesis_api/tools/template_strings.py` are Python
`string.Template`s; `substitute` scans for `$$`, `$identifier` and
`${identifier}` with identifiers `[_a-zA-Z][_a-zA-Z0-9]*`, raising
`KeyError` on a missing mapping entry and `ValueError` on a bare `$`. -/

/-- First character of a `string.Template` identifier. -/
def identHeadChar (c : Char) : Bool := c.isAlpha || c = '_'

/-- Later characters of a `string.Template` identifier. -/
def identTailChar (c : Char) : Bool := c.isAlphanum || c = '_'

/-- Association-list lookup for string-keyed mappings. -/
def lookupStr (m : List (Str × Str)) (k : Str) : Option Str :=
  match m with
  | [] => none
  | (k', v) :: rest => if k' = k then some v else lookupStr rest k

/-- Fuelled core of `string.Template.substitute` (the fuel is always
sufficient at the use sites, where it starts at the template length). -/
def substAux (m : List (Str × Str)) : Nat → Str → Except Err Str
  | _, [] => .ok []
  | 0, _ :: _ => .error .fuelE
  | f + 1, c :: rest =>
    if c = '$' then
      match rest with
      | '$' :: rest' => (substAux m f rest').map (fun t => '$' :: t)
      | '{' :: rest' =>
        match rest' with
        | d :: _ =>
          if identHeadChar d then
            match (rest'.dropWhile identTailChar) with
            | '}' :: rest'' =>
              match lookupStr m (rest'.takeWhile identTailChar) with
              | some v => (substAux m f rest'').map (fun t => v ++ t)
              | none => .error (.keyErrorE (rest'.takeWhile identTailChar))
            | _ => .error .valueE
          else .error .valueE
        | [] => .error .valueE
      | d :: rest' =>
        if identHeadChar d then
          match lookupStr m (d :: rest'.takeWhile identTailChar) with
          | some v =>
            (substAux m f (rest'.dropWhile identTailChar)).map (fun t => v ++ t)
          | none => .error (.keyErrorE (d :: rest'.takeWhile identTailChar))
        else .error .valueE
      | [] => .error .valueE
    else (substAux m f rest).map (fun t => c :: t)

/-- `string.Template.substitute(mapping)`. -/
def substT (tmpl : Str) (m : List (Str × Str)) : Except Err Str :=
  substAux m tmpl.length tmpl

/-! ## The template strings (`thesis_api/tools/template_strings.py`) -/

/-- `ChapterTemplate`. -/
def tmplChapter : Str :=
  ("% !TEX root = ../../main.tex\n\n\\chapter\x7b$title\x7d\n\\label\x7bcha:$label\x7d\n\nThis is a chapter.\n").toList

/-- `SectionTemplate`. -/
def tmplSection : Str :=
  ("\\section\x7b$title\x7d\n\\label\x7bsec:$label\x7d\n\nThis is a section within a chapter.\n").toList

/-- `SubsectionTemplate`. -/
def tmplSubsection : Str :=
  ("\\subsection\x7b$title\x7d\n\\label\x7bsubsec:$label\x7d\n\nThis is a subsection within a section.\n").toList

/-- `InputTemplate`. -/
def tmplInput : Str := ("\n\\input\x7b$path\x7d\n").toList

/-- `TableTemplate`. -/
def tmplTable : Str :=
  ("\\begingroup\n\\renewcommand\x7b\\arraystretch\x7d\x7b$arraystretch\x7d\n$data\n\\endgroup\n").toList

/-- `FigureTemplate` (the `short_caption` flag chooses the variant). -/
def tmplFigure (short : Bool) : Str :=
  if short then
    ("\\begin\x7bfigure\x7d[$position]\n\t\\centering\n\t\\includegraphics[width=$width\\textwidth]\x7b$path\x7d\n\t\\caption[$short_caption]\x7b$long_caption\x7d\n\t\\label\x7bfig:$label\x7d\n\\end\x7bfigure\x7d\n").toList
  else
    ("\\begin\x7bfigure\x7d[$position]\n\t\\centering\n\t\\includegraphics[width=$width\\textwidth]\x7b$path\x7d\n\t\\caption\x7b$caption\x7d\n\t\\label\x7bfig:$label\x7d\n\\end\x7bfigure\x7d\n").toList

/-- `CodeTemplate` (the `short_caption` flag chooses the variant). -/
def tmplCode (short : Bool) : Str :=
  if short then
    ("\\begin\x7blisting\x7d[$position]\n\t\\inputminted\x7b$language\x7d\x7b$path\x7d\n\t\\caption[$short_caption]\x7b$long_caption\x7d\n\t\\label\x7blst:$label\x7d\n\\end\x7blisting\x7d\n").toList
  else
    ("\\begin\x7blisting\x7d[$position]\n\t\\inputminted\x7b$language\x7d\x7b$path\x7d\n\t\\caption\x7b$caption\x7d\n\t\\label\x7blst:$label\x7d\n\\end\x7blisting\x7d\n").toList

/-- Python truthiness of an `Optional[str]` (`None` and `""` are falsy). -/
def truthyS : Option Str → Bool
  | none => false
  | some u => u ≠ []

/-- `SiUnitxTemplate.__init__`: the generated template string. -/
def tmplSiUnitx (unit : Option Str) (kwds : List (Str × Str)) : Str :=
  if kwds ≠ [] then
    (("\n").toList ++ (kwds.map (fun kv => kv.1 ++ ("=").toList ++ kv.2 ++ (",\n").toList)).flatten) |>
      (fun opt_args =>
        if truthyS unit then
          ("\\qty[").toList ++ opt_args ++ ("]\x7b$num\x7d\x7b$unit\x7d").toList
        else
          ("\\num[").toList ++ opt_args ++ ("]\x7b$num\x7d").toList)
  else
    if truthyS unit then ("\\qty\x7b$num\x7d\x7b$unit\x7d").toList
    else ("\\num\x7b$num\x7d").toList

/-! ## Path reformatting (`reformat_path`) -/

/-- Join segments with a separator. -/
def joinSep (sep : Str) : List Str → Str
  | [] => []
  | [x] => x
  | x :: y :: rest => x ++ sep ++ joinSep sep (y :: rest)

/-- The segment `"chapters"`. -/
def chaptersSeg : Str := ("chapters").toList

/-- Loop of `reformat_path`: scan the segments for `"chapters"`; from it
onward join with forward slashes; if it never occurs the whole path is
rendered with the OS separator (`f"{path}"`). -/
def reformatGo (sep : Str) (all : List Str) : List Str → Str
  | [] => joinSep sep all
  | q :: rest =>
    if q = chaptersSeg then joinSep (("/").toList) (q :: rest)
    else reformatGo sep all rest

/-- `reformat_path` of `thesis_api/tools/template_strings.py`, on the
segment view of the path; `sep` is the OS separator used by the
`f"{path}"` fallback. -/
def reformat_path (sep : Str) (parts : List Str) : Str :=
  reformatGo sep parts parts

/-- The OS path separator of the modelled host (POSIX). -/
def osSep : Str := ("/").toList

/-- The spec's description of the rewrite: the path's segments from the
first `"chapters"` segment onward (empty when there is none). -/
def fromChapters : List Str → List Str
  | [] => []
  | q :: rest => if q = chaptersSeg then q :: rest else fromChapters rest

/-- `InputTemplate.substitute`: rewrite the `path` value through
`reformat_path`, then substitute the template. -/
def inputSubstitute (sep : Str) (p : FPath) : Except Err Str :=
  substT tmplInput [(("path").toList, reformat_path sep p)]

/-- The rendered `\input` statement for a root-relative path (the value
`InputTemplate.substitute` produces; see `inputSubstitute_eq`). -/
def input_stmt (sep : Str) (p : FPath) : Str :=
  ("\n\\input\x7b").toList ++ reformat_path sep p ++ ("\x7d\n").toList

/-! ## The `Maintainer` (`thesis_api/tools/maintenance.py`)

The chapter/section/subsection descriptions are dicts with a documented
key order (`chapter`/`section`/`subsection` first, then the count, then
`figs`, `tabs`, `code`); they are embedded as records, with the
destructive `pop` reads turned into plain field reads (the pops only
mutate the caller's local dicts, never the filesystem). `section` and
`subsection` are Lean keywords, so those fields are named `sec` and
`subsec`. -/

/-- The `figs`/`tabs`/`code` booleans of a level description. -/
structure Ftc where
  figs : Bool
  tabs : Bool
  code : Bool
deriving DecidableEq

/-- A chapter description. -/
structure ChapterSpec where
  chapter : Nat
  num_sections : Nat
  ftc : Ftc
deriving DecidableEq

/-- A section description (`sec` is the `"section"` key). -/
structure SectionSpec where
  sec : Nat
  num_subsections : Nat
  ftc : Ftc
deriving DecidableEq

/-- A subsection description (`subsec` is the `"subsection"` key). -/
structure SubsectionSpec where
  subsec : Nat
  ftc : Ftc
deriving DecidableEq

/-- The `subsections` argument: a dict from section number (as a string)
to the list of subsection descriptions, in insertion order. -/
abbrev SubsecMap := List (Str × List SubsectionSpec)

/-- Association lookup (`dict.__getitem__` without the `KeyError`). -/
def lookupA {α : Type} : List (Str × α) → Str → Option α
  | [], _ => none
  | (k', v) :: rest, k => if k' = k then some v else lookupA rest k

/-- `LATEX_CONFIG_DIC["tex_file"]`. -/
def texExt : Str := (".tex").toList

/-- The `title`/`label` mapping keys. -/
def kTitle : Str := ("title").toList

/-- See `kTitle`. -/
def kLabel : Str := ("label").toList

/-- The failed-assertion message of the section-count check. -/
def msgSecMismatch (expected got : Nat) : Str :=
  ("Number of sections does not match!\nExpected: ").toList ++ natRepr expected ++
    (", Got: ").toList ++ natRepr got ++ ("!").toList

/-- The failed-assertion message of the subsection-count check. -/
def msgSubsecMismatch (expected got : Nat) : Str :=
  ("Number of subsections does not match!\nExpected: ").toList ++ natRepr expected ++
    (", Got: ").toList ++ natRepr got ++ ("!").toList

/-- The `figs` segment. -/
def figsSeg : Str := ("figs").toList

/-- The `tabs` segment. -/
def tabsSeg : Str := ("tabs").toList

/-- The `code` segment. -/
def codeSeg : Str := ("code").toList

/-- The `sections` segment. -/
def sectionsSeg : Str := ("sections").toList

/-- The `subsections` segment. -/
def subsectionsSeg : Str := ("subsections").toList

/-- The `-` of the generated titles. -/
def hyphen : Str := ("-").toList

/-- `chapter_` = `"chapter" + str(chapter_num)`. -/
def chapterNameOf (c : ChapterSpec) : Str := ("chapter").toList ++ natRepr c.chapter

/-- `chapters/chapterN`. -/
def chapterPathOf (c : ChapterSpec) : FPath := [chaptersSeg, chapterNameOf c]

/-- `chapters/chapterN/chapterN.tex`. -/
def chapterFileOf (c : ChapterSpec) : FPath :=
  chapterPathOf c ++ [chapterNameOf c ++ texExt]

/-- `sec_` = `"section" + str(sec_num)`. -/
def secNameOf (s : SectionSpec) : Str := ("section").toList ++ natRepr s.sec

/-- `chapters/chapterN/sections` (`sec_path`). -/
def secPathC (c : ChapterSpec) : FPath := chapterPathOf c ++ [sectionsSeg]

/-- `chapters/chapterN/sections/sectionM`. -/
def secDirOf (c : ChapterSpec) (s : SectionSpec) : FPath :=
  secPathC c ++ [secNameOf s]

/-- The section's `.tex` file. -/
def secFileOf (c : ChapterSpec) (s : SectionSpec) : FPath :=
  secDirOf c s ++ [secNameOf s ++ texExt]

/-- `subsec_` = `"subsection" + str(subsec_num)`. -/
def subsecNameOf (t : SubsectionSpec) : Str :=
  ("subsection").toList ++ natRepr t.subsec

/-- `chapters/chapterN/sections/sectionM/subsections` (`subsec_path`). -/
def subsecPathCS (c : ChapterSpec) (s : SectionSpec) : FPath :=
  secDirOf c s ++ [subsectionsSeg]

/-- The subsection's directory. -/
def subsecDirOf (c : ChapterSpec) (s : SectionSpec) (t : SubsectionSpec) : FPath :=
  subsecPathCS c s ++ [subsecNameOf t]

/-- The subsection's `.tex` file. -/
def subsecFileOf (c : ChapterSpec) (s : SectionSpec) (t : SubsectionSpec) : FPath :=
  subsecDirOf c s t ++ [subsecNameOf t ++ texExt]

/-- `Maintainer.tex_file`: write the template file only when the path
does not exist yet (first-writer-wins). -/
def tex_file (path : FPath) (temp : Str) : M Unit := do
  let fs ← M.getFS
  if existsP fs path then pure () else writeText path temp

/-- `Maintainer.create_ftc`: for each of `figs`, `tabs`, `code` (in dict
order), create the subfolder when its boolean is set, swallowing a
`FileExistsError`. -/
def create_ftc (path : FPath) (typ : Ftc) : M Unit :=
  (if typ.figs then catchFE (mkdirp false (path ++ [figsSeg])) else pure ()) >>= fun _ =>
    (if typ.tabs then catchFE (mkdirp false (path ++ [tabsSeg])) else pure ()) >>= fun _ =>
      (if typ.code then catchFE (mkdirp false (path ++ [codeSeg])) else pure ())

/-- The inner (subsection) loop of `Maintainer.init_chapter_dir`,
accumulating the section template text. -/
def subsecLoop (chapter_ sec_ : Str) (subsec_path : FPath) :
    List SubsectionSpec → Str → M Str
  | [], acc => pure acc
  | sub :: rest, acc => do
    let subsec_ := subsecNameOf sub
    let subsec_dir := subsec_path ++ [subsec_]
    mkdirp true subsec_dir
    let subsec_file := subsec_dir ++ [subsec_ ++ texExt]
    let t := chapter_ ++ hyphen ++ sec_ ++ hyphen ++ subsec_
    let content ← M.liftE (substT tmplSubsection [(kTitle, t), (kLabel, t)])
    tex_file subsec_file content
    create_ftc subsec_dir sub.ftc
    let inp ← M.liftE (inputSubstitute osSep subsec_file)
    subsecLoop chapter_ sec_ subsec_path rest (acc ++ inp)

/-- The outer (section) loop of `Maintainer.init_chapter_dir`,
accumulating the chapter template text.  `subsections[sec_num]` raises
`KeyError` when the key is missing, before any section directory is
created. -/
def secLoop (chapter_ : Str) (sec_path : FPath) (subsections : SubsecMap) :
    List SectionSpec → Str → M Str
  | [], acc => pure acc
  | s :: rest, acc => do
    let sec_num := natRepr s.sec
    let sec_ := secNameOf s
    match lookupA subsections sec_num with
    | none => M.throw (.keyErrorE sec_num)
    | some subs =>
      if s.num_subsections = subs.length then do
        let sec_dir := sec_path ++ [sec_]
        mkdirp true sec_dir
        let sec_file := sec_dir ++ [sec_ ++ texExt]
        let t := chapter_ ++ hyphen ++ sec_
        let sec_tstr ← M.liftE (substT tmplSection [(kTitle, t), (kLabel, t)])
        create_ftc sec_dir s.ftc
        let inp ← M.liftE (inputSubstitute osSep sec_file)
        let sec_tstr' ←
          if s.num_subsections ≠ 0 then do
            let subsec_path := sec_dir ++ [subsectionsSeg]
            mkdirp true subsec_path
            subsecLoop chapter_ sec_ subsec_path subs sec_tstr
          else pure sec_tstr
        tex_file sec_file sec_tstr'
        secLoop chapter_ sec_path subsections rest (acc ++ inp)
      else M.throw (.assertionE (msgSubsecMismatch s.num_subsections subs.length))

/-- `Maintainer.init_chapter_dir`: validate the section count, create
the chapter directory (fatal if it already exists), its `ftc`
subfolders, the section/subsection trees, and finally the chapter
`.tex` file. -/
def init_chapter_dir (chapter : ChapterSpec) (sections : List SectionSpec)
    (subsections : SubsecMap) : M Unit := do
  let chapter_ := chapterNameOf chapter
  if chapter.num_sections = sections.length then do
    let chapter_path := [chaptersSeg, chapter_]
    mkdirp false chapter_path
    let chapter_file := chapter_path ++ [chapter_ ++ texExt]
    create_ftc chapter_path chapter.ftc
    let ctstr ← M.liftE (substT tmplChapter [(kTitle, chapter_), (kLabel, chapter_)])
    let ctstr' ←
      if chapter.num_sections ≠ 0 then do
        let sec_path := chapter_path ++ [sectionsSeg]
        mkdirp true sec_path
        secLoop chapter_ sec_path subsections sections ctstr
      else pure ctstr
    tex_file chapter_file ctstr'
  else M.throw (.assertionE (msgSecMismatch chapter.num_sections sections.length))

/-! ## `\input` extraction (`PATTERN = "(?<=input{).*?(?=})"`) -/

/-- The lookbehind text of `PATTERN`. -/
def inputMarker : Str := ("input\x7b").toList

/-- The lazy `.*?(?=})` match after the lookbehind: the characters up to
the first `}`, failing when a newline (not matched by `.`) or the end of
the text comes first. -/
def grabTarget : Str → Option Str
  | [] => none
  | c :: cs =>
    if c = '}' then some []
    else if c = '\n' then none
    else (grabTarget cs).map (fun t => c :: t)

/-- Fuelled scan of `PATTERN.finditer`: at each position where the text
ahead starts with `input{`, capture up to the first `}` and resume at
that `}` (the end of the match), as `re.finditer` does. -/
def findInputsAux : Nat → Str → List Str
  | 0, _ => []
  | _ + 1, [] => []
  | f + 1, c :: cs =>
    if inputMarker.isPrefixOf (c :: cs) then
      match grabTarget ((c :: cs).drop 6) with
      | some tgt => tgt :: findInputsAux f ((c :: cs).drop (6 + tgt.length))
      | none => findInputsAux f cs
    else findInputsAux f cs

/-- All `\input{...}` targets of a text, in order (the string view of
`Maintainer.find_input`). -/
def findInputs (s : Str) : List Str := findInputsAux s.length s

/-- The `"."` path segment. -/
def dotSeg : Str := (".").toList

/-- Split a string on a separator character, keeping empty segments
(Python `str.split`); `cur` is the reversed current segment. -/
def splitChGo (sep : Char) : Str → Str → List Str
  | [], cur => [cur.reverse]
  | c :: rest, cur =>
    if c = sep then cur.reverse :: splitChGo sep rest []
    else splitChGo sep rest (c :: cur)

/-- `pathlib.Path(s).parts` for a relative slash-separated string:
split on `/`, dropping empty and `.` segments. -/
def parsePath (s : Str) : FPath :=
  (splitChGo '/' s []).filter (fun seg =>
    if seg = [] then false else if seg = dotSeg then false else true)

/-- Substring test (Python `in` on `str`). -/
def isInfixStr (pat : Str) : Str → Bool
  | [] => pat.isEmpty
  | c :: rest => pat.isPrefixOf (c :: rest) || isInfixStr pat rest

/-- Whether `p` lies strictly below the directory `root`. -/
def strictUnder (root p : FPath) : Bool :=
  root.isPrefixOf p && decide (root.length < p.length)

/-- How many `\input` targets of a text do not exist on disk relative to
the thesis root (each one increments `Maintainer._counter` and logs a
warning). -/
def brokenTargets (fs : FS) (content : Str) : Nat :=
  ((findInputs content).filter (fun t => !existsP fs (parsePath t))).length

/-- The number of broken `\input` references found below `root`: the sum
over every `.tex`-named file of its broken targets.  This is the count
accumulated by `Maintainer.check_inputs`' recursive descent (the
descent visits exactly the files below `root`; skipping empty
directories drops no file). -/
def brokenUnder (fs : FS) (root : FPath) : Nat :=
  (fs.map (fun pe =>
    match pe.2 with
    | .efile c =>
      if strictUnder root pe.1 && isInfixStr texExt (pe.1.getLastD []) then
        brokenTargets fs c
      else 0
    | .edir => 0)).sum

/-- `Maintainer.check_inputs`: recursively scan the directory `child`
for `.tex` files and add their broken-reference counts to the counter;
nothing else changes. -/
def check_inputs (child : FPath) : M Unit := fun s =>
  .ok () { s with counter := s.counter + brokenUnder s.fs child }

/-- `self._main_file` (thesis root relative). -/
def mainFile : FPath := [("main.tex").toList]

/-- The `self._chapter_dir.glob("chapter*/*.tex")` listing of
`Maintainer.check_main`. -/
def globChapterTex (fs : FS) : List FPath :=
  (fs.map Prod.fst).filter (fun p =>
    match p with
    | [a, b, c] =>
      a == chaptersSeg && (("chapter").toList).isPrefixOf b && texExt.isSuffixOf c
    | _ => false)

/-- `Maintainer.check_main`: read `main.tex`, extract its `\input`
targets and compute (log only) whether each exists; the glob comparison
loop's body is a no-op (`pass`).  Only reads happen. -/
def check_main : M Unit := do
  let temp ← readText mainFile
  let fs ← M.getFS
  let _ := (findInputs temp).map (fun t => existsP fs (parsePath t))
  let _ := globChapterTex fs
  pure ()

/-! ## `Chapter` and the table helpers (`thesis_api/dir_structure.py`) -/

/-- Python `str.lower` on an ASCII character. -/
def pyLower (c : Char) : Char :=
  if c.isUpper then Char.ofNat (c.toNat + 32) else c

/-- `location.lower().replace(" ", "")`. -/
def cleanseLoc (s : Str) : Str :=
  (s.map pyLower).filter (fun c => c != ' ')

/-- The `Chapter.__init__` location parse:
`location.lower().replace(" ", "").split("\n")`. -/
def locationOf (location : Str) : List Str :=
  splitChGo '\n' (cleanseLoc location) []

/-- `filename.split(".")[-1].lower()`. -/
def fmtOf (filename : Str) : Str :=
  ((splitChGo '.' filename []).getLastD []).map pyLower

/-- The fields a `Chapter` instance stores (loggers aside). -/
structure ChapterObj where
  chapterDir : FPath
  location : List Str
  filename : Str
  fmt : Str
  folder : Str
deriving DecidableEq

/-- `Chapter.__init__`. -/
def mkChapter (filename : Str) (chapter_dir : FPath) (location : Str) (typ : Str) :
    ChapterObj :=
  { chapterDir := chapter_dir
    location := locationOf location
    filename := filename
    fmt := fmtOf filename
    folder := typ.map pyLower }

/-- `Chapter._construct_path`: zip the location segments with the fixed
`("", "sections/", "subsections/")` folder prefixes, concatenate each
`folder + loc + "/"`, and join onto the chapter directory (`pathlib`
normalises away the empty and `.` segments the concatenation can
produce). -/
def construct_path (chapter_dir : FPath) (loc : List Str) : FPath :=
  chapter_dir ++ parsePath
    ((([([] : Str), ("sections/").toList, ("subsections/").toList].zip loc).map
      (fun fl => fl.1 ++ fl.2 ++ ("/").toList)).flatten)

/-- `Chapter.update`: render the `\input` statement for `child`, read
the parent, and append the statement at the end unless it already occurs
verbatim in the parent's text. -/
def update (parent child : FPath) : M Unit := do
  let string_ ← M.liftE (inputSubstitute osSep child)
  let temp ← readText parent
  if isInfixStr string_ temp then pure ()
  else writeText parent (temp ++ string_)

/-- Python `str(int)`. -/
def intRepr : Int → Str
  | .ofNat n => natRepr n
  | .negSucc n => '-' :: natRepr (n + 1)

/-- The `num`/`unit` mapping keys. -/
def kNum : Str := ("num").toList

/-- See `kNum`. -/
def kUnit : Str := ("unit").toList

/-- `format_table` of `thesis_api/dir_structure.py`: build the
`SiUnitxTemplate` for the unit/keywords and substitute the number (and
unit) into it.  The embedding covers integer data values; `str(number)`
is `intRepr`. -/
def format_table (number : Int) (unit : Option Str) (kwds : List (Str × Str)) :
    Except Err Str :=
  if truthyS unit then
    substT (tmplSiUnitx unit kwds) [(kNum, intRepr number), (kUnit, unit.getD [])]
  else
    substT (tmplSiUnitx unit kwds) [(kNum, intRepr number)]

/-- `f"{number:.6f}"` on an integer value: the decimal digits followed
by six zero decimals. -/
def fixed6 (i : Int) : Str := intRepr i ++ (".000000").toList

/-- `format_table` of the earlier `api/dir_structure.py` revision:
`f"\SI{{{number:.6f}}}{{{unit}}}" if unit else f"\num{{{number:.6f}}}"`. -/
def format_table_api (number : Int) (unit : Option Str) : Str :=
  if truthyS unit then
    ("\\SI\x7b").toList ++ fixed6 number ++ ("\x7d\x7b").toList ++ unit.getD [] ++
      ("\x7d").toList
  else ("\\num\x7b").toList ++ fixed6 number ++ ("\x7d").toList

/-- The `column_type` argument: a LaTeX measure string or a list of
user-defined measures. -/
inductive ColType where
  | cstr (s : Str)
  | clst (l : List Str)
deriving DecidableEq

/-- Python `len` on a column type. -/
def colTypeLen : ColType → Nat
  | .cstr s => s.length
  | .clst l => l.length

/-- Python truthiness of the popped `column_type` (`None`, `""` and
`[]` are falsy). -/
def truthyCT : Option ColType → Bool
  | none => false
  | some (.cstr s) => s ≠ []
  | some (.clst l) => l ≠ []

/-- The column-count mismatch message
`"The number of columns {} does not match the number of columns in the data {}!"`. -/
def msgColMismatch (n num_data : Nat) : Str :=
  ("The number of columns ").toList ++ natRepr n ++
    (" does not match the number of columns in the data ").toList ++
    natRepr num_data ++ ("!").toList

/-- The lookbehind text of `col_re = "(?<=tabular}{).*?(?=})"`. -/
def tabularMarker : Str := ("tabular\x7d\x7b").toList

/-- Fuelled `col_re.sub(repl, data)`: each lazily captured span between
`tabular}{` and the next `}` is replaced by `repl`. -/
def colReSubAux (repl : Str) : Nat → Str → Str
  | 0, s => s
  | _ + 1, [] => []
  | f + 1, c :: cs =>
    if tabularMarker.isPrefixOf (c :: cs) then
      match grabTarget ((c :: cs).drop 9) with
      | some tgt =>
        (c :: cs).take 9 ++ repl ++ colReSubAux repl f ((c :: cs).drop (9 + tgt.length))
      | none => c :: colReSubAux repl f cs
    else c :: colReSubAux repl f cs

/-- `col_re.sub(repl, data)`. -/
def colReSub (repl : Str) (data : Str) : Str := colReSubAux repl data.length data

/-- Insert before index `n` (Python `list.insert` for an in-range
index; past the end it appends). -/
def insertAt {α : Type} (n : Nat) (a : α) : List α → List α
  | [] => [a]
  | x :: xs =>
    match n with
    | 0 => a :: x :: xs
    | m + 1 => x :: insertAt m a xs

/-- Delete index `n` (Python `del l[n]` for an in-range index). -/
def eraseAt {α : Type} (n : Nat) : List α → List α
  | [] => []
  | x :: xs =>
    match n with
    | 0 => xs
    | m + 1 => x :: eraseAt m xs

/-- `Chapter._rewrite_table`: optionally substitute the column-type
string into the `tabular` header (after asserting its length matches
the data's column count; the failed assertion is logged and re-raised
with the mismatch message as its cause), and for a bottom caption move
the caption and label lines (fixed at indices 2 and 3 of the
pandas-generated text) to just before the last two lines.  Reading a
width from a measure without digits raises (`re.search(...) = None`,
`AttributeError` on `.group()`). -/
def rewrite_table (data : Str) (num_data : Nat) (column_type : Option ColType)
    (top_caption : Bool) : Except Err Str := do
  let data₁ ←
    if truthyCT column_type then
      match column_type with
      | some ct =>
        if colTypeLen ct = num_data then
          match ct with
          | .clst l =>
            if l.any (fun w => !w.any (fun c => c.isDigit)) then
              Except.error Err.attrE
            else Except.ok (colReSub l.flatten data)
          | .cstr s => Except.ok (colReSub s data)
        else Except.error (Err.assertionE (msgColMismatch (colTypeLen ct) num_data))
      | none => Except.ok data
    else Except.ok data
  if !top_caption then
    let temp := splitChGo '\n' data₁ []
    if temp.length < 4 then Except.error Err.indexE
    else
      let cap := temp.getD 2 []
      let labl := temp.getD 3 []
      let t₁ := eraseAt 2 (eraseAt 2 temp)
      let t₂ := insertAt (t₁.length - 2) cap t₁
      let t₃ := insertAt (t₂.length - 2) labl t₂
      Except.ok (joinSep (("\n").toList) t₃)
  else Except.ok data₁

/-- The popped `latex_args` dict of `Chapter.save_tab`. -/
structure LatexArgs where
  arraystretch : Option Str
  column_type : Option ColType
  top_caption : Option Bool
deriving DecidableEq

/-- Python truthiness of the `latex_args` dict (`not latex_args`). -/
def latexArgsEmpty (a : LatexArgs) : Bool :=
  a.arraystretch.isNone && a.column_type.isNone && a.top_caption.isNone

/-- The `arraystretch`/`data` mapping keys. -/
def kArraystretch : Str := ("arraystretch").toList

/-- See `kArraystretch`. -/
def kData : Str := ("data").toList

/-- `list(goal_dir.glob("*.tex"))[0]`: the first recorded entry one
level below `goal_dir` whose name ends in `.tex`. -/
def firstTexIn (fs : FS) (dir : FPath) : Option FPath :=
  (fs.map Prod.fst).find? (fun p =>
    p.dropLast == dir && texExt.isSuffixOf (p.getLastD []))

/-- `Chapter.save_tab`.  The external `pandas` dataset is abstracted by
its column count `dataCols` and its `to_latex` rendering `dataStr`
(`data_desc` and `format_cols` only feed that external call).  The flow:
resolve the goal directory, create the type folder, rewrite the table
text (the count-mismatch assertion lives there), fill and write the
table template file, then link the table back into the single parent
`.tex` file of the goal directory. -/
def save_tab (ch : ChapterObj) (dataCols : Nat) (dataStr : Str)
    (latex_args : LatexArgs) : M Unit := do
  let goal_dir := construct_path ch.chapterDir ch.location
  let child_folder := goal_dir ++ [ch.folder]
  let fs₀ ← M.getFS
  if !existsP fs₀ child_folder then mkdirp true child_folder else pure ()
  let child_filename := child_folder ++ [ch.filename]
  let arraystretchV :=
    if latexArgsEmpty latex_args then some (("1.8").toList)
    else latex_args.arraystretch
  let column_type := latex_args.column_type
  let top_caption := latex_args.top_caption.getD false
  let data' ← M.liftE (rewrite_table dataStr dataCols column_type top_caption)
  let m := (match arraystretchV with
    | some v => [(kArraystretch, v)]
    | none => []) ++ [(kData, data')]
  let content ← M.liftE (substT tmplTable m)
  writeText child_filename content
  let fs₁ ← M.getFS
  match firstTexIn fs₁ goal_dir with
  | none => M.throw Err.indexE
  | some parent => update parent child_filename

/-! ## `_CaptionTemplate.substitute` -/

/-- A Python mapping value: a string, a `pathlib.Path`, or a
`(long, short)` caption tuple. -/
inductive PyVal where
  | vstr (s : Str)
  | vpath (p : FPath)
  | vpair (a b : Str)
deriving DecidableEq

/-- `str()` of a mapping value (`sep` renders a `Path`).  A tuple value
is popped before any substitution reaches it; its rendering is
unreachable and returns the first component. -/
def pyStr (sep : Str) : PyVal → Str
  | .vstr s => s
  | .vpath p => joinSep sep p
  | .vpair a _ => a

/-- Python dict assignment: replace in place, else append. -/
def dictSet (m : List (Str × PyVal)) (k : Str) (v : PyVal) : List (Str × PyVal) :=
  match m with
  | [] => [(k, v)]
  | (k', v') :: rest => if k' = k then (k, v) :: rest else (k', v') :: dictSet rest k v

/-- Python `dict.pop(k)` (the removal part). -/
def dictPop (m : List (Str × PyVal)) (k : Str) : List (Str × PyVal) :=
  match m with
  | [] => []
  | (k', v') :: rest => if k' = k then rest else (k', v') :: dictPop rest k

/-- The `path`/`caption` mapping keys. -/
def kPath : Str := ("path").toList

/-- See `kPath`. -/
def kCaption : Str := ("caption").toList

/-- See `kPath`. -/
def kShortCaption : Str := ("short_caption").toList

/-- See `kPath`. -/
def kLongCaption : Str := ("long_caption").toList

/-- `_CaptionTemplate.substitute`: with a short caption, unpack the
caption tuple into `short_caption`/`long_caption` and pop `caption`;
then rewrite the `path` value through `reformat_path`; finally
substitute the template over the `str()`-rendered mapping. -/
def capSubstitute (sep : Str) (short : Bool) (tmpl : Str)
    (m : List (Str × PyVal)) : Except Err Str := do
  let m₁ ←
    if short then
      match lookupA m kCaption with
      | some (.vpair a b) =>
        Except.ok (dictPop (dictSet (dictSet m kShortCaption (.vstr b)) kLongCaption
          (.vstr a)) kCaption)
      | some _ => Except.error Err.typeE
      | none => Except.error (Err.keyErrorE kCaption)
    else Except.ok m
  let child ←
    match lookupA m₁ kPath with
    | some (.vpath p) => Except.ok (reformat_path sep p)
    | some _ => Except.error Err.attrE
    | none => Except.error (Err.keyErrorE kPath)
  substT tmpl ((dictSet m₁ kPath (.vstr child)).map (fun kv => (kv.1, pyStr sep kv.2)))

/-! ## The scaffold a fresh `init_chapter_dir` run produces

Pure descriptions of the names, paths and file contents generated by
`init_chapter_dir`, used to state its correctness. -/

/-- The directory entries `create_ftc` adds below a fresh `path`. -/
def ftcDirs (p : FPath) (t : Ftc) : FS :=
  (if t.figs then [(p ++ [figsSeg], Entry.edir)] else []) ++
    (if t.tabs then [(p ++ [tabsSeg], Entry.edir)] else []) ++
    (if t.code then [(p ++ [codeSeg], Entry.edir)] else [])

/-- The instantiated `ChapterTemplate` (see `substT_chapter`). -/
def chapterContent (name : Str) : Str :=
  ("% !TEX root = ../../main.tex\n\n\\chapter\x7b").toList ++ name ++
    ("\x7d\n\\label\x7bcha:").toList ++ name ++ ("\x7d\n\nThis is a chapter.\n").toList

/-- The instantiated `SectionTemplate`. -/
def sectionContent (t : Str) : Str :=
  ("\\section\x7b").toList ++ t ++ ("\x7d\n\\label\x7bsec:").toList ++ t ++
    ("\x7d\n\nThis is a section within a chapter.\n").toList

/-- The instantiated `SubsectionTemplate`. -/
def subsectionContent (t : Str) : Str :=
  ("\\subsection\x7b").toList ++ t ++ ("\x7d\n\\label\x7bsubsec:").toList ++ t ++
    ("\x7d\n\nThis is a subsection within a section.\n").toList

/-- The subsection list of a section (`subsections[str(sec_num)]`). -/
def subsOf (subsections : SubsecMap) (s : SectionSpec) : List SubsectionSpec :=
  (lookupA subsections (natRepr s.sec)).getD []

/-- The `.tex` files a fresh `init_chapter_dir` run writes, with their
contents, in creation order: for each section its subsection files then
the section file, and the chapter file last. -/
def expectedFiles (c : ChapterSpec) (secs : List SectionSpec)
    (subsections : SubsecMap) : List (FPath × Str) :=
  (secs.map (fun s =>
    ((subsOf subsections s).map (fun t =>
      (subsecFileOf c s t,
        subsectionContent (chapterNameOf c ++ hyphen ++ secNameOf s ++ hyphen ++
          subsecNameOf t)))) ++
    [(secFileOf c s,
      sectionContent (chapterNameOf c ++ hyphen ++ secNameOf s) ++
        ((subsOf subsections s).map (fun t =>
          input_stmt osSep (subsecFileOf c s t))).flatten)])).flatten ++
  [(chapterFileOf c,
    chapterContent (chapterNameOf c) ++
      (secs.map (fun s => input_stmt osSep (secFileOf c s))).flatten)]

/-! ## Result projections (used to state concrete runs) -/

/-- Whether a run succeeded. -/
def resOk {α : Type} : Res α → Bool
  | .ok _ _ => true
  | .err _ _ => false

/-- The final state of a run (also on an exception: Python keeps the
mutations made before the raise). -/
def resSt {α : Type} : Res α → St
  | .ok _ s => s
  | .err _ s => s

/-- The text of the file at `p` (empty when absent or a directory). -/
def contentAt (fs : FS) (p : FPath) : Str :=
  match entryAt fs p with
  | some (.efile c) => c
  | _ => []

/-- The regular files of a filesystem, with their contents, in
creation order. -/
def filesOf (fs : FS) : List (FPath × Str) :=
  fs.filterMap (fun pe =>
    match pe.2 with
    | .efile c => some (pe.1, c)
    | .edir => none)

/-- The paths of the `.tex`-named files of a filesystem (the files
`check_inputs` scans). -/
def texFilePaths (fs : FS) : List FPath :=
  ((filesOf fs).map Prod.fst).filter (fun p => isInfixStr texExt (p.getLastD []))

/-- A text free of the adjacent pair `t{`, hence free of the `input{`
marker of `PATTERN`. -/
def TBFree (s : Str) : Prop := ∀ u v : Str, s ≠ u ++ 't' :: '{' :: v

/-- Bool check that no `t` is immediately followed by `\x7b`. -/
def pairFreeTB : Str → Bool
  | [] => true
  | [_] => true
  | a :: b :: rest => if a = 't' ∧ b = ('{') then false else pairFreeTB (b :: rest)

/-- A path segment without `\x7d`, newline or slash. -/
def CleanSeg (s : Str) : Prop := ∀ c ∈ s, c ≠ ('}') ∧ c ≠ '\n' ∧ c ≠ '/'

/-- The filesystem entries the subsection loop appends, in creation
order: for each subsection its directory, its `.tex` file and its `ftc`
subfolders. -/
def subsecScaffold (c : ChapterSpec) (s : SectionSpec) : List SubsectionSpec → FS
  | [] => []
  | t :: rest =>
    ([(subsecDirOf c s t, Entry.edir),
      (subsecFileOf c s t, Entry.efile (subsectionContent (chapterNameOf c ++ hyphen ++
        secNameOf s ++ hyphen ++ subsecNameOf t)))] ++
      ftcDirs (subsecDirOf c s t) t.ftc) ++ subsecScaffold c s rest

/-- The filesystem entries the section loop appends, in creation order:
for each section its directory, `ftc` subfolders, the `subsections`
tree when requested, and the section `.tex` file. -/
def secScaffold (c : ChapterSpec) (subsections : SubsecMap) : List SectionSpec → FS
  | [] => []
  | s :: rest =>
    ([(secDirOf c s, Entry.edir)] ++ ftcDirs (secDirOf c s) s.ftc ++
      (if s.num_subsections ≠ 0 then
        [(subsecPathCS c s, Entry.edir)] ++ subsecScaffold c s (subsOf subsections s)
      else []) ++
      [(secFileOf c s, Entry.efile (sectionContent (chapterNameOf c ++ hyphen ++
        secNameOf s) ++
        ((subsOf subsections s).map (fun t => input_stmt osSep (subsecFileOf c s t))).flatten))]) ++
    secScaffold c subsections rest

/-- All entries a fresh `init_chapter_dir` run appends below the
`chapters` directory. -/
def chapterScaffold (c : ChapterSpec) (secs : List SectionSpec)
    (subsections : SubsecMap) : FS :=
  [(chapterPathOf c, Entry.edir)] ++ ftcDirs (chapterPathOf c) c.ftc ++
    (if c.num_sections ≠ 0 then
      [(secPathC c, Entry.edir)] ++ secScaffold c subsections secs
    else []) ++
    [(chapterFileOf c, Entry.efile (chapterContent (chapterNameOf c) ++
      (secs.map (fun s => input_stmt osSep (secFileOf c s))).flatten))]

/-- The filesystem with the `chapters` directory present (`mkdir` with
`parents=True` creates it when missing). -/
def withChaptersDir (fs : FS) : FS :=
  if existsP fs [chaptersSeg] then fs else fs ++ [([chaptersSeg], Entry.edir)]

/-- A segment that survives the join/parse round trip: nonempty, not
`.`, clean. -/
def GoodSeg (s : Str) : Prop := s ≠ [] ∧ s ≠ dotSeg ∧ CleanSeg s

/-! # Theorems -/

@[simp] theorem M_bind_apply {α β : Type} (x : M α) (f : α → M β) (s : St) :
    (x >>= f) s =
      match x s with
      | .ok a s' => f a s'
      | .err e s' => .err e s' := rfl

@[simp] theorem M_pure_apply {α : Type} (a : α) (s : St) :
    (pure a : M α) s = .ok a s := rfl

@[simp] theorem M_liftE_apply {α : Type} (x : Except Err α) (s : St) :
    M.liftE x s =
      match x with
      | .ok a => .ok a s
      | .error e => .err e s := rfl

@[simp] theorem M_throw_apply {α : Type} (e : Err) (s : St) :
    (M.throw e : M α) s = .err e s := rfl

@[simp] theorem M_getFS_apply (s : St) : M.getFS s = .ok s.fs s := rfl

theorem entryAt_append (a b : FS) (p : FPath) :
    entryAt (a ++ b) p =
      match entryAt a p with
      | some e => some e
      | none => entryAt b p := by
  induction a with
  | nil => simp [entryAt]
  | cons hd tl ih =>
    obtain ⟨q, e⟩ := hd
    by_cases hq : q = p <;> simp [entryAt, hq, ih]

theorem entryAt_replaceContent_self {fs : FS} {p : FPath} {txt t : Str}
    (h : entryAt fs p = some (.efile t)) :
    entryAt (replaceContent fs p txt) p = some (.efile txt) := by
  induction fs with
  | nil => simp [entryAt] at h
  | cons hd tl ih =>
    obtain ⟨q, e⟩ := hd
    by_cases hq : q = p
    · simp [entryAt, replaceContent, hq]
    · simp [entryAt, hq] at h
      simp [entryAt, replaceContent, hq, ih h]

theorem entryAt_replaceContent_ne {fs : FS} {p : FPath} {txt : Str} {q : FPath}
    (h : q ≠ p) :
    entryAt (replaceContent fs p txt) q = entryAt fs q := by
  induction fs with
  | nil => simp [replaceContent]
  | cons hd tl ih =>
    obtain ⟨r, e⟩ := hd
    by_cases hr : r = p
    · subst hr
      simp [entryAt, replaceContent, Ne.symm h]
    · by_cases hrq : r = q <;>
        simp [entryAt, replaceContent, hr, hrq, ih, h, Ne.symm h]

theorem writeText_existing {fs : FS} {cnt : Nat} {p : FPath} {txt t : Str}
    (h : entryAt fs p = some (.efile t)) :
    writeText p txt ⟨fs, cnt⟩ = .ok () ⟨replaceContent fs p txt, cnt⟩ := by
  simp [writeText, h]

theorem readText_file {fs : FS} {cnt : Nat} {p : FPath} {t : Str}
    (h : entryAt fs p = some (.efile t)) :
    readText p ⟨fs, cnt⟩ = .ok t ⟨fs, cnt⟩ := by
  simp [readText, h]

theorem inputSubstitute_eq (sep : Str) (p : FPath) :
    inputSubstitute sep p = .ok (input_stmt sep p) := rfl

theorem isPrefixOf_self (l : Str) : l.isPrefixOf l = true := by
  induction l with
  | nil => rfl
  | cons c cs ih => simp [List.isPrefixOf, ih]

theorem isInfixStr_append_self (pat t : Str) : isInfixStr pat (t ++ pat) = true := by
  induction t with
  | nil =>
    cases pat with
    | nil => rfl
    | cons c cs => simp [isInfixStr, isPrefixOf_self]
  | cons c cs ih => simp [isInfixStr, ih]

theorem update_run {fs : FS} {cnt : Nat} {parent child : FPath} {text : Str}
    (h : entryAt fs parent = some (.efile text)) :
    update parent child ⟨fs, cnt⟩ =
      if isInfixStr (input_stmt osSep child) text then .ok () ⟨fs, cnt⟩
      else .ok () ⟨replaceContent fs parent (text ++ input_stmt osSep child), cnt⟩ := by
  by_cases hin : isInfixStr (input_stmt osSep child) text <;>
    simp [update, inputSubstitute_eq, readText_file h, hin, writeText_existing h]

/-- C10: `Chapter.update(parent, child)` is append-only on the parent
file: whatever the parent's prior text, the text after the call has the
prior text as a prefix (nothing is deleted, truncated or rewritten),
and no other filesystem entry changes. -/
theorem chapter_update_append_only (fs : FS) (cnt : Nat) (parent child : FPath)
    (text : Str) (h : entryAt fs parent = some (.efile text)) :
    ∃ fs', update parent child ⟨fs, cnt⟩ = .ok () ⟨fs', cnt⟩ ∧
      (∃ t', entryAt fs' parent = some (.efile t') ∧ text <+: t') ∧
      ∀ q, q ≠ parent → entryAt fs' q = entryAt fs q := by
  rw [update_run h]
  by_cases hin : isInfixStr (input_stmt osSep child) text
  · refine ⟨fs, by simp [hin], ⟨text, h, List.prefix_refl text⟩, fun q _ => rfl⟩
  · refine ⟨replaceContent fs parent (text ++ input_stmt osSep child), by simp [hin],
      ⟨text ++ input_stmt osSep child, entryAt_replaceContent_self h,
        List.prefix_append text _⟩,
      fun q hq => entryAt_replaceContent_ne hq⟩

/-- Closed witness for `chapter_update_append_only`. -/
theorem chapter_update_append_only_witness :
    entryAt [([("chapter1.tex").toList], Entry.efile [])] [("chapter1.tex").toList] =
      some (Entry.efile []) ∧
    (∃ fs', update [("chapter1.tex").toList] [("f.tex").toList]
        ⟨[([("chapter1.tex").toList], Entry.efile [])], 0⟩ = .ok () ⟨fs', 0⟩ ∧
      (∃ t', entryAt fs' [("chapter1.tex").toList] = some (.efile t') ∧
        ([] : Str) <+: t') ∧
      ∀ q, q ≠ [("chapter1.tex").toList] →
        entryAt fs' q = entryAt [([("chapter1.tex").toList], Entry.efile [])] q) :=
  ⟨by decide, chapter_update_append_only _ 0 _ _ [] (by decide)⟩

/-- C4: `Chapter.update(parent, child)` appends the rendered input
statement if and only if that exact string is not already a substring of
the parent's text; a second identical call leaves the parent file (and
the whole filesystem) unchanged. -/
theorem chapter_update_idempotent (fs : FS) (cnt : Nat) (parent child : FPath)
    (text : Str) (h : entryAt fs parent = some (.efile text)) :
    ∃ fs', update parent child ⟨fs, cnt⟩ = .ok () ⟨fs', cnt⟩ ∧
      (isInfixStr (input_stmt osSep child) text = true → fs' = fs) ∧
      (isInfixStr (input_stmt osSep child) text = false →
        entryAt fs' parent = some (.efile (text ++ input_stmt osSep child))) ∧
      update parent child ⟨fs', cnt⟩ = .ok () ⟨fs', cnt⟩ := by
  rw [update_run h]
  by_cases hin : isInfixStr (input_stmt osSep child) text
  · exact ⟨fs, by simp [hin], fun _ => rfl, fun hf => absurd hin (by simp [hf]),
      by rw [update_run h]; simp [hin]⟩
  · refine ⟨replaceContent fs parent (text ++ input_stmt osSep child), by simp [hin],
      fun ht => absurd ht (by simp [hin]), fun _ => entryAt_replaceContent_self h, ?_⟩
    rw [update_run (entryAt_replaceContent_self h)]
    simp [isInfixStr_append_self]

/-- Closed witness for `chapter_update_idempotent`. -/
theorem chapter_update_idempotent_witness :
    entryAt [([("chapter1.tex").toList], Entry.efile [])] [("chapter1.tex").toList] =
      some (Entry.efile []) ∧
    (∃ fs', update [("chapter1.tex").toList] [("g.tex").toList]
        ⟨[([("chapter1.tex").toList], Entry.efile [])], 0⟩ = .ok () ⟨fs', 0⟩ ∧
      (isInfixStr (input_stmt osSep [("g.tex").toList]) [] = true →
        fs' = [([("chapter1.tex").toList], Entry.efile [])]) ∧
      (isInfixStr (input_stmt osSep [("g.tex").toList]) [] = false →
        entryAt fs' [("chapter1.tex").toList] =
          some (.efile ([] ++ input_stmt osSep [("g.tex").toList]))) ∧
      update [("chapter1.tex").toList] [("g.tex").toList] ⟨fs', 0⟩ = .ok () ⟨fs', 0⟩) :=
  ⟨by decide, chapter_update_idempotent _ 0 _ _ [] (by decide)⟩


/-- C8: with a readable `main.tex`, `Maintainer.check_main` only reads
and logs: it returns with the state (filesystem and broken-reference
counter alike) exactly as it found it; no file is created or
modified. -/
theorem check_main_reads_only (st : St) (text : Str)
    (h : entryAt st.fs mainFile = some (.efile text)) :
    check_main st = .ok () st := by
  simp [check_main, readText, h]

/-- Closed witness for `check_main_reads_only`. -/
theorem check_main_reads_only_witness :
    check_main (St.mk [([("main.tex").toList], Entry.efile [])] 5) =
      .ok () (St.mk [([("main.tex").toList], Entry.efile [])] 5) ∧
    entryAt [([("main.tex").toList], Entry.efile [])] mainFile = some (Entry.efile []) :=
  ⟨check_main_reads_only _ [] (by decide), by decide⟩

/-- C3: when the target directory `chapters/chapterN` already exists (as
a directory) and the section count matches, `init_chapter_dir` raises
the `FileExistsError` of the chapter `mkdir` and re-raises it to the
caller with the filesystem completely unchanged: nothing of the
pre-existing tree is created, overwritten or removed. -/
theorem init_existing_chapter_fatal (st : St) (chapter : ChapterSpec)
    (sections : List SectionSpec) (subsections : SubsecMap)
    (hcount : chapter.num_sections = sections.length)
    (hex : entryAt st.fs [chaptersSeg, ("chapter").toList ++ natRepr chapter.chapter] =
      some .edir) :
    init_chapter_dir chapter sections subsections st =
      .err (.fileExistsE [chaptersSeg, ("chapter").toList ++ natRepr chapter.chapter]) st := by
  have hex' : entryAt st.fs [chaptersSeg, chapterNameOf chapter] = some .edir := hex
  have hm : mkdirp false [chaptersSeg, chapterNameOf chapter] st =
      .err (.fileExistsE [chaptersSeg, chapterNameOf chapter]) st := by
    unfold mkdirp
    rw [hex']
    rfl
  unfold init_chapter_dir
  rw [if_pos hcount]
  simp only [M_bind_apply, hm]
  rfl

/-- Closed witness for `init_existing_chapter_fatal`. -/
theorem init_existing_chapter_fatal_witness :
    (ChapterSpec.mk 1 0 ⟨false, false, false⟩).num_sections =
      ([] : List SectionSpec).length ∧
    entryAt [([("chapters").toList], Entry.edir),
        ([("chapters").toList, ("chapter1").toList], Entry.edir)]
      [chaptersSeg, ("chapter").toList ++ natRepr 1] = some .edir ∧
    init_chapter_dir (ChapterSpec.mk 1 0 ⟨false, false, false⟩) [] []
        (St.mk [([("chapters").toList], Entry.edir),
          ([("chapters").toList, ("chapter1").toList], Entry.edir)] 0) =
      .err (.fileExistsE [chaptersSeg, ("chapter").toList ++ natRepr 1])
        (St.mk [([("chapters").toList], Entry.edir),
          ([("chapters").toList, ("chapter1").toList], Entry.edir)] 0) :=
  ⟨by decide, by decide, init_existing_chapter_fatal _ _ _ _ (by decide) (by decide)⟩

/-- C6 counterexample: the `format_table` of `thesis_api/dir_structure.py`
substitutes `str(number)` into the siunitx template, so `1` is rendered
as `\num{1}`, not as the fixed 6-decimal literal `\num{1.000000}` that
the earlier `api/dir_structure.py` revision produces. -/
theorem format_table_not_fixed6 :
    format_table 1 none [] = .ok (("\\num\x7b1\x7d").toList) ∧
    format_table_api 1 none = ("\\num\x7b1.000000\x7d").toList ∧
    (("\\num\x7b1\x7d").toList : Str) ≠ ("\\num\x7b1.000000\x7d").toList :=
  ⟨by decide, by decide, by decide⟩

/-- C6 (amended): the `api/` revision of `format_table` renders the
value as a fixed 6-decimal literal, wrapped in the unit macro `\SI` for
a non-empty unit and in the bare-quantity macro `\num` otherwise; the
current `thesis_api` revision wraps the value's plain string
representation in `\qty` (with a non-empty unit) or `\num` (without). -/
theorem format_table_rendering (n : Int) (u : Str) (hu : u ≠ []) :
    format_table_api n (some u) =
      ("\\SI\x7b").toList ++ intRepr n ++ (".000000\x7d\x7b").toList ++ u ++ ("\x7d").toList ∧
    format_table_api n none =
      ("\\num\x7b").toList ++ intRepr n ++ (".000000\x7d").toList ∧
    format_table n (some u) [] =
      .ok (("\\qty\x7b").toList ++ intRepr n ++ ("\x7d\x7b").toList ++ u ++ ("\x7d").toList) ∧
    format_table n none [] =
      .ok (("\\num\x7b").toList ++ intRepr n ++ ("\x7d").toList) := by
  have h1 : truthyS (some u) = true := by simp [truthyS, hu]
  refine ⟨?_, ?_, ?_, rfl⟩
  · simp [format_table_api, h1, fixed6, List.append_assoc]
  · simp [format_table_api, fixed6, truthyS, List.append_assoc]
  · simp [format_table, tmplSiUnitx, h1]
    rfl

/-- Closed witness for `format_table_rendering`. -/
theorem format_table_rendering_witness :
    (("m").toList : Str) ≠ [] ∧
    (format_table_api 2 (some (("m").toList)) =
      ("\\SI\x7b").toList ++ intRepr 2 ++ (".000000\x7d\x7b").toList ++ ("m").toList ++
        ("\x7d").toList ∧
    format_table_api 2 none =
      ("\\num\x7b").toList ++ intRepr 2 ++ (".000000\x7d").toList ∧
    format_table 2 (some (("m").toList)) [] =
      .ok (("\\qty\x7b").toList ++ intRepr 2 ++ ("\x7d\x7b").toList ++ ("m").toList ++
        ("\x7d").toList) ∧
    format_table 2 none [] =
      .ok (("\\num\x7b").toList ++ intRepr 2 ++ ("\x7d").toList)) :=
  ⟨by decide, format_table_rendering 2 _ (by decide)⟩

theorem reformatGo_chapters (sep : Str) :
    ∀ (l all : List Str), chaptersSeg ∈ l →
      reformatGo sep all l = joinSep (("/").toList) (fromChapters l) := by
  intro l
  induction l with
  | nil => intro all h; cases h
  | cons q rest ih =>
    intro all h
    by_cases hq : q = chaptersSeg
    · subst hq
      simp [reformatGo, fromChapters]
    · have hr : chaptersSeg ∈ rest := by
        cases h with
        | head => exact absurd rfl hq
        | tail _ h2 => exact h2
      simp [reformatGo, fromChapters, hq, ih all hr]

theorem reformat_path_chapters (sep : Str) (parts : List Str) (h : chaptersSeg ∈ parts) :
    reformat_path sep parts = joinSep (("/").toList) (fromChapters parts) :=
  reformatGo_chapters sep parts parts h

set_option maxRecDepth 8000 in
/-- C7: for any path whose segments contain `"chapters"`, the
input-statement template embeds exactly the forward-slash join of the
segments from the first `"chapters"` onward — independently of the OS
separator `sep` the path was built with — and the caption-bearing
figure/code templates apply the same rewrite to their `path` field. -/
theorem template_path_rewrite (sep : Str) (parts : FPath) (pos w cap labl lang : Str)
    (h : chaptersSeg ∈ parts) :
    inputSubstitute sep parts =
      .ok (("\n\\input\x7b").toList ++ joinSep (("/").toList) (fromChapters parts) ++
        ("\x7d\n").toList) ∧
    capSubstitute sep false (tmplFigure false)
        [(("position").toList, .vstr pos), (("width").toList, .vstr w),
         (kCaption, .vstr cap), (("label").toList, .vstr labl), (kPath, .vpath parts)] =
      .ok (("\\begin\x7bfigure\x7d[").toList ++ pos ++
        ("]\n\t\\centering\n\t\\includegraphics[width=").toList ++ w ++
        ("\\textwidth]\x7b").toList ++ joinSep (("/").toList) (fromChapters parts) ++
        ("\x7d\n\t\\caption\x7b").toList ++ cap ++ ("\x7d\n\t\\label\x7bfig:").toList ++
        labl ++ ("\x7d\n\\end\x7bfigure\x7d\n").toList) ∧
    capSubstitute sep false (tmplCode false)
        [(("position").toList, .vstr pos), (("language").toList, .vstr lang),
         (kCaption, .vstr cap), (("label").toList, .vstr labl), (kPath, .vpath parts)] =
      .ok (("\\begin\x7blisting\x7d[").toList ++ pos ++
        ("]\n\t\\inputminted\x7b").toList ++ lang ++ ("\x7d\x7b").toList ++
        joinSep (("/").toList) (fromChapters parts) ++
        ("\x7d\n\t\\caption\x7b").toList ++ cap ++ ("\x7d\n\t\\label\x7blst:").toList ++
        labl ++ ("\x7d\n\\end\x7blisting\x7d\n").toList) := by
  have hr : reformat_path sep parts = joinSep (("/").toList) (fromChapters parts) :=
    reformat_path_chapters sep parts h
  refine ⟨?_, ?_, ?_⟩
  · rw [inputSubstitute_eq]
    unfold input_stmt
    rw [hr]
  · rw [← hr]
    simp only [List.append_assoc]
    rfl
  · rw [← hr]
    simp only [List.append_assoc]
    rfl

set_option maxRecDepth 8000 in
/-- Closed witness for `template_path_rewrite`. -/
theorem template_path_rewrite_witness :
    chaptersSeg ∈ [("home").toList, ("chapters").toList, ("chapter2").toList,
      ("x.tex").toList] ∧
    (inputSubstitute (("\\").toList)
        [("home").toList, ("chapters").toList, ("chapter2").toList, ("x.tex").toList] =
      .ok (("\n\\input\x7b").toList ++ joinSep (("/").toList)
        (fromChapters [("home").toList, ("chapters").toList, ("chapter2").toList,
          ("x.tex").toList]) ++ ("\x7d\n").toList) ∧
    capSubstitute (("\\").toList) false (tmplFigure false)
        [(("position").toList, .vstr (("h").toList)), (("width").toList, .vstr (("1").toList)),
         (kCaption, .vstr (("c").toList)), (("label").toList, .vstr (("l").toList)),
         (kPath, .vpath [("home").toList, ("chapters").toList, ("chapter2").toList,
           ("x.tex").toList])] =
      .ok (("\\begin\x7bfigure\x7d[").toList ++ ("h").toList ++
        ("]\n\t\\centering\n\t\\includegraphics[width=").toList ++ ("1").toList ++
        ("\\textwidth]\x7b").toList ++ joinSep (("/").toList)
          (fromChapters [("home").toList, ("chapters").toList, ("chapter2").toList,
            ("x.tex").toList]) ++
        ("\x7d\n\t\\caption\x7b").toList ++ ("c").toList ++
        ("\x7d\n\t\\label\x7bfig:").toList ++ ("l").toList ++
        ("\x7d\n\\end\x7bfigure\x7d\n").toList) ∧
    capSubstitute (("\\").toList) false (tmplCode false)
        [(("position").toList, .vstr (("h").toList)), (("language").toList, .vstr (("py").toList)),
         (kCaption, .vstr (("c").toList)), (("label").toList, .vstr (("l").toList)),
         (kPath, .vpath [("home").toList, ("chapters").toList, ("chapter2").toList,
           ("x.tex").toList])] =
      .ok (("\\begin\x7blisting\x7d[").toList ++ ("h").toList ++
        ("]\n\t\\inputminted\x7b").toList ++ ("py").toList ++ ("\x7d\x7b").toList ++
        joinSep (("/").toList)
          (fromChapters [("home").toList, ("chapters").toList, ("chapter2").toList,
            ("x.tex").toList]) ++
        ("\x7d\n\t\\caption\x7b").toList ++ ("c").toList ++
        ("\x7d\n\t\\label\x7blst:").toList ++ ("l").toList ++
        ("\x7d\n\\end\x7blisting\x7d\n").toList)) :=
  ⟨by decide, template_path_rewrite _ _ _ _ _ _ _ (by decide)⟩

theorem splitChGo_no_sep (sep : Char) (u : Str) :
    ∀ cur, (∀ c ∈ u, c ≠ sep) → splitChGo sep u cur = [cur.reverse ++ u] := by
  induction u with
  | nil => intro cur _; simp [splitChGo]
  | cons c cs ih =>
    intro cur h
    have hc : c ≠ sep := h c (List.mem_cons_self c cs)
    rw [splitChGo, if_neg hc, ih (c :: cur) (fun d hd => h d (List.mem_cons_of_mem c hd))]
    simp

theorem splitChGo_append_sep (sep : Char) (u v : Str) :
    ∀ cur, (∀ c ∈ u, c ≠ sep) →
      splitChGo sep (u ++ sep :: v) cur = (cur.reverse ++ u) :: splitChGo sep v [] := by
  induction u with
  | nil => intro cur _; simp [splitChGo]
  | cons c cs ih =>
    intro cur h
    have hc : c ≠ sep := h c (List.mem_cons_self c cs)
    rw [List.cons_append, splitChGo, if_neg hc,
      ih (c :: cur) (fun d hd => h d (List.mem_cons_of_mem c hd))]
    simp

theorem cleanseLoc_append (a b : Str) :
    cleanseLoc (a ++ b) = cleanseLoc a ++ cleanseLoc b := by
  simp [cleanseLoc]

theorem locationOf_trailing_nl (base : Str) (h : ('\n') ∉ cleanseLoc base) :
    locationOf (base ++ [('\n')]) = [cleanseLoc base, []] := by
  unfold locationOf
  rw [cleanseLoc_append]
  have hnl : cleanseLoc [('\n')] = [('\n')] := by decide
  rw [hnl, splitChGo_append_sep '\n' (cleanseLoc base) [] []
    (fun c hc he => h (he ▸ hc))]
  simp [splitChGo]

theorem construct_path_pair (cd : FPath) (u : Str) (h2 : u ≠ []) (h3 : u ≠ dotSeg)
    (h4 : ('/') ∉ u) :
    construct_path cd [u, []] = cd ++ [u, ("sections").toList] := by
  unfold construct_path
  have harg : (([([] : Str), ("sections/").toList, ("subsections/").toList].zip
      [u, ([] : Str)]).map (fun fl => fl.1 ++ fl.2 ++ ("/").toList)).flatten =
      u ++ ('/') :: ("sections//").toList := by
    simp [List.zip]
  rw [harg]
  unfold parsePath
  rw [splitChGo_append_sep '/' u (("sections//").toList) []
    (fun c hc he => h4 (he ▸ hc))]
  have hrest : splitChGo '/' (("sections//").toList) [] =
      [("sections").toList, [], []] := by decide
  rw [hrest]
  have hdot : dotSeg = ['.'] := by decide
  rw [hdot] at h3
  simp [List.filter, h2, h3, hdot]

/-- C9: a location string with a trailing newline (e.g. `"chapter1\n"`,
shown as a valid location in the `Chapter` docstring) splits into a
trailing empty segment, and `_construct_path` then returns the chapter
directory joined with `<loc>/sections/`: the artifact lands under an
extra `sections/` component instead of directly in the chapter
directory. -/
theorem chapter_trailing_newline_location (fn typ : Str) (chapter_dir : FPath) (base : Str)
    (h1 : ('\n') ∉ cleanseLoc base) (h2 : cleanseLoc base ≠ [])
    (h3 : cleanseLoc base ≠ dotSeg) (h4 : ('/') ∉ cleanseLoc base) :
    (mkChapter fn chapter_dir (base ++ [('\n')]) typ).location = [cleanseLoc base, []] ∧
    construct_path chapter_dir ((mkChapter fn chapter_dir (base ++ [('\n')]) typ).location) =
      chapter_dir ++ [cleanseLoc base, ("sections").toList] := by
  have hl : (mkChapter fn chapter_dir (base ++ [('\n')]) typ).location =
      [cleanseLoc base, []] := by
    simpa [mkChapter] using locationOf_trailing_nl base h1
  exact ⟨hl, by rw [hl]; exact construct_path_pair chapter_dir (cleanseLoc base) h2 h3 h4⟩

/-- Closed witness for `chapter_trailing_newline_location`. -/
theorem chapter_trailing_newline_location_witness :
    ('\n') ∉ cleanseLoc (("chapter1").toList) ∧ cleanseLoc (("chapter1").toList) ≠ [] ∧
    cleanseLoc (("chapter1").toList) ≠ dotSeg ∧ ('/') ∉ cleanseLoc (("chapter1").toList) ∧
    ((mkChapter (("f.png").toList) [("chapters").toList]
        ((("chapter1").toList) ++ [('\n')]) (("figs").toList)).location =
      [cleanseLoc (("chapter1").toList), []] ∧
    construct_path [("chapters").toList]
        ((mkChapter (("f.png").toList) [("chapters").toList]
          ((("chapter1").toList) ++ [('\n')]) (("figs").toList)).location) =
      [("chapters").toList] ++ [cleanseLoc (("chapter1").toList), ("sections").toList]) :=
  ⟨by decide, by decide, by decide, by decide,
    chapter_trailing_newline_location _ _ _ _ (by decide) (by decide) (by decide) (by decide)⟩

/-- C1 counterexample: with the example chapter/section specs and an
*empty* subsections map, `init_chapter_dir` does not complete: the
count check `subsections[sec_num]` raises `KeyError("1")` (after the
chapter and sections directories were already created), and no `.tex`
file is produced. -/
theorem init_example_empty_subsections_keyerror :
    init_chapter_dir (ChapterSpec.mk 1 1 ⟨false, false, false⟩)
        [SectionSpec.mk 1 0 ⟨true, false, false⟩] [] (St.mk [] 0) =
      .err (.keyErrorE (("1").toList))
        (St.mk [([("chapters").toList], .edir),
          ([("chapters").toList, ("chapter1").toList], .edir),
          ([("chapters").toList, ("chapter1").toList, ("sections").toList], .edir)] 0) := by
  decide

/-- C1 (amended): with the chapter spec `{chapter: 1, num_sections: 1}`
(no chapter-level `ftc` folders), one section spec `{section: 1,
num_subsections: 0, figs: true}`, and the subsections map `{"1": []}`
(an entry for section 1 holding the empty list, which the lookup in the
count check requires), `init_chapter_dir` on an empty tree completes and
produces `chapters/chapter1/chapter1.tex` containing the
`\input{chapters/chapter1/sections/section1/section1.tex}` line, the
file `chapters/chapter1/sections/section1/section1.tex`, and the `figs/`
folder beside it. -/
theorem init_example_end_to_end :
    resOk (init_chapter_dir (ChapterSpec.mk 1 1 ⟨false, false, false⟩)
        [SectionSpec.mk 1 0 ⟨true, false, false⟩] [(("1").toList, [])] (St.mk [] 0)) =
      true ∧
    isInfixStr (("\\input\x7bchapters/chapter1/sections/section1/section1.tex\x7d").toList)
      (contentAt (resSt (init_chapter_dir (ChapterSpec.mk 1 1 ⟨false, false, false⟩)
          [SectionSpec.mk 1 0 ⟨true, false, false⟩] [(("1").toList, [])] (St.mk [] 0))).fs
        [("chapters").toList, ("chapter1").toList, ("chapter1.tex").toList]) = true ∧
    isFileAt (resSt (init_chapter_dir (ChapterSpec.mk 1 1 ⟨false, false, false⟩)
        [SectionSpec.mk 1 0 ⟨true, false, false⟩] [(("1").toList, [])] (St.mk [] 0))).fs
      [("chapters").toList, ("chapter1").toList, ("sections").toList,
        ("section1").toList, ("section1.tex").toList] = true ∧
    isDirAt (resSt (init_chapter_dir (ChapterSpec.mk 1 1 ⟨false, false, false⟩)
        [SectionSpec.mk 1 0 ⟨true, false, false⟩] [(("1").toList, [])] (St.mk [] 0))).fs
      [("chapters").toList, ("chapter1").toList, ("sections").toList,
        ("section1").toList, ("figs").toList] = true := by
  decide

theorem isFileAt_append_edir {fs : FS} {p q : FPath}
    (h : isFileAt fs q = false) : isFileAt (fs ++ [(p, Entry.edir)]) q = false := by
  unfold isFileAt at h ⊢
  rw [entryAt_append]
  cases he : entryAt fs q with
  | none => by_cases hpq : p = q <;> simp [entryAt, hpq]
  | some e =>
    rw [he] at h
    cases e with
    | efile c => simp at h
    | edir => simp

theorem mkAncestors_ok {fs : FS} {l : List FPath}
    (h : ∀ q ∈ l, isFileAt fs q = false) :
    ∃ ds : FS, mkAncestors fs l = .ok (fs ++ ds) ∧ ∀ e ∈ ds, e.2 = Entry.edir := by
  induction l generalizing fs with
  | nil => exact ⟨[], by simp [mkAncestors], by simp⟩
  | cons q rest ih =>
    have hq := h q (List.mem_cons_self q rest)
    cases he : entryAt fs q with
    | none =>
      obtain ⟨ds, hok, hd⟩ := @ih (fs ++ [(q, Entry.edir)])
        (fun r hr => isFileAt_append_edir (h r (List.mem_cons_of_mem q hr)))
      refine ⟨[(q, Entry.edir)] ++ ds, ?_, ?_⟩
      · rw [mkAncestors, he, hok, List.append_assoc]
      · intro e hee
        rcases List.mem_append.mp hee with h1 | h2
        · rw [List.mem_singleton] at h1
          rw [h1]
        · exact hd e h2
    | some e =>
      cases e with
      | efile c => exact absurd hq (by unfold isFileAt; rw [he]; simp)
      | edir =>
        obtain ⟨ds, hok, hd⟩ := @ih fs (fun r hr => h r (List.mem_cons_of_mem q hr))
        exact ⟨ds, by rw [mkAncestors, he, hok], hd⟩

theorem filesOf_append (a b : FS) : filesOf (a ++ b) = filesOf a ++ filesOf b := by
  simp [filesOf]

theorem filesOf_dirs {ds : FS} (h : ∀ e ∈ ds, e.2 = Entry.edir) : filesOf ds = [] := by
  induction ds with
  | nil => rfl
  | cons e rest ih =>
    obtain ⟨p, v⟩ := e
    have he : v = Entry.edir := h (p, v) (List.mem_cons_self (p, v) rest)
    subst he
    have hstep : filesOf ((p, Entry.edir) :: rest) = filesOf rest := rfl
    rw [hstep]
    exact ih (fun f hf => h f (List.mem_cons_of_mem (p, Entry.edir) hf))

theorem rewrite_table_mismatch (data : Str) (nd : Nat) (ct : ColType) (top : Bool)
    (htr : truthyCT (some ct) = true) (hne : colTypeLen ct ≠ nd) :
    rewrite_table data nd (some ct) top =
      .error (.assertionE (msgColMismatch (colTypeLen ct) nd)) := by
  cases ct <;> simp_all [rewrite_table, truthyCT] <;> rfl

theorem mkdirp_true_fresh {fs : FS} {cnt : Nat} {p : FPath}
    (hn : entryAt fs p = none)
    (ha : ∀ q ∈ properAncestors p, isFileAt fs q = false) :
    ∃ ds : FS, mkdirp true p ⟨fs, cnt⟩ = .ok () ⟨fs ++ ds, cnt⟩ ∧
      ∀ e ∈ ds, e.2 = Entry.edir := by
  obtain ⟨ds, hok, hd⟩ := @mkAncestors_ok fs (properAncestors p) ha
  refine ⟨ds ++ [(p, Entry.edir)], ?_, ?_⟩
  · unfold mkdirp
    rw [hn, hok]
    simp [List.append_assoc]
  · intro e he
    rcases List.mem_append.mp he with h1 | h2
    · exact hd e h1
    · rw [List.mem_singleton] at h2
      rw [h2]

/-- C5 (amended): a `save_tab` call supplying a *non-empty* `column_type`
whose length differs from the data's column count fails with the
count-mismatch assertion (whose message reports both counts, and which
the code logs and chains onto the re-raised error), and at the failure
point no file has been written: the filesystem's files are exactly those
before the call (only the `tabs/` folder may have been created). -/
theorem save_tab_count_mismatch (st : St) (ch : ChapterObj) (dataCols : Nat)
    (dataStr : Str) (la : LatexArgs) (ct : ColType)
    (hct : la.column_type = some ct)
    (htr : truthyCT (some ct) = true)
    (hne : colTypeLen ct ≠ dataCols)
    (ha : ∀ q ∈ properAncestors (construct_path ch.chapterDir ch.location ++ [ch.folder]),
      isFileAt st.fs q = false) :
    ∃ fs', save_tab ch dataCols dataStr la st =
        .err (.assertionE (msgColMismatch (colTypeLen ct) dataCols)) ⟨fs', st.counter⟩ ∧
      filesOf fs' = filesOf st.fs := by
  obtain ⟨fs, cnt⟩ := st
  have hrw := rewrite_table_mismatch dataStr dataCols ct (la.top_caption.getD false) htr hne
  by_cases hex : existsP fs (construct_path ch.chapterDir ch.location ++ [ch.folder])
  · refine ⟨fs, ?_, rfl⟩
    simp [save_tab, hex, hct, hrw]
  · have hn : entryAt fs (construct_path ch.chapterDir ch.location ++ [ch.folder]) = none := by
      unfold existsP at hex
      cases he : entryAt fs (construct_path ch.chapterDir ch.location ++ [ch.folder]) with
      | none => rfl
      | some e => rw [he] at hex; simp at hex
    obtain ⟨ds, hok, hd⟩ := @mkdirp_true_fresh fs cnt
      (construct_path ch.chapterDir ch.location ++ [ch.folder]) hn ha
    refine ⟨fs ++ ds, ?_, ?_⟩
    · simp [save_tab, hex, hok, hct, hrw]
    · rw [filesOf_append, filesOf_dirs hd, List.append_nil]

/-- C5 counterexample: supplying the empty-list `column_type` (length 0,
differing from the 3 data columns) raises no error at all — Python's
`if column_type:` is false for `[]`, the count check is skipped, and the
table file is written. -/
theorem save_tab_empty_column_type_no_error :
    colTypeLen (ColType.clst []) ≠ 3 ∧
    resOk (save_tab (mkChapter (("t1.tex").toList) [("chapters").toList]
        (("chapter1").toList) (("tabs").toList)) 3 (("a\nb\nc\nd\ne").toList)
        ⟨some (("1.8").toList), some (.clst []), none⟩
        (St.mk [([("chapters").toList], Entry.edir),
          ([("chapters").toList, ("chapter1").toList], Entry.edir),
          ([("chapters").toList, ("chapter1").toList, ("chapter1.tex").toList],
            Entry.efile [])] 0)) = true ∧
    isFileAt (resSt (save_tab (mkChapter (("t1.tex").toList) [("chapters").toList]
        (("chapter1").toList) (("tabs").toList)) 3 (("a\nb\nc\nd\ne").toList)
        ⟨some (("1.8").toList), some (.clst []), none⟩
        (St.mk [([("chapters").toList], Entry.edir),
          ([("chapters").toList, ("chapter1").toList], Entry.edir),
          ([("chapters").toList, ("chapter1").toList, ("chapter1.tex").toList],
            Entry.efile [])] 0))).fs
      [("chapters").toList, ("chapter1").toList, ("tabs").toList, ("t1.tex").toList] =
      true ∧
    isFileAt [([("chapters").toList], Entry.edir),
        ([("chapters").toList, ("chapter1").toList], Entry.edir),
        ([("chapters").toList, ("chapter1").toList, ("chapter1.tex").toList],
          Entry.efile [])]
      [("chapters").toList, ("chapter1").toList, ("tabs").toList, ("t1.tex").toList] =
      false := by
  refine ⟨by decide, by decide, by decide, by decide⟩

/-- Closed witness for `save_tab_count_mismatch`. -/
theorem save_tab_count_mismatch_witness :
    (LatexArgs.mk (some (("1.8").toList)) (some (ColType.clst [("l").toList, ("r").toList]))
      none).column_type = some (ColType.clst [("l").toList, ("r").toList]) ∧
    truthyCT (some (ColType.clst [("l").toList, ("r").toList])) = true ∧
    colTypeLen (ColType.clst [("l").toList, ("r").toList]) ≠ 3 ∧
    (∀ q ∈ properAncestors (construct_path
        (mkChapter (("t1.tex").toList) [("chapters").toList] (("chapter1").toList)
          (("tabs").toList)).chapterDir
        (mkChapter (("t1.tex").toList) [("chapters").toList] (("chapter1").toList)
          (("tabs").toList)).location ++
        [(mkChapter (("t1.tex").toList) [("chapters").toList] (("chapter1").toList)
          (("tabs").toList)).folder]),
      isFileAt ([] : FS) q = false) ∧
    (∃ fs', save_tab (mkChapter (("t1.tex").toList) [("chapters").toList]
        (("chapter1").toList) (("tabs").toList)) 3 (("a\nb\nc\nd\ne").toList)
        (LatexArgs.mk (some (("1.8").toList))
          (some (ColType.clst [("l").toList, ("r").toList])) none) (St.mk [] 0) =
        .err (.assertionE (msgColMismatch
          (colTypeLen (ColType.clst [("l").toList, ("r").toList])) 3)) ⟨fs', (St.mk [] 0).counter⟩ ∧
      filesOf fs' = filesOf (St.mk [] 0).fs) :=
  ⟨by decide, by decide, by decide, by decide,
    save_tab_count_mismatch _ _ _ _ _ _ (by decide) (by decide) (by decide) (by decide)⟩

theorem digitChar_isDigit (n : Nat) : (digitChar n).isDigit = true := by
  unfold digitChar
  split <;> decide

theorem natReprAux_digits : ∀ f n c, c ∈ natReprAux f n → c.isDigit = true := by
  intro f
  induction f with
  | zero => intro n c hc; simp [natReprAux] at hc
  | succ f ih =>
    intro n c hc
    unfold natReprAux at hc
    by_cases h : n < 10
    · rw [if_pos h] at hc
      simp at hc
      rw [hc]
      exact digitChar_isDigit n
    · rw [if_neg h] at hc
      rcases List.mem_append.mp hc with h1 | h2
      · exact ih _ _ h1
      · simp at h2
        rw [h2]
        exact digitChar_isDigit _

theorem natRepr_digits {n : Nat} {c : Char} (hc : c ∈ natRepr n) : c.isDigit = true :=
  natReprAux_digits _ _ _ hc

theorem natRepr_ne_nil (n : Nat) : natRepr n ≠ [] := by
  unfold natRepr natReprAux
  by_cases h : n < 10 <;> simp [h]

theorem parseNat_append_digit (xs : Str) (c : Char) :
    parseNat (xs ++ [c]) = parseNat xs * 10 + digitVal c := by
  simp [parseNat, List.foldl_append]

theorem digitVal_digitChar : ∀ n < 10, digitVal (digitChar n) = n := by decide

theorem parseNat_natReprAux : ∀ f n, n < f → parseNat (natReprAux f n) = n := by
  intro f
  induction f with
  | zero => intro n h; omega
  | succ f ih =>
    intro n h
    unfold natReprAux
    by_cases h10 : n < 10
    · rw [if_pos h10]
      have hp : parseNat [digitChar n] = digitVal (digitChar n) := by
        simp [parseNat]
      rw [hp]
      exact digitVal_digitChar n h10
    · have hdiv : n / 10 < n := Nat.div_lt_self (by omega) (by omega)
      rw [if_neg h10, parseNat_append_digit, ih (n / 10) (by omega),
        digitVal_digitChar (n % 10) (Nat.mod_lt n (by omega))]
      omega

theorem natRepr_inj {a b : Nat} (h : natRepr a = natRepr b) : a = b := by
  have ha := parseNat_natReprAux (a + 1) a (by omega)
  have hb := parseNat_natReprAux (b + 1) b (by omega)
  unfold natRepr at h
  rw [h] at ha
  rw [ha] at hb
  exact hb

theorem isDigit_ne {c : Char} (h : c.isDigit = true) :
    c ≠ '/' ∧ c ≠ ('}') ∧ c ≠ '\n' ∧ c ≠ ('{') ∧ c ≠ 't' ∧ c ≠ '.' := by
  refine ⟨?_, ?_, ?_, ?_, ?_, ?_⟩ <;>
    · intro he
      rw [he] at h
      exact absurd h (by decide)

theorem TBFree_nil : TBFree [] := by
  intro u v he
  simp at he

theorem TBFree_tail {c : Char} {s : Str} (h : TBFree (c :: s)) : TBFree s :=
  fun u v he => h (c :: u) v (by rw [List.cons_append, he])

theorem TBFree_of_pairFree : ∀ {s : Str}, pairFreeTB s = true → TBFree s := by
  intro s
  induction s with
  | nil => intro _; exact TBFree_nil
  | cons a s' ih =>
    intro hp u v he
    cases u with
    | nil =>
      simp at he
      obtain ⟨ha, hs⟩ := he
      cases s' with
      | nil => simp at hs
      | cons b s'' =>
        simp at hs
        obtain ⟨hb, _⟩ := hs
        rw [ha, hb] at hp
        simp [pairFreeTB] at hp
    | cons d u' =>
      simp at he
      obtain ⟨_, hrest⟩ := he
      have hp' : pairFreeTB s' = true := by
        cases s' with
        | nil => rfl
        | cons b s'' =>
          unfold pairFreeTB at hp
          split at hp
          · exact absurd hp (by simp)
          · exact hp
      exact ih hp' u' v hrest

theorem TBFree_append {x y : Str} (hx : TBFree x) (hy : TBFree y)
    (hb : (∀ u, x ≠ u ++ ['t']) ∨ (∀ v, y ≠ ('{') :: v)) : TBFree (x ++ y) := by
  induction x with
  | nil => simpa using hy
  | cons c x' ih =>
    intro u v he
    cases u with
    | nil =>
      simp at he
      obtain ⟨hc, hrest⟩ := he
      cases x' with
      | nil =>
        simp at hrest
        rcases hb with hb1 | hb2
        · exact hb1 [] (by simp [hc])
        · exact hb2 v hrest
      | cons d x'' =>
        simp at hrest
        obtain ⟨hd, _⟩ := hrest
        exact hx [] x'' (by rw [hc, hd]; rfl)
    | cons d u' =>
      simp at he
      obtain ⟨_, hrest⟩ := he
      have hb' : (∀ u, x' ≠ u ++ ['t']) ∨ (∀ v, y ≠ ('{') :: v) := by
        rcases hb with hb1 | hb2
        · exact Or.inl (fun u hu => hb1 (c :: u) (by rw [List.cons_append, hu]))
        · exact Or.inr hb2
      exact ih (TBFree_tail hx) hb' u' v hrest

theorem TBFree_digits {s : Str} (h : ∀ c ∈ s, c.isDigit = true) : TBFree s := by
  intro u v he
  have hb : ('{') ∈ s := by
    rw [he]
    simp
  exact absurd (h _ hb) (by decide)

theorem ne_concat_t_of_digits {s : Str} (h : ∀ c ∈ s, c.isDigit = true) :
    ∀ u, s ≠ u ++ ['t'] := by
  intro u he
  have ht : 't' ∈ s := by
    rw [he]
    simp
  exact absurd (h _ ht) (by decide)

theorem grabTarget_spec {p : Str} (hb : ('}') ∉ p) (hn : '\n' ∉ p) (r : Str) :
    grabTarget (p ++ ('}') :: r) = some p := by
  induction p with
  | nil => simp [grabTarget]
  | cons c cs ih =>
    have hcb : c ≠ '}' := fun he => hb (he ▸ List.mem_cons_self c cs)
    have hcn : c ≠ '\n' := fun he => hn (he ▸ List.mem_cons_self c cs)
    have ih' := ih (fun hm => hb (List.mem_cons_of_mem c hm))
      (fun hm => hn (List.mem_cons_of_mem c hm))
    simp [grabTarget, hcb, hcn, ih']

theorem findInputsAux_congr : ∀ (f g : Nat) (s : Str), s.length ≤ f → s.length ≤ g →
    findInputsAux f s = findInputsAux g s := by
  intro f
  induction f with
  | zero =>
    intro g s hf _
    have : s = [] := List.eq_nil_of_length_eq_zero (by omega)
    subst this
    cases g <;> rfl
  | succ f ih =>
    intro g s hf hg
    cases s with
    | nil => cases g <;> rfl
    | cons c cs =>
      cases g with
      | zero => simp at hg
      | succ g' =>
        simp only [findInputsAux]
        by_cases hP : inputMarker.isPrefixOf (c :: cs) = true
        · rw [hP]
          simp only [if_true]
          cases hG : grabTarget ((c :: cs).drop 6) with
          | none =>
            show findInputsAux f cs = findInputsAux g' cs
            exact ih g' cs (by simp at hf; omega) (by simp at hg; omega)
          | some tgt =>
            have hlen : ((c :: cs).drop (6 + tgt.length)).length ≤ cs.length := by
              rw [List.length_drop]
              simp
              omega
            show tgt :: findInputsAux f ((c :: cs).drop (6 + tgt.length)) =
              tgt :: findInputsAux g' ((c :: cs).drop (6 + tgt.length))
            rw [ih g' ((c :: cs).drop (6 + tgt.length))
              (by simp at hf; omega) (by simp at hg; omega)]
        · rw [Bool.not_eq_true] at hP
          rw [hP]
          simp only [Bool.false_eq_true, if_false]
          exact ih g' cs (by simp at hf; omega) (by simp at hg; omega)

theorem findInputs_cons_nomarker {c : Char} {cs : Str}
    (h : inputMarker.isPrefixOf (c :: cs) = false) :
    findInputs (c :: cs) = findInputs cs := by
  show findInputsAux (c :: cs).length (c :: cs) = findInputsAux cs.length cs
  rw [List.length_cons]
  simp only [findInputsAux, h]
  simp

theorem findInputs_cons_marker {c : Char} {cs tgt : Str}
    (h : inputMarker.isPrefixOf (c :: cs) = true)
    (hg : grabTarget ((c :: cs).drop 6) = some tgt) :
    findInputs (c :: cs) = tgt :: findInputs ((c :: cs).drop (6 + tgt.length)) := by
  show findInputsAux (c :: cs).length (c :: cs) = _
  rw [List.length_cons]
  simp only [findInputsAux, h, hg, if_true]
  have hlen : ((c :: cs).drop (6 + tgt.length)).length ≤ cs.length := by
    rw [List.length_drop]
    simp
    omega
  rw [findInputsAux_congr cs.length ((c :: cs).drop (6 + tgt.length)).length
    ((c :: cs).drop (6 + tgt.length)) hlen (Nat.le_refl _)]
  rfl

theorem findInputs_append_free : ∀ {s t : Str}, TBFree (s ++ t.take 5) →
    findInputs (s ++ t) = findInputs t := by
  intro s
  induction s with
  | nil => intro t _; rfl
  | cons c s' ih =>
    intro t hf
    have hP : inputMarker.isPrefixOf (c :: (s' ++ t)) = false := by
      by_contra hPc
      rw [Bool.not_eq_false] at hPc
      have hpre : inputMarker <+: ((c :: s') ++ t) :=
        List.isPrefixOf_iff_prefix.mp hPc
      have htake6 : ((c :: s') ++ t).take 6 = inputMarker := by
        obtain ⟨w, hw⟩ := hpre
        rw [← hw, List.take_append_eq_append_take]
        have h1 : inputMarker.take 6 = inputMarker := by decide
        have h2 : (6 : Nat) - inputMarker.length = 0 := by decide
        rw [h1, h2]
        simp
      have htake6' : ((c :: s') ++ t.take 5).take 6 = inputMarker := by
        rw [List.take_append_eq_append_take] at htake6 ⊢
        rw [List.take_take]
        have hmin : min (6 - (c :: s').length) 5 = 6 - (c :: s').length := by
          rw [List.length_cons]
          omega
        rw [hmin]
        exact htake6
      have hdecomp : (c :: s') ++ t.take 5 =
          inputMarker ++ ((c :: s') ++ t.take 5).drop 6 := by
        conv_lhs => rw [← List.take_append_drop 6 ((c :: s') ++ t.take 5)]
        rw [htake6']
      exact hf (['i', 'n', 'p', 'u']) (((c :: s') ++ t.take 5).drop 6)
        (by rw [hdecomp]; simp [inputMarker])
    rw [List.cons_append, findInputs_cons_nomarker hP]
    exact ih (TBFree_tail hf)

theorem findInputs_stmt_cons {J t : Str} (hb : ('}') ∉ J) (hn : '\n' ∉ J) :
    findInputs ('\n' :: '\\' :: 'i' :: 'n' :: 'p' :: 'u' :: 't' :: ('{') ::
      (J ++ ('}') :: '\n' :: t)) = J :: findInputs t := by
  rw [findInputs_cons_nomarker (by simp [inputMarker, List.isPrefixOf])]
  rw [findInputs_cons_nomarker (by simp [inputMarker, List.isPrefixOf])]
  have hP : inputMarker.isPrefixOf
      ('i' :: 'n' :: 'p' :: 'u' :: 't' :: ('{') :: (J ++ ('}') :: '\n' :: t)) = true := by
    simp [inputMarker, List.isPrefixOf]
  have hdrop : ('i' :: 'n' :: 'p' :: 'u' :: 't' :: ('{') ::
      (J ++ ('}') :: '\n' :: t)).drop 6 = J ++ ('}') :: '\n' :: t := rfl
  have hg : grabTarget (('i' :: 'n' :: 'p' :: 'u' :: 't' :: ('{') ::
      (J ++ ('}') :: '\n' :: t)).drop 6) = some J := by
    rw [hdrop]
    exact grabTarget_spec hb hn ('\n' :: t)
  rw [findInputs_cons_marker hP hg]
  have hdrop2 : ('i' :: 'n' :: 'p' :: 'u' :: 't' :: ('{') ::
      (J ++ ('}') :: '\n' :: t)).drop (6 + J.length) = ('}') :: '\n' :: t := by
    have : ('i' :: 'n' :: 'p' :: 'u' :: 't' :: ('{') :: (J ++ ('}') :: '\n' :: t)) =
        (('i' :: 'n' :: 'p' :: 'u' :: 't' :: ('{') :: J) ++ (('}') :: '\n' :: t)) := by
      simp
    rw [this]
    have hlen : (6 + J.length) = ('i' :: 'n' :: 'p' :: 'u' :: 't' :: ('{') :: J).length := by
      simp
      omega
    rw [hlen, List.drop_left]
  rw [hdrop2]
  rw [findInputs_cons_nomarker (by simp [inputMarker, List.isPrefixOf])]
  rw [findInputs_cons_nomarker (by simp [inputMarker, List.isPrefixOf])]

theorem input_stmt_append (sep : Str) (p : FPath) (t : Str) :
    input_stmt sep p ++ t = '\n' :: '\\' :: 'i' :: 'n' :: 'p' :: 'u' :: 't' :: ('{') ::
      (reformat_path sep p ++ ('}') :: '\n' :: t) := by
  simp [input_stmt]

theorem findInputs_block : ∀ (paths : List FPath),
    (∀ p ∈ paths, ('}') ∉ reformat_path osSep p ∧ '\n' ∉ reformat_path osSep p) →
    findInputs ((paths.map (input_stmt osSep)).flatten) =
      paths.map (reformat_path osSep) := by
  intro paths
  induction paths with
  | nil => intro _; rfl
  | cons p rest ih =>
    intro hc
    obtain ⟨hb, hn⟩ := hc p (List.mem_cons_self p rest)
    rw [List.map_cons, List.flatten_cons, input_stmt_append,
      findInputs_stmt_cons hb hn,
      ih (fun q hq => hc q (List.mem_cons_of_mem p hq))]
    rfl

theorem findInputs_content {base : Str} (paths : List FPath) (hbase : TBFree base)
    (hc : ∀ p ∈ paths, ('}') ∉ reformat_path osSep p ∧ '\n' ∉ reformat_path osSep p) :
    findInputs (base ++ (paths.map (input_stmt osSep)).flatten) =
      paths.map (reformat_path osSep) := by
  cases paths with
  | nil =>
    rw [findInputs_append_free (by simpa using hbase)]
    rfl
  | cons p rest =>
    have htake : ((((p :: rest).map (input_stmt osSep)).flatten).take 5) =
        ['\n', '\\', 'i', 'n', 'p'] := by
      rw [List.map_cons, List.flatten_cons, input_stmt_append]
      rfl
    rw [findInputs_append_free (t := ((p :: rest).map (input_stmt osSep)).flatten) ?hfree]
    · exact findInputs_block (p :: rest) hc
    case hfree =>
      rw [htake]
      exact TBFree_append hbase (TBFree_of_pairFree (by decide))
        (Or.inr (fun v he => by simp at he))

theorem cleanSeg_append {a b : Str} (ha : CleanSeg a) (hb : CleanSeg b) :
    CleanSeg (a ++ b) := by
  intro c hc
  rcases List.mem_append.mp hc with h | h
  · exact ha c h
  · exact hb c h

theorem cleanSeg_natRepr (n : Nat) : CleanSeg (natRepr n) := by
  intro c hc
  have := isDigit_ne (natRepr_digits hc)
  exact ⟨this.2.1, this.2.2.1, this.1⟩

theorem joinSep_clean : ∀ (parts : FPath), (∀ seg ∈ parts, CleanSeg seg) →
    ('}') ∉ joinSep osSep parts ∧ ('\n') ∉ joinSep osSep parts := by
  intro parts
  induction parts with
  | nil => intro _; simp [joinSep]
  | cons p rest ih =>
    intro hs
    cases rest with
    | nil =>
      refine ⟨fun hmem => ?_, fun hmem => ?_⟩
      · exact (hs p (List.mem_cons_self p []) _ hmem).1 rfl
      · exact (hs p (List.mem_cons_self p []) _ hmem).2.1 rfl
    | cons q rest' =>
      have hp := hs p (List.mem_cons_self p (q :: rest'))
      have ihr := ih (fun seg hseg => hs seg (List.mem_cons_of_mem p hseg))
      constructor <;> intro hmem
      · rw [joinSep] at hmem
        rcases List.mem_append.mp hmem with h | h
        · rcases List.mem_append.mp h with h1 | h1
          · exact absurd rfl (hp _ h1).1
          · simp [osSep] at h1
        · exact ihr.1 h
      · rw [joinSep] at hmem
        rcases List.mem_append.mp hmem with h | h
        · rcases List.mem_append.mp h with h1 | h1
          · exact absurd rfl (hp _ h1).2.1
          · simp [osSep] at h1
        · exact ihr.2 h

theorem parsePath_joinSep : ∀ (parts : FPath), parts ≠ [] →
    (∀ seg ∈ parts, seg ≠ [] ∧ seg ≠ dotSeg ∧ ('/') ∉ seg) →
    parsePath (joinSep osSep parts) = parts := by
  intro parts
  induction parts with
  | nil => intro h _; exact absurd rfl h
  | cons p rest ih =>
    intro _ hs
    obtain ⟨hp1, hp2, hp3⟩ := hs p (List.mem_cons_self p rest)
    cases rest with
    | nil =>
      show parsePath (joinSep osSep [p]) = [p]
      unfold parsePath
      rw [show joinSep osSep [p] = p from rfl]
      rw [splitChGo_no_sep '/' p [] (fun c hc he => hp3 (he ▸ hc))]
      simp [List.filter, hp1, hp2]
    | cons q rest' =>
      have hjoin : joinSep osSep (p :: q :: rest') =
          p ++ '/' :: joinSep osSep (q :: rest') := by
        rw [joinSep]
        simp [osSep]
      unfold parsePath
      rw [hjoin, splitChGo_append_sep '/' p (joinSep osSep (q :: rest')) []
        (fun c hc he => hp3 (he ▸ hc))]
      rw [List.filter]
      have hkeep : (if p = [] then false else if p = dotSeg then false else true) =
          true := by
        simp [hp1, hp2]
      simp only [List.reverse_nil, List.nil_append, hkeep]
      have ihr := ih (by simp) (fun seg hseg => hs seg (List.mem_cons_of_mem p hseg))
      unfold parsePath at ihr
      rw [ihr]

theorem head_not_brace_digits {s : Str} (h : ∀ c ∈ s, c.isDigit = true) :
    ∀ v, s ≠ ('{') :: v := by
  intro v he
  have : ('{') ∈ s := by rw [he]; exact List.mem_cons_self _ _
  exact absurd (h _ this) (by decide)

theorem ne_brace_cons_of_head {s : Str} (h : s.head? ≠ some ('{')) :
    ∀ v, s ≠ ('{') :: v := by
  intro v he
  rw [he] at h
  exact h rfl

theorem ne_concat_t_of_getLast {s : Str} (h : s.getLast? ≠ some 't') :
    ∀ u, s ≠ u ++ ['t'] := by
  intro u he
  rw [he, List.getLast?_concat] at h
  exact h rfl

theorem TBFree_natRepr (n : Nat) : TBFree (natRepr n) :=
  TBFree_digits (fun _ hc => natRepr_digits hc)

theorem TBFree_name {lit : Str} (n : Nat) (hlit : pairFreeTB lit = true) :
    TBFree (lit ++ natRepr n) :=
  TBFree_append (TBFree_of_pairFree hlit) (TBFree_natRepr n)
    (Or.inr (head_not_brace_digits (fun _ hc => natRepr_digits hc)))

theorem lastNotT_lit_natRepr (lit : Str) (n : Nat) :
    ∀ u, lit ++ natRepr n ≠ u ++ ['t'] := by
  intro u he
  rcases List.eq_nil_or_concat (natRepr n) with hnil | ⟨ds, d, hds⟩
  · exact natRepr_ne_nil n hnil
  · rw [List.concat_eq_append] at hds
    have hd : d.isDigit = true := natRepr_digits (by rw [hds]; simp)
    rw [hds, ← List.append_assoc] at he
    have h1 : ((lit ++ ds) ++ [d]).getLast? = some d := List.getLast?_concat _
    rw [he, List.getLast?_concat] at h1
    have : d = 't' := by injection h1.symm
    rw [this] at hd
    exact absurd hd (by decide)

theorem headNotBrace_cons {a : Char} {lit' x : Str} (ha : a ≠ ('{')) :
    ∀ v, (a :: lit') ++ x ≠ ('{') :: v := by
  intro v he
  simp at he
  exact ha he.1

theorem TBFree_chapterContent {name : Str} (hn : TBFree name)
    (hh : ∀ v, name ≠ ('{') :: v) : TBFree (chapterContent name) := by
  unfold chapterContent
  have h1 := TBFree_append (TBFree_of_pairFree (s :=
      ("% !TEX root = ../../main.tex\n\n\\chapter\x7b").toList) (by decide)) hn
    (Or.inl (ne_concat_t_of_getLast (by decide)))
  have h2 := TBFree_append h1 (TBFree_of_pairFree (s :=
      ("\x7d\n\\label\x7bcha:").toList) (by decide))
    (Or.inr (ne_brace_cons_of_head (by decide)))
  have h3 := TBFree_append h2 hn (Or.inr hh)
  exact TBFree_append h3 (TBFree_of_pairFree (s :=
      ("\x7d\n\nThis is a chapter.\n").toList) (by decide))
    (Or.inr (ne_brace_cons_of_head (by decide)))

theorem TBFree_sectionContent {t : Str} (hn : TBFree t)
    (hh : ∀ v, t ≠ ('{') :: v) : TBFree (sectionContent t) := by
  unfold sectionContent
  have h1 := TBFree_append (TBFree_of_pairFree (s := ("\\section\x7b").toList)
      (by decide)) hn
    (Or.inl (ne_concat_t_of_getLast (by decide)))
  have h2 := TBFree_append h1 (TBFree_of_pairFree (s :=
      ("\x7d\n\\label\x7bsec:").toList) (by decide))
    (Or.inr (ne_brace_cons_of_head (by decide)))
  have h3 := TBFree_append h2 hn (Or.inr hh)
  exact TBFree_append h3 (TBFree_of_pairFree (s :=
      ("\x7d\n\nThis is a section within a chapter.\n").toList) (by decide))
    (Or.inr (ne_brace_cons_of_head (by decide)))

theorem TBFree_subsectionContent {t : Str} (hn : TBFree t)
    (hh : ∀ v, t ≠ ('{') :: v) : TBFree (subsectionContent t) := by
  unfold subsectionContent
  have h1 := TBFree_append (TBFree_of_pairFree (s := ("\\subsection\x7b").toList)
      (by decide)) hn
    (Or.inl (ne_concat_t_of_getLast (by decide)))
  have h2 := TBFree_append h1 (TBFree_of_pairFree (s :=
      ("\x7d\n\\label\x7bsubsec:").toList) (by decide))
    (Or.inr (ne_brace_cons_of_head (by decide)))
  have h3 := TBFree_append h2 hn (Or.inr hh)
  exact TBFree_append h3 (TBFree_of_pairFree (s :=
      ("\x7d\n\nThis is a subsection within a section.\n").toList) (by decide))
    (Or.inr (ne_brace_cons_of_head (by decide)))

theorem TBFree_hyphen_join {a b : Str} (hA : TBFree a) (hB : TBFree b)
    ( _hBh : ∀ v, b ≠ ('{') :: v) : TBFree (a ++ hyphen ++ b) := by
  have h1 : TBFree (a ++ hyphen) :=
    TBFree_append hA (TBFree_of_pairFree (by decide))
      (Or.inr (ne_brace_cons_of_head (by decide)))
  exact TBFree_append h1 hB
    (Or.inl (by
      rw [show a ++ hyphen = a ++ ['-'] from rfl]
      exact ne_concat_t_of_getLast (by rw [List.getLast?_concat]; decide)))

theorem TBFree_chapterName (c : ChapterSpec) : TBFree (chapterNameOf c) :=
  TBFree_name c.chapter (by decide)

theorem TBFree_secName (s : SectionSpec) : TBFree (secNameOf s) :=
  TBFree_name s.sec (by decide)

theorem TBFree_subsecName (t : SubsectionSpec) : TBFree (subsecNameOf t) :=
  TBFree_name t.subsec (by decide)

theorem headNotBrace_chapterName (c : ChapterSpec) :
    ∀ v, chapterNameOf c ≠ ('{') :: v := by
  intro v he
  rw [chapterNameOf] at he
  exact headNotBrace_cons (by decide) v he

theorem headNotBrace_secName (s : SectionSpec) :
    ∀ v, secNameOf s ≠ ('{') :: v := by
  intro v he
  rw [secNameOf] at he
  exact headNotBrace_cons (by decide) v he

theorem headNotBrace_subsecName (t : SubsectionSpec) :
    ∀ v, subsecNameOf t ≠ ('{') :: v := by
  intro v he
  rw [subsecNameOf] at he
  exact headNotBrace_cons (by decide) v he

theorem headNotBrace_title2 (c : ChapterSpec) (s : SectionSpec) :
    ∀ v, chapterNameOf c ++ hyphen ++ secNameOf s ≠ ('{') :: v := by
  intro v he
  rw [chapterNameOf, List.append_assoc, List.append_assoc] at he
  exact headNotBrace_cons (by decide) v he

theorem headNotBrace_title3 (c : ChapterSpec) (s : SectionSpec) (t : SubsectionSpec) :
    ∀ v, chapterNameOf c ++ hyphen ++ secNameOf s ++ hyphen ++ subsecNameOf t ≠
      ('{') :: v := by
  intro v he
  rw [chapterNameOf, List.append_assoc, List.append_assoc, List.append_assoc,
    List.append_assoc] at he
  exact headNotBrace_cons (by decide) v he

theorem TBFree_title2 (c : ChapterSpec) (s : SectionSpec) :
    TBFree (chapterNameOf c ++ hyphen ++ secNameOf s) :=
  TBFree_hyphen_join (TBFree_chapterName c) (TBFree_secName s) (headNotBrace_secName s)

theorem TBFree_title3 (c : ChapterSpec) (s : SectionSpec) (t : SubsectionSpec) :
    TBFree (chapterNameOf c ++ hyphen ++ secNameOf s ++ hyphen ++ subsecNameOf t) :=
  TBFree_hyphen_join (TBFree_title2 c s) (TBFree_subsecName t) (headNotBrace_subsecName t)

theorem entryAt_append_left {a : FS} (b : FS) {p : FPath} {e : Entry}
    (h : entryAt a p = some e) : entryAt (a ++ b) p = some e := by
  rw [entryAt_append, h]

theorem entryAt_append_none {a : FS} (b : FS) {p : FPath}
    (h : entryAt a p = none) : entryAt (a ++ b) p = entryAt b p := by
  rw [entryAt_append, h]

theorem entryAt_none_of_ne : ∀ {d : FS} {q : FPath},
    (∀ pe ∈ d, pe.1 ≠ q) → entryAt d q = none := by
  intro d
  induction d with
  | nil => intro q _; rfl
  | cons pe rest ih =>
    intro q h
    obtain ⟨p, e⟩ := pe
    have hp : p ≠ q := h (p, e) (List.mem_cons_self (p, e) rest)
    show (if p = q then some e else entryAt rest q) = none
    rw [if_neg hp]
    exact ih (fun r hr => h r (List.mem_cons_of_mem (p, e) hr))

theorem prefix_get {a : FPath} {x : Str} {p : FPath} (h : (a ++ [x]) <+: p) :
    p[a.length]? = some x := by
  obtain ⟨t, ht⟩ := h
  rw [← ht, List.append_assoc, List.getElem?_append_right (Nat.le_refl a.length)]
  simp

theorem distinct_branch {a : FPath} {x y : Str} {p q : FPath}
    (hp : (a ++ [x]) <+: p) (hq : (a ++ [y]) <+: q) (hxy : x ≠ y) : p ≠ q := by
  intro he
  rw [he] at hp
  have h1 := prefix_get hp
  have h2 := prefix_get hq
  rw [h1] at h2
  exact hxy (by simpa using h2)

theorem ne_of_short {p q : FPath} {a : FPath} {x : Str}
    (hq : (a ++ [x]) <+: q) (hlen : p.length ≤ a.length) : p ≠ q := by
  intro he
  have h1 := hq.length_le
  rw [← he] at h1
  simp at h1
  omega

theorem append_singleton_ne (a : FPath) (x : Str) : a ++ [x] ≠ a := by
  intro he
  have : (a ++ [x]).length = a.length := by rw [he]
  simp at this

theorem inits_drop_concat (q : FPath) (y : Str) :
    (q ++ [y]).inits.drop 1 = q.inits.drop 1 ++ [q ++ [y]] := by
  rw [List.inits_append]
  have h1 : ([y] : FPath).inits.tail.map (fun l => q ++ l) = [q ++ [y]] := by
    simp [List.inits_cons]
  rw [h1, List.drop_append_of_le_length]
  simp [List.length_inits]

theorem properAncestors_concat {p : FPath} (hp : p ≠ []) (x : Str) :
    properAncestors (p ++ [x]) = properAncestors p ++ [p] := by
  obtain ⟨q, y, hq⟩ := List.eq_nil_or_concat p |>.resolve_left hp
  rw [List.concat_eq_append] at hq
  subst hq
  unfold properAncestors
  rw [List.dropLast_concat, inits_drop_concat, List.dropLast_concat]

theorem mkAncestors_dirs : ∀ {l : List FPath} {fs : FS},
    (∀ q ∈ l, entryAt fs q = some Entry.edir) → mkAncestors fs l = .ok fs := by
  intro l
  induction l with
  | nil => intro fs _; rfl
  | cons q rest ih =>
    intro fs h
    have hq := h q (List.mem_cons_self q rest)
    simp only [mkAncestors, hq]
    exact ih (fun r hr => h r (List.mem_cons_of_mem q hr))

theorem mkdirp_fresh_dirs {fs : FS} {cnt : Nat} {p : FPath} (ex : Bool)
    (hn : entryAt fs p = none)
    (ha : ∀ q ∈ properAncestors p, entryAt fs q = some Entry.edir) :
    mkdirp ex p ⟨fs, cnt⟩ = .ok () ⟨fs ++ [(p, Entry.edir)], cnt⟩ := by
  unfold mkdirp
  rw [hn, mkAncestors_dirs ha]

theorem isDirAt_of_entry {fs : FS} {q : FPath} (h : entryAt fs q = some Entry.edir) :
    isDirAt fs q = true := by
  cases q with
  | nil => rfl
  | cons a r =>
    unfold isDirAt
    rw [h]

theorem tex_file_fresh {fs : FS} {cnt : Nat} {p : FPath} (temp : Str)
    (hn : entryAt fs p = none) (hd : isDirAt fs p.dropLast = true) :
    tex_file p temp ⟨fs, cnt⟩ = .ok () ⟨fs ++ [(p, Entry.efile temp)], cnt⟩ := by
  unfold tex_file
  simp [existsP, hn, writeText, hd]

theorem catchFE_of_ok {act : M Unit} {s s' : St} (h : act s = .ok () s') :
    catchFE act s = .ok () s' := by
  unfold catchFE
  rw [h]

theorem append_last_ne {p : FPath} {x y : Str} (h : x ≠ y) : p ++ [x] ≠ p ++ [y] := by
  intro he
  exact h (by simpa using he)

theorem anc_concat {fs : FS} {p : FPath} (hp : p ≠ [])
    (hd : entryAt fs p = some Entry.edir)
    (ha : ∀ q ∈ properAncestors p, entryAt fs q = some Entry.edir) (x : Str) :
    ∀ q ∈ properAncestors (p ++ [x]), entryAt fs q = some Entry.edir := by
  intro q hq
  rw [properAncestors_concat hp] at hq
  rcases List.mem_append.mp hq with h1 | h2
  · exact ha q h1
  · rw [List.mem_singleton] at h2
    rw [h2]
    exact hd

theorem bind_if_state {b : Bool} {A : M Unit} {K : Unit → M Unit} {fs d : FS} {cnt : Nat}
    (hA : A ⟨fs, cnt⟩ = .ok () ⟨fs ++ d, cnt⟩) :
    ((if b then A else pure ()) >>= K) ⟨fs, cnt⟩ =
      K () ⟨fs ++ (if b then d else []), cnt⟩ := by
  cases b with
  | false => simp
  | true => simp [hA]

theorem if_state {b : Bool} {A : M Unit} {fs d : FS} {cnt : Nat}
    (hA : A ⟨fs, cnt⟩ = .ok () ⟨fs ++ d, cnt⟩) :
    (if b then A else (pure () : M Unit)) ⟨fs, cnt⟩ =
      .ok () ⟨fs ++ (if b then d else []), cnt⟩ := by
  cases b with
  | false => simp
  | true => rw [if_pos rfl, if_pos rfl, hA]

theorem create_ftc_fresh {fs : FS} {cnt : Nat} {p : FPath} (t : Ftc)
    (hp : p ≠ [])
    (hd : entryAt fs p = some Entry.edir)
    (ha : ∀ q ∈ properAncestors p, entryAt fs q = some Entry.edir)
    (hf : entryAt fs (p ++ [figsSeg]) = none)
    (htb : entryAt fs (p ++ [tabsSeg]) = none)
    (hc : entryAt fs (p ++ [codeSeg]) = none) :
    create_ftc p t ⟨fs, cnt⟩ = .ok () ⟨fs ++ ftcDirs p t, cnt⟩ := by
  have hmem1 : ∀ r ∈ (if t.figs then [(p ++ [figsSeg], Entry.edir)] else ([] : FS)),
      r.1 = p ++ [figsSeg] := by
    cases t.figs <;> intro r hr <;> simp at hr
    rw [hr]
  have hmem2 : ∀ r ∈ (if t.tabs then [(p ++ [tabsSeg], Entry.edir)] else ([] : FS)),
      r.1 = p ++ [tabsSeg] := by
    cases t.tabs <;> intro r hr <;> simp at hr
    rw [hr]
  have htb1 : entryAt (fs ++ (if t.figs then [(p ++ [figsSeg], Entry.edir)] else []))
      (p ++ [tabsSeg]) = none := by
    rw [entryAt_append_none _ htb]
    exact entryAt_none_of_ne (fun r hr => by
      rw [hmem1 r hr]
      exact append_last_ne (by decide))
  have hc1 : entryAt (fs ++ (if t.figs then [(p ++ [figsSeg], Entry.edir)] else []))
      (p ++ [codeSeg]) = none := by
    rw [entryAt_append_none _ hc]
    exact entryAt_none_of_ne (fun r hr => by
      rw [hmem1 r hr]
      exact append_last_ne (by decide))
  have hc2 : entryAt (fs ++ (if t.figs then [(p ++ [figsSeg], Entry.edir)] else []) ++
      (if t.tabs then [(p ++ [tabsSeg], Entry.edir)] else []))
      (p ++ [codeSeg]) = none := by
    rw [entryAt_append_none _ hc1]
    exact entryAt_none_of_ne (fun r hr => by
      rw [hmem2 r hr]
      exact append_last_ne (by decide))
  have hd1 : entryAt (fs ++ (if t.figs then [(p ++ [figsSeg], Entry.edir)] else []))
      p = some Entry.edir := entryAt_append_left _ hd
  have ha1 : ∀ q ∈ properAncestors p,
      entryAt (fs ++ (if t.figs then [(p ++ [figsSeg], Entry.edir)] else []))
        q = some Entry.edir :=
    fun q hq => entryAt_append_left _ (ha q hq)
  have hd2 : entryAt (fs ++ (if t.figs then [(p ++ [figsSeg], Entry.edir)] else []) ++
      (if t.tabs then [(p ++ [tabsSeg], Entry.edir)] else []))
      p = some Entry.edir := entryAt_append_left _ hd1
  have ha2 : ∀ q ∈ properAncestors p,
      entryAt (fs ++ (if t.figs then [(p ++ [figsSeg], Entry.edir)] else []) ++
        (if t.tabs then [(p ++ [tabsSeg], Entry.edir)] else []))
        q = some Entry.edir :=
    fun q hq => entryAt_append_left _ (ha1 q hq)
  unfold create_ftc
  simp only [bind_if_state (catchFE_of_ok (mkdirp_fresh_dirs false hf
    (anc_concat hp hd ha figsSeg)))]
  simp only [bind_if_state (catchFE_of_ok (mkdirp_fresh_dirs false htb1
    (anc_concat hp hd1 ha1 tabsSeg)))]
  simp only [if_state (catchFE_of_ok (mkdirp_fresh_dirs false hc2
    (anc_concat hp hd2 ha2 codeSeg)))]
  unfold ftcDirs
  simp [List.append_assoc]

set_option maxRecDepth 4000 in
theorem substT_chapter (t : Str) :
    substT tmplChapter [(kTitle, t), (kLabel, t)] = .ok (chapterContent t) := by
  unfold chapterContent
  simp only [List.append_assoc]
  rfl

set_option maxRecDepth 4000 in
theorem substT_section (t : Str) :
    substT tmplSection [(kTitle, t), (kLabel, t)] = .ok (sectionContent t) := by
  unfold sectionContent
  simp only [List.append_assoc]
  rfl

set_option maxRecDepth 4000 in
theorem substT_subsection (t : Str) :
    substT tmplSubsection [(kTitle, t), (kLabel, t)] = .ok (subsectionContent t) := by
  unfold subsectionContent
  simp only [List.append_assoc]
  rfl

theorem reformat_path_cons (rest : List Str) :
    reformat_path osSep (chaptersSeg :: rest) = joinSep osSep (chaptersSeg :: rest) := by
  rw [reformat_path_chapters osSep _ (List.mem_cons_self _ _)]
  simp [fromChapters, osSep]

theorem reformat_good {rest : List Str} (h : ∀ seg ∈ chaptersSeg :: rest, GoodSeg seg) :
    ('}') ∉ reformat_path osSep (chaptersSeg :: rest) ∧
    '\n' ∉ reformat_path osSep (chaptersSeg :: rest) ∧
    parsePath (reformat_path osSep (chaptersSeg :: rest)) = chaptersSeg :: rest := by
  rw [reformat_path_cons]
  have hc := joinSep_clean _ (fun seg hs => (h seg hs).2.2)
  refine ⟨hc.1, hc.2, ?_⟩
  refine parsePath_joinSep _ (by simp) (fun seg hs => ⟨(h seg hs).1, (h seg hs).2.1, ?_⟩)
  intro hin
  exact ((h seg hs).2.2 '/' hin).2.2 rfl

theorem goodSeg_chapterName (c : ChapterSpec) : GoodSeg (chapterNameOf c) := by
  refine ⟨by simp [chapterNameOf], ?_, ?_⟩
  · intro he
    have : (chapterNameOf c).head? = some '.' := by rw [he]; rfl
    rw [show (chapterNameOf c).head? = some 'c' from rfl] at this
    simp at this
  · exact cleanSeg_append (by unfold CleanSeg; decide) (cleanSeg_natRepr c.chapter)

theorem goodSeg_secName (s : SectionSpec) : GoodSeg (secNameOf s) := by
  refine ⟨by simp [secNameOf], ?_, ?_⟩
  · intro he
    have : (secNameOf s).head? = some '.' := by rw [he]; rfl
    rw [show (secNameOf s).head? = some 's' from rfl] at this
    simp at this
  · exact cleanSeg_append (by unfold CleanSeg; decide) (cleanSeg_natRepr s.sec)

theorem goodSeg_subsecName (t : SubsectionSpec) : GoodSeg (subsecNameOf t) := by
  refine ⟨by simp [subsecNameOf], ?_, ?_⟩
  · intro he
    have : (subsecNameOf t).head? = some '.' := by rw [he]; rfl
    rw [show (subsecNameOf t).head? = some 's' from rfl] at this
    simp at this
  · exact cleanSeg_append (by unfold CleanSeg; decide) (cleanSeg_natRepr t.subsec)

theorem goodSeg_append_tex {s : Str} (h : GoodSeg s) : GoodSeg (s ++ texExt) := by
  refine ⟨?_, ?_, cleanSeg_append h.2.2 (by unfold CleanSeg; decide)⟩
  · intro he
    have := congrArg List.length he
    simp [texExt] at this
  · intro he
    have hl := congrArg List.length he
    simp [texExt, dotSeg] at hl

theorem chapterFileOf_eq (c : ChapterSpec) : chapterFileOf c =
    chaptersSeg :: [chapterNameOf c, chapterNameOf c ++ texExt] := by
  simp [chapterFileOf, chapterPathOf]

theorem secFileOf_eq (c : ChapterSpec) (s : SectionSpec) : secFileOf c s =
    chaptersSeg :: [chapterNameOf c, sectionsSeg, secNameOf s, secNameOf s ++ texExt] := by
  simp [secFileOf, secDirOf, secPathC, chapterPathOf]

theorem subsecFileOf_eq (c : ChapterSpec) (s : SectionSpec) (t : SubsectionSpec) :
    subsecFileOf c s t = chaptersSeg :: [chapterNameOf c, sectionsSeg, secNameOf s,
      subsectionsSeg, subsecNameOf t, subsecNameOf t ++ texExt] := by
  simp [subsecFileOf, subsecDirOf, subsecPathCS, secDirOf, secPathC, chapterPathOf]

theorem target_chapterFile (c : ChapterSpec) :
    ('}') ∉ reformat_path osSep (chapterFileOf c) ∧
    '\n' ∉ reformat_path osSep (chapterFileOf c) ∧
    parsePath (reformat_path osSep (chapterFileOf c)) = chapterFileOf c := by
  rw [chapterFileOf_eq]
  refine reformat_good ?_
  intro seg hs
  simp only [List.mem_cons, List.not_mem_nil, or_false] at hs
  rcases hs with rfl | rfl | rfl
  · exact ⟨by decide, by decide, by unfold CleanSeg; decide⟩
  · exact goodSeg_chapterName c
  · exact goodSeg_append_tex (goodSeg_chapterName c)

theorem target_secFile (c : ChapterSpec) (s : SectionSpec) :
    ('}') ∉ reformat_path osSep (secFileOf c s) ∧
    '\n' ∉ reformat_path osSep (secFileOf c s) ∧
    parsePath (reformat_path osSep (secFileOf c s)) = secFileOf c s := by
  rw [secFileOf_eq]
  refine reformat_good ?_
  intro seg hs
  simp only [List.mem_cons, List.not_mem_nil, or_false] at hs
  rcases hs with rfl | rfl | rfl | rfl | rfl
  · exact ⟨by decide, by decide, by unfold CleanSeg; decide⟩
  · exact goodSeg_chapterName c
  · exact ⟨by decide, by decide, by unfold CleanSeg; decide⟩
  · exact goodSeg_secName s
  · exact goodSeg_append_tex (goodSeg_secName s)

theorem target_subsecFile (c : ChapterSpec) (s : SectionSpec) (t : SubsectionSpec) :
    ('}') ∉ reformat_path osSep (subsecFileOf c s t) ∧
    '\n' ∉ reformat_path osSep (subsecFileOf c s t) ∧
    parsePath (reformat_path osSep (subsecFileOf c s t)) = subsecFileOf c s t := by
  rw [subsecFileOf_eq]
  refine reformat_good ?_
  intro seg hs
  simp only [List.mem_cons, List.not_mem_nil, or_false] at hs
  rcases hs with rfl | rfl | rfl | rfl | rfl | rfl | rfl
  · exact ⟨by decide, by decide, by unfold CleanSeg; decide⟩
  · exact goodSeg_chapterName c
  · exact ⟨by decide, by decide, by unfold CleanSeg; decide⟩
  · exact goodSeg_secName s
  · exact ⟨by decide, by decide, by unfold CleanSeg; decide⟩
  · exact goodSeg_subsecName t
  · exact goodSeg_append_tex (goodSeg_subsecName t)

theorem ne_of_head {a b : Str} (h : a.head? ≠ b.head?) : a ≠ b :=
  fun he => h (by rw [he])

theorem ne_of_snd {a b : Str} (h : a[1]? ≠ b[1]?) : a ≠ b :=
  fun he => h (by rw [he])

theorem secNameOf_inj {s s' : SectionSpec} (h : secNameOf s = secNameOf s') :
    s.sec = s'.sec := by
  unfold secNameOf at h
  exact natRepr_inj (by simpa using h)

theorem subsecNameOf_inj {t t' : SubsectionSpec} (h : subsecNameOf t = subsecNameOf t') :
    t.subsec = t'.subsec := by
  unfold subsecNameOf at h
  exact natRepr_inj (by simpa using h)

theorem subsecTex_ne_ftc (t : SubsectionSpec) :
    subsecNameOf t ++ texExt ≠ figsSeg ∧ subsecNameOf t ++ texExt ≠ tabsSeg ∧
      subsecNameOf t ++ texExt ≠ codeSeg :=
  ⟨ne_of_head (by rw [show (subsecNameOf t ++ texExt).head? = some 's' from rfl]; decide),
   ne_of_head (by rw [show (subsecNameOf t ++ texExt).head? = some 's' from rfl]; decide),
   ne_of_head (by rw [show (subsecNameOf t ++ texExt).head? = some 's' from rfl]; decide)⟩

theorem secTex_ne_ftc (s : SectionSpec) :
    secNameOf s ++ texExt ≠ figsSeg ∧ secNameOf s ++ texExt ≠ tabsSeg ∧
      secNameOf s ++ texExt ≠ codeSeg :=
  ⟨ne_of_head (by rw [show (secNameOf s ++ texExt).head? = some 's' from rfl]; decide),
   ne_of_head (by rw [show (secNameOf s ++ texExt).head? = some 's' from rfl]; decide),
   ne_of_head (by rw [show (secNameOf s ++ texExt).head? = some 's' from rfl]; decide)⟩

theorem secTex_ne_subsections (s : SectionSpec) :
    secNameOf s ++ texExt ≠ subsectionsSeg :=
  ne_of_snd (by rw [show (secNameOf s ++ texExt)[1]? = some 'e' from rfl]; decide)

theorem subsections_ne_ftc :
    subsectionsSeg ≠ figsSeg ∧ subsectionsSeg ≠ tabsSeg ∧ subsectionsSeg ≠ codeSeg := by
  refine ⟨?_, ?_, ?_⟩ <;> decide

theorem chapTex_ne_ftc (c : ChapterSpec) :
    chapterNameOf c ++ texExt ≠ figsSeg ∧ chapterNameOf c ++ texExt ≠ tabsSeg ∧
      chapterNameOf c ++ texExt ≠ codeSeg :=
  ⟨ne_of_head (by rw [show (chapterNameOf c ++ texExt).head? = some 'c' from rfl]; decide),
   ne_of_head (by rw [show (chapterNameOf c ++ texExt).head? = some 'c' from rfl]; decide),
   ne_of_snd (by rw [show (chapterNameOf c ++ texExt)[1]? = some 'h' from rfl]; decide)⟩

theorem chapTex_ne_sections (c : ChapterSpec) :
    chapterNameOf c ++ texExt ≠ sectionsSeg :=
  ne_of_head (by rw [show (chapterNameOf c ++ texExt).head? = some 'c' from rfl]; decide)

theorem sections_ne_ftc :
    sectionsSeg ≠ figsSeg ∧ sectionsSeg ≠ tabsSeg ∧ sectionsSeg ≠ codeSeg := by
  refine ⟨?_, ?_, ?_⟩ <;> decide

theorem ftcDirs_mem {p : FPath} {f : Ftc} :
    ∀ pe ∈ ftcDirs p f, ∃ y : Str, (y = figsSeg ∨ y = tabsSeg ∨ y = codeSeg) ∧
      pe = (p ++ [y], Entry.edir) := by
  intro pe hpe
  unfold ftcDirs at hpe
  rcases List.mem_append.mp hpe with h12 | h3
  · rcases List.mem_append.mp h12 with h1 | h2
    · cases hF : f.figs <;> rw [hF] at h1 <;> simp at h1
      exact ⟨figsSeg, Or.inl rfl, by rw [h1]⟩
    · cases hT : f.tabs <;> rw [hT] at h2 <;> simp at h2
      exact ⟨tabsSeg, Or.inr (Or.inl rfl), by rw [h2]⟩
  · cases hC : f.code <;> rw [hC] at h3 <;> simp at h3
    exact ⟨codeSeg, Or.inr (Or.inr rfl), by rw [h3]⟩

theorem ftcDirs_dirs {p : FPath} {f : Ftc} : ∀ pe ∈ ftcDirs p f, pe.2 = Entry.edir := by
  intro pe hpe
  obtain ⟨y, _, he⟩ := ftcDirs_mem pe hpe
  rw [he]

theorem subsecScaffold_mem (c : ChapterSpec) (s : SectionSpec) :
    ∀ (subl : List SubsectionSpec), ∀ pe ∈ subsecScaffold c s subl,
      ∃ t ∈ subl, (subsecPathCS c s ++ [subsecNameOf t]) <+: pe.1 := by
  intro subl
  induction subl with
  | nil => intro pe hpe; cases hpe
  | cons t rest ih =>
    intro pe hpe
    rw [subsecScaffold] at hpe
    rcases List.mem_append.mp hpe with hh | hr
    · refine ⟨t, List.mem_cons_self t rest, ?_⟩
      rcases List.mem_append.mp hh with h2 | hftc
      · simp only [List.mem_cons, List.not_mem_nil, or_false] at h2
        rcases h2 with rfl | rfl
        · exact List.prefix_refl _
        · exact ⟨[subsecNameOf t ++ texExt], rfl⟩
      · obtain ⟨y, _, he⟩ := ftcDirs_mem pe hftc
        rw [he]
        exact ⟨[y], rfl⟩
    · obtain ⟨t', ht', hp⟩ := ih pe hr
      exact ⟨t', List.mem_cons_of_mem t ht', hp⟩

theorem entryAt_snoc_none {a : FS} {p : FPath} {e : Entry} {q : FPath}
    (h : entryAt a q = none) (hne : p ≠ q) : entryAt (a ++ [(p, e)]) q = none := by
  rw [entryAt_append_none _ h]
  show (if p = q then some e else none) = none
  rw [if_neg hne]

theorem entryAt_snoc_some {a : FS} {p : FPath} {e : Entry}
    (h : entryAt a p = none) : entryAt (a ++ [(p, e)]) p = some e := by
  rw [entryAt_append_none _ h]
  simp [entryAt]

theorem entryAt_ftc_none {X : FS} {p : FPath} {f : Ftc} {q : FPath}
    (h : entryAt X q = none)
    (h1 : p ++ [figsSeg] ≠ q) (h2 : p ++ [tabsSeg] ≠ q) (h3 : p ++ [codeSeg] ≠ q) :
    entryAt (X ++ ftcDirs p f) q = none := by
  rw [entryAt_append_none _ h]
  refine entryAt_none_of_ne (fun r hr => ?_)
  obtain ⟨y, hy, he⟩ := ftcDirs_mem r hr
  rw [he]
  rcases hy with rfl | rfl | rfl
  · exact h1
  · exact h2
  · exact h3

theorem subsecLoop_run (c : ChapterSpec) (s : SectionSpec) (cnt : Nat) :
    ∀ (subl : List SubsectionSpec) (G : FS) (acc : Str),
      (∀ q ∈ properAncestors (subsecPathCS c s), entryAt G q = some Entry.edir) →
      entryAt G (subsecPathCS c s) = some Entry.edir →
      (∀ t ∈ subl, ∀ q : FPath, (subsecPathCS c s ++ [subsecNameOf t]) <+: q →
        entryAt G q = none) →
      (subl.map (fun t => t.subsec)).Nodup →
      subsecLoop (chapterNameOf c) (secNameOf s) (subsecPathCS c s) subl acc ⟨G, cnt⟩ =
        .ok (acc ++ (subl.map (fun t => input_stmt osSep (subsecFileOf c s t))).flatten)
          ⟨G ++ subsecScaffold c s subl, cnt⟩ := by
  intro subl
  induction subl with
  | nil =>
    intro G acc _ _ _ _
    simp [subsecLoop, subsecScaffold]
  | cons t rest ih =>
    intro G acc hanc hup hfr hnd
    have hUPne : subsecPathCS c s ≠ [] := by
      simp [subsecPathCS, secDirOf, secPathC, chapterPathOf]
    have hfrt := hfr t (List.mem_cons_self t rest)
    have hancUD := anc_concat hUPne hup hanc (subsecNameOf t)
    have hnd' : (∀ x ∈ rest, ¬x.subsec = t.subsec) ∧
        (rest.map (fun x => x.subsec)).Nodup := by simpa using hnd
    have h1 : mkdirp true (subsecPathCS c s ++ [subsecNameOf t]) ⟨G, cnt⟩ =
        .ok () ⟨G ++ [(subsecPathCS c s ++ [subsecNameOf t], Entry.edir)], cnt⟩ :=
      mkdirp_fresh_dirs true (hfrt _ (List.prefix_refl _)) hancUD
    have hUDsome : entryAt (G ++ [(subsecPathCS c s ++ [subsecNameOf t], Entry.edir)])
        (subsecPathCS c s ++ [subsecNameOf t]) = some Entry.edir :=
      entryAt_snoc_some (hfrt _ (List.prefix_refl _))
    have h3 : tex_file (subsecPathCS c s ++ [subsecNameOf t] ++ [subsecNameOf t ++ texExt])
        (subsectionContent (chapterNameOf c ++ hyphen ++ secNameOf s ++ hyphen ++
          subsecNameOf t))
        ⟨G ++ [(subsecPathCS c s ++ [subsecNameOf t], Entry.edir)], cnt⟩ =
        .ok () ⟨G ++ [(subsecPathCS c s ++ [subsecNameOf t], Entry.edir)] ++
          [(subsecPathCS c s ++ [subsecNameOf t] ++ [subsecNameOf t ++ texExt],
            Entry.efile (subsectionContent (chapterNameOf c ++ hyphen ++ secNameOf s ++
              hyphen ++ subsecNameOf t)))], cnt⟩ := by
      refine tex_file_fresh _ (entryAt_snoc_none
        (hfrt _ ⟨[subsecNameOf t ++ texExt], rfl⟩) (append_singleton_ne _ _).symm) ?_
      rw [List.dropLast_concat]
      exact isDirAt_of_entry hUDsome
    have h4 : create_ftc (subsecPathCS c s ++ [subsecNameOf t]) t.ftc
        ⟨G ++ [(subsecPathCS c s ++ [subsecNameOf t], Entry.edir)] ++
          [(subsecPathCS c s ++ [subsecNameOf t] ++ [subsecNameOf t ++ texExt],
            Entry.efile (subsectionContent (chapterNameOf c ++ hyphen ++ secNameOf s ++
              hyphen ++ subsecNameOf t)))], cnt⟩ =
        .ok () ⟨G ++ [(subsecPathCS c s ++ [subsecNameOf t], Entry.edir)] ++
          [(subsecPathCS c s ++ [subsecNameOf t] ++ [subsecNameOf t ++ texExt],
            Entry.efile (subsectionContent (chapterNameOf c ++ hyphen ++ secNameOf s ++
              hyphen ++ subsecNameOf t)))] ++
          ftcDirs (subsecPathCS c s ++ [subsecNameOf t]) t.ftc, cnt⟩ := by
      refine create_ftc_fresh _ (by simp) (entryAt_append_left _ hUDsome)
        (fun q hq => entryAt_append_left _ (entryAt_append_left _ (hancUD q hq)))
        ?_ ?_ ?_
      · exact entryAt_snoc_none (entryAt_snoc_none (hfrt _ ⟨[figsSeg], rfl⟩)
          (append_singleton_ne _ _).symm)
          (append_last_ne (subsecTex_ne_ftc t).1)
      · exact entryAt_snoc_none (entryAt_snoc_none (hfrt _ ⟨[tabsSeg], rfl⟩)
          (append_singleton_ne _ _).symm)
          (append_last_ne (subsecTex_ne_ftc t).2.1)
      · exact entryAt_snoc_none (entryAt_snoc_none (hfrt _ ⟨[codeSeg], rfl⟩)
          (append_singleton_ne _ _).symm)
          (append_last_ne (subsecTex_ne_ftc t).2.2)
    have hanc3 : ∀ q ∈ properAncestors (subsecPathCS c s),
        entryAt (G ++ [(subsecPathCS c s ++ [subsecNameOf t], Entry.edir)] ++
          [(subsecPathCS c s ++ [subsecNameOf t] ++ [subsecNameOf t ++ texExt],
            Entry.efile (subsectionContent (chapterNameOf c ++ hyphen ++ secNameOf s ++
              hyphen ++ subsecNameOf t)))] ++
          ftcDirs (subsecPathCS c s ++ [subsecNameOf t]) t.ftc) q = some Entry.edir :=
      fun q hq => entryAt_append_left _ (entryAt_append_left _ (entryAt_append_left _
        (hanc q hq)))
    have hup3 : entryAt (G ++ [(subsecPathCS c s ++ [subsecNameOf t], Entry.edir)] ++
        [(subsecPathCS c s ++ [subsecNameOf t] ++ [subsecNameOf t ++ texExt],
          Entry.efile (subsectionContent (chapterNameOf c ++ hyphen ++ secNameOf s ++
            hyphen ++ subsecNameOf t)))] ++
        ftcDirs (subsecPathCS c s ++ [subsecNameOf t]) t.ftc)
        (subsecPathCS c s) = some Entry.edir :=
      entryAt_append_left _ (entryAt_append_left _ (entryAt_append_left _ hup))
    have hfr3 : ∀ t' ∈ rest, ∀ q : FPath,
        (subsecPathCS c s ++ [subsecNameOf t']) <+: q →
        entryAt (G ++ [(subsecPathCS c s ++ [subsecNameOf t], Entry.edir)] ++
          [(subsecPathCS c s ++ [subsecNameOf t] ++ [subsecNameOf t ++ texExt],
            Entry.efile (subsectionContent (chapterNameOf c ++ hyphen ++ secNameOf s ++
              hyphen ++ subsecNameOf t)))] ++
          ftcDirs (subsecPathCS c s ++ [subsecNameOf t]) t.ftc) q = none := by
      intro t' ht' q hq
      have hneq : subsecNameOf t ≠ subsecNameOf t' := by
        intro he
        exact hnd'.1 t' ht' (subsecNameOf_inj he).symm
      refine entryAt_ftc_none (entryAt_snoc_none (entryAt_snoc_none
        (hfr t' (List.mem_cons_of_mem t ht') q hq)
        (distinct_branch (List.prefix_refl _) hq hneq))
        (distinct_branch ⟨[subsecNameOf t ++ texExt], rfl⟩ hq hneq))
        (distinct_branch ⟨[figsSeg], rfl⟩ hq hneq)
        (distinct_branch ⟨[tabsSeg], rfl⟩ hq hneq)
        (distinct_branch ⟨[codeSeg], rfl⟩ hq hneq)
    rw [subsecLoop]
    simp only [M_bind_apply, M_liftE_apply, h1, substT_subsection, h3, h4,
      inputSubstitute_eq]
    rw [ih _ _ hanc3 hup3 hfr3 hnd'.2]
    simp [subsecScaffold, subsecFileOf, subsecDirOf, List.append_assoc]

theorem entryAt_subsecScaffold_none {X : FS} {c : ChapterSpec} {s : SectionSpec}
    {subs : List SubsectionSpec} {q : FPath} (h : entryAt X q = none)
    (hne : ∀ t ∈ subs, ∀ r : FPath,
      (subsecPathCS c s ++ [subsecNameOf t]) <+: r → r ≠ q) :
    entryAt (X ++ subsecScaffold c s subs) q = none := by
  rw [entryAt_append_none _ h]
  refine entryAt_none_of_ne (fun r hr => ?_)
  obtain ⟨t, ht, hp⟩ := subsecScaffold_mem c s subs r hr
  exact hne t ht r.1 hp

theorem secLoop_run (c : ChapterSpec) (subsections : SubsecMap) (cnt : Nat) :
    ∀ (secl : List SectionSpec) (G : FS) (acc : Str),
      (∀ q ∈ properAncestors (secPathC c), entryAt G q = some Entry.edir) →
      entryAt G (secPathC c) = some Entry.edir →
      (∀ s ∈ secl, ∀ q : FPath, (secPathC c ++ [secNameOf s]) <+: q →
        entryAt G q = none) →
      (secl.map (fun s => s.sec)).Nodup →
      (∀ s ∈ secl, lookupA subsections (natRepr s.sec) = some (subsOf subsections s) ∧
        s.num_subsections = (subsOf subsections s).length ∧
        ((subsOf subsections s).map (fun t => t.subsec)).Nodup) →
      secLoop (chapterNameOf c) (secPathC c) subsections secl acc ⟨G, cnt⟩ =
        .ok (acc ++ (secl.map (fun s => input_stmt osSep (secFileOf c s))).flatten)
          ⟨G ++ secScaffold c subsections secl, cnt⟩ := by
  intro secl
  induction secl with
  | nil =>
    intro G acc _ _ _ _ _
    simp [secLoop, secScaffold]
  | cons s rest ih =>
    intro G acc hanc hsp hfr hnd hlk
    have hspne : secPathC c ≠ [] := by simp [secPathC, chapterPathOf]
    have hlks := hlk s (List.mem_cons_self s rest)
    have hfrs := hfr s (List.mem_cons_self s rest)
    have hnd' : (∀ x ∈ rest, ¬x.sec = s.sec) ∧ (rest.map (fun x => x.sec)).Nodup := by
      simpa using hnd
    have hancSD := anc_concat hspne hsp hanc (secNameOf s)
    have h1 : mkdirp true (secPathC c ++ [secNameOf s]) ⟨G, cnt⟩ =
        .ok () ⟨G ++ [(secDirOf c s, Entry.edir)], cnt⟩ :=
      mkdirp_fresh_dirs true (hfrs _ (List.prefix_refl _)) hancSD
    have hSDsome : entryAt (G ++ [(secDirOf c s, Entry.edir)]) (secDirOf c s) =
        some Entry.edir := entryAt_snoc_some (hfrs _ (List.prefix_refl _))
    have hancSD2 : ∀ q ∈ properAncestors (secDirOf c s),
        entryAt (G ++ [(secDirOf c s, Entry.edir)]) q = some Entry.edir :=
      fun q hq => entryAt_append_left _ (hancSD q hq)
    have h2 : create_ftc (secPathC c ++ [secNameOf s]) s.ftc
        ⟨G ++ [(secDirOf c s, Entry.edir)], cnt⟩ =
        .ok () ⟨G ++ [(secDirOf c s, Entry.edir)] ++ ftcDirs (secDirOf c s) s.ftc,
          cnt⟩ := by
      refine create_ftc_fresh _ (by simp [secDirOf]) hSDsome hancSD2 ?_ ?_ ?_
      · exact entryAt_snoc_none (hfrs _ ⟨[figsSeg], rfl⟩) (append_singleton_ne _ _).symm
      · exact entryAt_snoc_none (hfrs _ ⟨[tabsSeg], rfl⟩) (append_singleton_ne _ _).symm
      · exact entryAt_snoc_none (hfrs _ ⟨[codeSeg], rfl⟩) (append_singleton_ne _ _).symm
    have hSDsome2 : entryAt (G ++ [(secDirOf c s, Entry.edir)] ++
        ftcDirs (secDirOf c s) s.ftc) (secDirOf c s) = some Entry.edir :=
      entryAt_append_left _ hSDsome
    have hancSD3 : ∀ q ∈ properAncestors (secDirOf c s),
        entryAt (G ++ [(secDirOf c s, Entry.edir)] ++ ftcDirs (secDirOf c s) s.ftc)
          q = some Entry.edir :=
      fun q hq => entryAt_append_left _ (hancSD2 q hq)
    rw [secLoop]
    simp only [M_bind_apply, M_liftE_apply, hlks.1, h1, substT_section, h2,
      inputSubstitute_eq, if_pos hlks.2.1]
    by_cases hz : s.num_subsections = 0
    · -- no subsections: the inner branch is skipped
      have hsub0 : subsOf subsections s = [] := by
        rw [← List.length_eq_zero]
        rw [hz] at hlks
        exact hlks.2.1.symm
      rw [if_neg (by simp [hz])]
      have h5 : tex_file (secPathC c ++ [secNameOf s] ++ [secNameOf s ++ texExt])
          (sectionContent (chapterNameOf c ++ hyphen ++ secNameOf s))
          ⟨G ++ [(secDirOf c s, Entry.edir)] ++ ftcDirs (secDirOf c s) s.ftc, cnt⟩ =
          .ok () ⟨G ++ [(secDirOf c s, Entry.edir)] ++ ftcDirs (secDirOf c s) s.ftc ++
            [(secFileOf c s, Entry.efile (sectionContent (chapterNameOf c ++ hyphen ++
              secNameOf s)))], cnt⟩ := by
        refine tex_file_fresh _ (entryAt_ftc_none (entryAt_snoc_none
          (hfrs _ ⟨[secNameOf s ++ texExt], rfl⟩) (append_singleton_ne _ _).symm)
          (append_last_ne (secTex_ne_ftc s).1.symm)
          (append_last_ne (secTex_ne_ftc s).2.1.symm)
          (append_last_ne (secTex_ne_ftc s).2.2.symm)) ?_
        rw [List.dropLast_concat]
        exact isDirAt_of_entry hSDsome2
      simp only [M_bind_apply, M_pure_apply, h5]
      have hanc5 : ∀ q ∈ properAncestors (secPathC c),
          entryAt (G ++ [(secDirOf c s, Entry.edir)] ++ ftcDirs (secDirOf c s) s.ftc ++
            [(secFileOf c s, Entry.efile (sectionContent (chapterNameOf c ++ hyphen ++
              secNameOf s)))]) q = some Entry.edir :=
        fun q hq => entryAt_append_left _ (entryAt_append_left _ (entryAt_append_left _
          (hanc q hq)))
      have hsp5 : entryAt (G ++ [(secDirOf c s, Entry.edir)] ++
          ftcDirs (secDirOf c s) s.ftc ++
          [(secFileOf c s, Entry.efile (sectionContent (chapterNameOf c ++ hyphen ++
            secNameOf s)))]) (secPathC c) = some Entry.edir :=
        entryAt_append_left _ (entryAt_append_left _ (entryAt_append_left _ hsp))
      have hfr5 : ∀ s' ∈ rest, ∀ q : FPath, (secPathC c ++ [secNameOf s']) <+: q →
          entryAt (G ++ [(secDirOf c s, Entry.edir)] ++ ftcDirs (secDirOf c s) s.ftc ++
            [(secFileOf c s, Entry.efile (sectionContent (chapterNameOf c ++ hyphen ++
              secNameOf s)))]) q = none := by
        intro s' hs' q hq
        have hneq : secNameOf s ≠ secNameOf s' := by
          intro he
          exact hnd'.1 s' hs' (secNameOf_inj he).symm
        refine entryAt_snoc_none (entryAt_ftc_none (entryAt_snoc_none
          (hfr s' (List.mem_cons_of_mem s hs') q hq)
          (distinct_branch (List.prefix_refl _) hq hneq))
          (distinct_branch ⟨[figsSeg], rfl⟩ hq hneq)
          (distinct_branch ⟨[tabsSeg], rfl⟩ hq hneq)
          (distinct_branch ⟨[codeSeg], rfl⟩ hq hneq))
          (distinct_branch ⟨[secNameOf s ++ texExt], rfl⟩ hq hneq)
      rw [ih _ _ hanc5 hsp5 hfr5 hnd'.2
        (fun s' hs' => hlk s' (List.mem_cons_of_mem s hs'))]
      simp [secScaffold, hz, hsub0, secFileOf, secDirOf, List.append_assoc]
    · -- with subsections
      rw [if_pos hz]
      have hUPnone : entryAt (G ++ [(secDirOf c s, Entry.edir)] ++
          ftcDirs (secDirOf c s) s.ftc) (secDirOf c s ++ [subsectionsSeg]) = none :=
        entryAt_ftc_none (entryAt_snoc_none (hfrs _ ⟨[subsectionsSeg], rfl⟩)
          (append_singleton_ne _ _).symm)
          (append_last_ne subsections_ne_ftc.1.symm)
          (append_last_ne subsections_ne_ftc.2.1.symm)
          (append_last_ne subsections_ne_ftc.2.2.symm)
      have h3 : mkdirp true (subsecPathCS c s)
          ⟨G ++ [(secDirOf c s, Entry.edir)] ++ ftcDirs (secDirOf c s) s.ftc, cnt⟩ =
          .ok () ⟨G ++ [(secDirOf c s, Entry.edir)] ++ ftcDirs (secDirOf c s) s.ftc ++
            [(subsecPathCS c s, Entry.edir)], cnt⟩ := by
        refine mkdirp_fresh_dirs true hUPnone ?_
        intro q hq
        rw [show subsecPathCS c s = secDirOf c s ++ [subsectionsSeg] from rfl,
          properAncestors_concat (by simp [secDirOf]) subsectionsSeg] at hq
        rcases List.mem_append.mp hq with h1' | h2'
        · exact hancSD3 q h1'
        · rw [List.mem_singleton] at h2'
          rw [h2']
          exact hSDsome2
      have hUPsome : entryAt (G ++ [(secDirOf c s, Entry.edir)] ++
          ftcDirs (secDirOf c s) s.ftc ++ [(subsecPathCS c s, Entry.edir)])
          (subsecPathCS c s) = some Entry.edir := entryAt_snoc_some hUPnone
      have hancUP : ∀ q ∈ properAncestors (subsecPathCS c s),
          entryAt (G ++ [(secDirOf c s, Entry.edir)] ++ ftcDirs (secDirOf c s) s.ftc ++
            [(subsecPathCS c s, Entry.edir)]) q = some Entry.edir := by
        intro q hq
        rw [show subsecPathCS c s = secDirOf c s ++ [subsectionsSeg] from rfl,
          properAncestors_concat (by simp [secDirOf]) subsectionsSeg] at hq
        rcases List.mem_append.mp hq with h1' | h2'
        · exact entryAt_append_left _ (hancSD3 q h1')
        · rw [List.mem_singleton] at h2'
          rw [h2']
          exact entryAt_append_left _ hSDsome2
      have hfrUP : ∀ t ∈ subsOf subsections s, ∀ q : FPath,
          (subsecPathCS c s ++ [subsecNameOf t]) <+: q →
          entryAt (G ++ [(secDirOf c s, Entry.edir)] ++ ftcDirs (secDirOf c s) s.ftc ++
            [(subsecPathCS c s, Entry.edir)]) q = none := by
        intro t ht q hq
        have hSDq : (secPathC c ++ [secNameOf s]) <+: q :=
          List.IsPrefix.trans (List.IsPrefix.trans
            (⟨[subsectionsSeg], rfl⟩ : secDirOf c s <+: subsecPathCS c s)
            (⟨[subsecNameOf t], rfl⟩ :
              subsecPathCS c s <+: subsecPathCS c s ++ [subsecNameOf t])) hq
        refine entryAt_snoc_none (entryAt_ftc_none (entryAt_snoc_none
          (hfrs q hSDq) ?_) ?_ ?_ ?_) ?_
        · exact ne_of_short hq (by simp [secDirOf, subsecPathCS])
        · exact ne_of_short hq (by simp [secDirOf, subsecPathCS])
        · exact ne_of_short hq (by simp [secDirOf, subsecPathCS])
        · exact ne_of_short hq (by simp [secDirOf, subsecPathCS])
        · exact ne_of_short hq (by simp [subsecPathCS])
      rw [show secPathC c ++ [secNameOf s] ++ [subsectionsSeg] = subsecPathCS c s
        from rfl]
      simp only [M_bind_apply, h3]
      rw [subsecLoop_run c s cnt (subsOf subsections s) _ _ hancUP hUPsome hfrUP
        hlks.2.2]
      have h5 : tex_file (secPathC c ++ [secNameOf s] ++ [secNameOf s ++ texExt])
          (sectionContent (chapterNameOf c ++ hyphen ++ secNameOf s) ++
            ((subsOf subsections s).map
              (fun t => input_stmt osSep (subsecFileOf c s t))).flatten)
          ⟨G ++ [(secDirOf c s, Entry.edir)] ++ ftcDirs (secDirOf c s) s.ftc ++
            [(subsecPathCS c s, Entry.edir)] ++
            subsecScaffold c s (subsOf subsections s), cnt⟩ =
          .ok () ⟨G ++ [(secDirOf c s, Entry.edir)] ++ ftcDirs (secDirOf c s) s.ftc ++
            [(subsecPathCS c s, Entry.edir)] ++
            subsecScaffold c s (subsOf subsections s) ++
            [(secFileOf c s, Entry.efile (sectionContent (chapterNameOf c ++ hyphen ++
              secNameOf s) ++
              ((subsOf subsections s).map
                (fun t => input_stmt osSep (subsecFileOf c s t))).flatten))],
            cnt⟩ := by
        refine tex_file_fresh _ ?_ ?_
        · refine entryAt_subsecScaffold_none (entryAt_snoc_none (entryAt_ftc_none
            (entryAt_snoc_none (hfrs _ ⟨[secNameOf s ++ texExt], rfl⟩)
              (append_singleton_ne _ _).symm)
            (append_last_ne (secTex_ne_ftc s).1.symm)
            (append_last_ne (secTex_ne_ftc s).2.1.symm)
            (append_last_ne (secTex_ne_ftc s).2.2.symm))
            (append_last_ne (secTex_ne_subsections s).symm)) ?_
          intro t ht r hr
          exact (ne_of_short hr (by simp [subsecPathCS, secDirOf, secFileOf])).symm
        · rw [List.dropLast_concat]
          exact isDirAt_of_entry (entryAt_append_left _ (entryAt_append_left _
            hSDsome2))
      simp only [M_bind_apply, h5]
      have hanc5 : ∀ q ∈ properAncestors (secPathC c),
          entryAt (G ++ [(secDirOf c s, Entry.edir)] ++ ftcDirs (secDirOf c s) s.ftc ++
            [(subsecPathCS c s, Entry.edir)] ++
            subsecScaffold c s (subsOf subsections s) ++
            [(secFileOf c s, Entry.efile (sectionContent (chapterNameOf c ++ hyphen ++
              secNameOf s) ++
              ((subsOf subsections s).map
                (fun t => input_stmt osSep (subsecFileOf c s t))).flatten))])
            q = some Entry.edir :=
        fun q hq => entryAt_append_left _ (entryAt_append_left _ (entryAt_append_left _
          (entryAt_append_left _ (entryAt_append_left _ (hanc q hq)))))
      have hsp5 : entryAt (G ++ [(secDirOf c s, Entry.edir)] ++
          ftcDirs (secDirOf c s) s.ftc ++ [(subsecPathCS c s, Entry.edir)] ++
          subsecScaffold c s (subsOf subsections s) ++
          [(secFileOf c s, Entry.efile (sectionContent (chapterNameOf c ++ hyphen ++
            secNameOf s) ++
            ((subsOf subsections s).map
              (fun t => input_stmt osSep (subsecFileOf c s t))).flatten))])
          (secPathC c) = some Entry.edir :=
        entryAt_append_left _ (entryAt_append_left _ (entryAt_append_left _
          (entryAt_append_left _ (entryAt_append_left _ hsp))))
      have hfr5 : ∀ s' ∈ rest, ∀ q : FPath, (secPathC c ++ [secNameOf s']) <+: q →
          entryAt (G ++ [(secDirOf c s, Entry.edir)] ++ ftcDirs (secDirOf c s) s.ftc ++
            [(subsecPathCS c s, Entry.edir)] ++
            subsecScaffold c s (subsOf subsections s) ++
            [(secFileOf c s, Entry.efile (sectionContent (chapterNameOf c ++ hyphen ++
              secNameOf s) ++
              ((subsOf subsections s).map
                (fun t => input_stmt osSep (subsecFileOf c s t))).flatten))])
            q = none := by
        intro s' hs' q hq
        have hneq : secNameOf s ≠ secNameOf s' := by
          intro he
          exact hnd'.1 s' hs' (secNameOf_inj he).symm
        refine entryAt_snoc_none (entryAt_subsecScaffold_none (entryAt_snoc_none
          (entryAt_ftc_none (entryAt_snoc_none
            (hfr s' (List.mem_cons_of_mem s hs') q hq)
            (distinct_branch (List.prefix_refl _) hq hneq))
          (distinct_branch ⟨[figsSeg], rfl⟩ hq hneq)
          (distinct_branch ⟨[tabsSeg], rfl⟩ hq hneq)
          (distinct_branch ⟨[codeSeg], rfl⟩ hq hneq))
          (distinct_branch ⟨[subsectionsSeg], rfl⟩ hq hneq)) ?_)
          (distinct_branch ⟨[secNameOf s ++ texExt], rfl⟩ hq hneq)
        intro t ht r hr
        have hSDr : (secPathC c ++ [secNameOf s]) <+: r :=
          List.IsPrefix.trans (List.IsPrefix.trans
            (⟨[subsectionsSeg], rfl⟩ : secDirOf c s <+: subsecPathCS c s)
            (⟨[subsecNameOf t], rfl⟩ :
              subsecPathCS c s <+: subsecPathCS c s ++ [subsecNameOf t])) hr
        exact distinct_branch hSDr hq hneq
      rw [ih _ _ hanc5 hsp5 hfr5 hnd'.2
        (fun s' hs' => hlk s' (List.mem_cons_of_mem s hs'))]
      simp [secScaffold, hz, secFileOf, secDirOf, List.append_assoc]

theorem entryAt_mem : ∀ {fs : FS} {p : FPath} {e : Entry},
    entryAt fs p = some e → (p, e) ∈ fs := by
  intro fs
  induction fs with
  | nil => intro p e h; cases h
  | cons pe rest ih =>
    intro p e h
    obtain ⟨q, v⟩ := pe
    by_cases hqp : q = p
    · subst hqp
      have : some v = some e := by
        rw [← h]
        show some v = if q = q then some v else entryAt rest q
        rw [if_pos rfl]
      rw [Option.some_inj] at this
      subst this
      exact List.mem_cons_self (q, v) rest
    · have h' : entryAt rest p = some e := by
        rw [← h]
        show entryAt rest p = if q = p then some v else entryAt rest p
        rw [if_neg hqp]
      exact List.mem_cons_of_mem (q, v) (ih h')

theorem withChaptersDir_entry {fs : FS} (hch : isFileAt fs [chaptersSeg] = false) :
    entryAt (withChaptersDir fs) [chaptersSeg] = some Entry.edir := by
  unfold withChaptersDir existsP
  cases he : entryAt fs [chaptersSeg] with
  | none => simp [entryAt_snoc_some he]
  | some e =>
    cases e with
    | efile t =>
      exfalso
      unfold isFileAt at hch
      rw [he] at hch
      simp at hch
    | edir => simpa using he

theorem withChaptersDir_none {fs : FS} {q : FPath} (h : entryAt fs q = none)
    (hne : [chaptersSeg] ≠ q) : entryAt (withChaptersDir fs) q = none := by
  unfold withChaptersDir existsP
  cases he : entryAt fs [chaptersSeg] with
  | none => simp [entryAt_snoc_none h hne]
  | some e => simpa using h

theorem mkdirp_chapter (c : ChapterSpec) (cnt : Nat) {fs : FS}
    (hn : entryAt fs (chapterPathOf c) = none)
    (hch : isFileAt fs [chaptersSeg] = false) :
    mkdirp false (chapterPathOf c) ⟨fs, cnt⟩ =
      .ok () ⟨withChaptersDir fs ++ [(chapterPathOf c, Entry.edir)], cnt⟩ := by
  unfold mkdirp
  rw [hn]
  rw [show properAncestors (chapterPathOf c) = [[chaptersSeg]] from rfl]
  unfold withChaptersDir existsP
  cases he : entryAt fs [chaptersSeg] with
  | none =>
    rw [mkAncestors, he]
    simp [mkAncestors]
  | some e =>
    cases e with
    | efile t =>
      exfalso
      unfold isFileAt at hch
      rw [he] at hch
      simp at hch
    | edir =>
      rw [mkAncestors, he]
      simp [mkAncestors]

theorem secScaffold_mem (c : ChapterSpec) (subsections : SubsecMap) :
    ∀ (secl : List SectionSpec), ∀ pe ∈ secScaffold c subsections secl,
      ∃ s ∈ secl, (secPathC c ++ [secNameOf s]) <+: pe.1 := by
  intro secl
  induction secl with
  | nil => intro pe hpe; cases hpe
  | cons s rest ih =>
    intro pe hpe
    rw [secScaffold] at hpe
    rcases List.mem_append.mp hpe with hh | hr
    · refine ⟨s, List.mem_cons_self s rest, ?_⟩
      rcases List.mem_append.mp hh with h123 | h4
      · rcases List.mem_append.mp h123 with h12 | h3
        · rcases List.mem_append.mp h12 with h1 | h2
          · rw [List.mem_singleton] at h1
            rw [h1]
            exact List.prefix_refl _
          · obtain ⟨y, _, he⟩ := ftcDirs_mem pe h2
            rw [he]
            exact ⟨[y], rfl⟩
        · by_cases hz : s.num_subsections ≠ 0
          · rw [if_pos hz] at h3
            rcases List.mem_append.mp h3 with h31 | h32
            · rw [List.mem_singleton] at h31
              rw [h31]
              exact ⟨[subsectionsSeg], rfl⟩
            · obtain ⟨t, _, hp⟩ := subsecScaffold_mem c s _ pe h32
              exact List.IsPrefix.trans
                (⟨[subsectionsSeg], rfl⟩ : secDirOf c s <+: subsecPathCS c s)
                (List.IsPrefix.trans (⟨[subsecNameOf t], rfl⟩ :
                  subsecPathCS c s <+: subsecPathCS c s ++ [subsecNameOf t]) hp)
          · rw [if_neg hz] at h3
            cases h3
      · rw [List.mem_singleton] at h4
        rw [h4]
        exact ⟨[secNameOf s ++ texExt], rfl⟩
    · obtain ⟨s', hs', hp⟩ := ih pe hr
      exact ⟨s', List.mem_cons_of_mem s hs', hp⟩

theorem entryAt_secScaffold_none {X : FS} {c : ChapterSpec} {subsections : SubsecMap}
    {secl : List SectionSpec} {q : FPath} (h : entryAt X q = none)
    (hne : ∀ s ∈ secl, ∀ r : FPath, (secPathC c ++ [secNameOf s]) <+: r → r ≠ q) :
    entryAt (X ++ secScaffold c subsections secl) q = none := by
  rw [entryAt_append_none _ h]
  refine entryAt_none_of_ne (fun r hr => ?_)
  obtain ⟨s, hs, hp⟩ := secScaffold_mem c subsections secl r hr
  exact hne s hs r.1 hp

theorem init_run (c : ChapterSpec) (secs : List SectionSpec) (subsections : SubsecMap)
    (fs : FS) (cnt : Nat)
    (hcount : c.num_sections = secs.length)
    (hfresh : ∀ pe ∈ fs, ¬ (chapterPathOf c) <+: pe.1)
    (hchfile : isFileAt fs [chaptersSeg] = false)
    (hnd : (secs.map (fun s => s.sec)).Nodup)
    (hlk : ∀ s ∈ secs, lookupA subsections (natRepr s.sec) = some (subsOf subsections s) ∧
      s.num_subsections = (subsOf subsections s).length ∧
      ((subsOf subsections s).map (fun t => t.subsec)).Nodup) :
    init_chapter_dir c secs subsections ⟨fs, cnt⟩ =
      .ok () ⟨withChaptersDir fs ++ chapterScaffold c secs subsections, cnt⟩ := by
  have hfreshSub : ∀ q : FPath, chapterPathOf c <+: q → entryAt fs q = none := by
    intro q hq
    cases he : entryAt fs q with
    | none => rfl
    | some e => exact absurd hq (hfresh (q, e) (entryAt_mem he))
  have h1 := mkdirp_chapter c cnt (hfreshSub _ (List.prefix_refl _)) hchfile
  have hChD := withChaptersDir_entry hchfile
  have hfresh1 : ∀ q : FPath, chapterPathOf c <+: q →
      entryAt (withChaptersDir fs) q = none := by
    intro q hq
    have hq' : [chaptersSeg] ++ [chapterNameOf c] <+: q := hq
    exact withChaptersDir_none (hfreshSub q hq) (ne_of_short hq' (by simp))
  have hPsome1 : entryAt (withChaptersDir fs ++ [(chapterPathOf c, Entry.edir)])
      (chapterPathOf c) = some Entry.edir :=
    entryAt_snoc_some (hfresh1 _ (List.prefix_refl _))
  have hCh1 : entryAt (withChaptersDir fs ++ [(chapterPathOf c, Entry.edir)])
      [chaptersSeg] = some Entry.edir := entryAt_append_left _ hChD
  have hanc1 : ∀ q ∈ properAncestors (chapterPathOf c),
      entryAt (withChaptersDir fs ++ [(chapterPathOf c, Entry.edir)]) q =
        some Entry.edir := by
    intro q hq
    rw [show properAncestors (chapterPathOf c) = [[chaptersSeg]] from rfl,
      List.mem_singleton] at hq
    rw [hq]
    exact hCh1
  have h2 : create_ftc (chapterPathOf c) c.ftc
      ⟨withChaptersDir fs ++ [(chapterPathOf c, Entry.edir)], cnt⟩ =
      .ok () ⟨withChaptersDir fs ++ [(chapterPathOf c, Entry.edir)] ++
        ftcDirs (chapterPathOf c) c.ftc, cnt⟩ := by
    refine create_ftc_fresh _ (by simp [chapterPathOf]) hPsome1 hanc1 ?_ ?_ ?_
    · exact entryAt_snoc_none (hfresh1 _ ⟨[figsSeg], rfl⟩) (append_singleton_ne _ _).symm
    · exact entryAt_snoc_none (hfresh1 _ ⟨[tabsSeg], rfl⟩) (append_singleton_ne _ _).symm
    · exact entryAt_snoc_none (hfresh1 _ ⟨[codeSeg], rfl⟩) (append_singleton_ne _ _).symm
  have hPsome2 : entryAt (withChaptersDir fs ++ [(chapterPathOf c, Entry.edir)] ++
      ftcDirs (chapterPathOf c) c.ftc) (chapterPathOf c) = some Entry.edir :=
    entryAt_append_left _ hPsome1
  have hCh2 : entryAt (withChaptersDir fs ++ [(chapterPathOf c, Entry.edir)] ++
      ftcDirs (chapterPathOf c) c.ftc) [chaptersSeg] = some Entry.edir :=
    entryAt_append_left _ hCh1
  unfold init_chapter_dir
  rw [if_pos hcount]
  rw [show ([chaptersSeg, chapterNameOf c] : FPath) = chapterPathOf c from rfl]
  rw [show chapterPathOf c ++ [sectionsSeg] = secPathC c from rfl]
  simp only [M_bind_apply, M_liftE_apply, h1, h2, substT_chapter]
  by_cases hz : c.num_sections = 0
  · have hsecs : secs = [] := by
      rw [hz] at hcount
      exact (List.length_eq_zero.mp hcount.symm)
    subst hsecs
    rw [if_neg (by simp [hz])]
    have h5 : tex_file (chapterPathOf c ++ [chapterNameOf c ++ texExt])
        (chapterContent (chapterNameOf c))
        ⟨withChaptersDir fs ++ [(chapterPathOf c, Entry.edir)] ++
          ftcDirs (chapterPathOf c) c.ftc, cnt⟩ =
        .ok () ⟨withChaptersDir fs ++ [(chapterPathOf c, Entry.edir)] ++
          ftcDirs (chapterPathOf c) c.ftc ++
          [(chapterPathOf c ++ [chapterNameOf c ++ texExt],
            Entry.efile (chapterContent (chapterNameOf c)))], cnt⟩ := by
      refine tex_file_fresh _ (entryAt_ftc_none (entryAt_snoc_none
        (hfresh1 _ ⟨[chapterNameOf c ++ texExt], rfl⟩) (append_singleton_ne _ _).symm)
        (append_last_ne (chapTex_ne_ftc c).1.symm)
        (append_last_ne (chapTex_ne_ftc c).2.1.symm)
        (append_last_ne (chapTex_ne_ftc c).2.2.symm)) ?_
      rw [List.dropLast_concat]
      exact isDirAt_of_entry hPsome2
    simp only [M_bind_apply, M_pure_apply, h5]
    simp [chapterScaffold, hz, chapterFileOf, List.append_assoc]
  · rw [if_pos hz]
    have hSPnone : entryAt (withChaptersDir fs ++ [(chapterPathOf c, Entry.edir)] ++
        ftcDirs (chapterPathOf c) c.ftc) (secPathC c) = none :=
      entryAt_ftc_none (entryAt_snoc_none (hfresh1 _ ⟨[sectionsSeg], rfl⟩)
        (append_singleton_ne _ _).symm)
        (append_last_ne sections_ne_ftc.1.symm)
        (append_last_ne sections_ne_ftc.2.1.symm)
        (append_last_ne sections_ne_ftc.2.2.symm)
    have h3 : mkdirp true (secPathC c)
        ⟨withChaptersDir fs ++ [(chapterPathOf c, Entry.edir)] ++
          ftcDirs (chapterPathOf c) c.ftc, cnt⟩ =
        .ok () ⟨withChaptersDir fs ++ [(chapterPathOf c, Entry.edir)] ++
          ftcDirs (chapterPathOf c) c.ftc ++ [(secPathC c, Entry.edir)], cnt⟩ := by
      refine mkdirp_fresh_dirs true hSPnone ?_
      intro q hq
      rw [show secPathC c = chapterPathOf c ++ [sectionsSeg] from rfl,
        properAncestors_concat (by simp [chapterPathOf]) sectionsSeg] at hq
      rcases List.mem_append.mp hq with h1' | h2'
      · rw [show properAncestors (chapterPathOf c) = [[chaptersSeg]] from rfl,
          List.mem_singleton] at h1'
        rw [h1']
        exact hCh2
      · rw [List.mem_singleton] at h2'
        rw [h2']
        exact hPsome2
    have hSPsome : entryAt (withChaptersDir fs ++ [(chapterPathOf c, Entry.edir)] ++
        ftcDirs (chapterPathOf c) c.ftc ++ [(secPathC c, Entry.edir)])
        (secPathC c) = some Entry.edir := entryAt_snoc_some hSPnone
    have hanc3 : ∀ q ∈ properAncestors (secPathC c),
        entryAt (withChaptersDir fs ++ [(chapterPathOf c, Entry.edir)] ++
          ftcDirs (chapterPathOf c) c.ftc ++ [(secPathC c, Entry.edir)]) q =
          some Entry.edir := by
      intro q hq
      rw [show secPathC c = chapterPathOf c ++ [sectionsSeg] from rfl,
        properAncestors_concat (by simp [chapterPathOf]) sectionsSeg] at hq
      rcases List.mem_append.mp hq with h1' | h2'
      · rw [show properAncestors (chapterPathOf c) = [[chaptersSeg]] from rfl,
          List.mem_singleton] at h1'
        rw [h1']
        exact entryAt_append_left _ hCh2
      · rw [List.mem_singleton] at h2'
        rw [h2']
        exact entryAt_append_left _ hPsome2
    have hfr3 : ∀ s' ∈ secs, ∀ q : FPath, (secPathC c ++ [secNameOf s']) <+: q →
        entryAt (withChaptersDir fs ++ [(chapterPathOf c, Entry.edir)] ++
          ftcDirs (chapterPathOf c) c.ftc ++ [(secPathC c, Entry.edir)]) q = none := by
      intro s' hs' q hq
      have hPq : chapterPathOf c <+: q :=
        List.IsPrefix.trans (⟨[sectionsSeg], rfl⟩ : chapterPathOf c <+: secPathC c)
          (List.IsPrefix.trans (⟨[secNameOf s'], rfl⟩ :
            secPathC c <+: secPathC c ++ [secNameOf s']) hq)
      have hSPq : (chapterPathOf c ++ [sectionsSeg]) <+: q :=
        List.IsPrefix.trans (⟨[secNameOf s'], rfl⟩ :
          secPathC c <+: secPathC c ++ [secNameOf s']) hq
      refine entryAt_snoc_none (entryAt_ftc_none (entryAt_snoc_none
        (withChaptersDir_none (hfreshSub q hPq)
          (ne_of_short hq (by simp [secPathC, chapterPathOf])))
        (ne_of_short hq (by simp [secPathC, chapterPathOf])))
        (distinct_branch (List.prefix_refl _) hSPq sections_ne_ftc.1.symm)
        (distinct_branch (List.prefix_refl _) hSPq sections_ne_ftc.2.1.symm)
        (distinct_branch (List.prefix_refl _) hSPq sections_ne_ftc.2.2.symm))
        (ne_of_short hq (by simp [secPathC, chapterPathOf]))
    simp only [M_bind_apply, h3]
    rw [secLoop_run c subsections cnt secs _ _ hanc3 hSPsome hfr3 hnd hlk]
    have h5 : tex_file (chapterPathOf c ++ [chapterNameOf c ++ texExt])
        (chapterContent (chapterNameOf c) ++
          (secs.map (fun s => input_stmt osSep (secFileOf c s))).flatten)
        ⟨withChaptersDir fs ++ [(chapterPathOf c, Entry.edir)] ++
          ftcDirs (chapterPathOf c) c.ftc ++ [(secPathC c, Entry.edir)] ++
          secScaffold c subsections secs, cnt⟩ =
        .ok () ⟨withChaptersDir fs ++ [(chapterPathOf c, Entry.edir)] ++
          ftcDirs (chapterPathOf c) c.ftc ++ [(secPathC c, Entry.edir)] ++
          secScaffold c subsections secs ++
          [(chapterPathOf c ++ [chapterNameOf c ++ texExt],
            Entry.efile (chapterContent (chapterNameOf c) ++
              (secs.map (fun s => input_stmt osSep (secFileOf c s))).flatten))],
          cnt⟩ := by
      refine tex_file_fresh _ ?_ ?_
      · refine entryAt_secScaffold_none (entryAt_snoc_none (entryAt_ftc_none
          (entryAt_snoc_none (hfresh1 _ ⟨[chapterNameOf c ++ texExt], rfl⟩)
            (append_singleton_ne _ _).symm)
          (append_last_ne (chapTex_ne_ftc c).1.symm)
          (append_last_ne (chapTex_ne_ftc c).2.1.symm)
          (append_last_ne (chapTex_ne_ftc c).2.2.symm))
          (append_last_ne (chapTex_ne_sections c).symm)) ?_
        intro s' hs' r hr
        exact (ne_of_short hr (by simp [secPathC, chapterPathOf])).symm
      · rw [List.dropLast_concat]
        exact isDirAt_of_entry (entryAt_append_left _ (entryAt_append_left _ hPsome2))
    simp only [M_bind_apply, h5]
    simp [chapterScaffold, hz, chapterFileOf, List.append_assoc]

theorem filesOf_withChaptersDir (fs : FS) : filesOf (withChaptersDir fs) = filesOf fs := by
  unfold withChaptersDir
  cases existsP fs [chaptersSeg] with
  | true => rw [if_pos rfl]
  | false =>
    rw [if_neg (by simp)]
    rw [filesOf_append]
    simp [filesOf]

theorem filesOf_subsecScaffold (c : ChapterSpec) (s : SectionSpec) :
    ∀ subl : List SubsectionSpec, filesOf (subsecScaffold c s subl) =
      subl.map (fun t => (subsecFileOf c s t,
        subsectionContent (chapterNameOf c ++ hyphen ++ secNameOf s ++ hyphen ++
          subsecNameOf t))) := by
  intro subl
  induction subl with
  | nil => rfl
  | cons t rest ih =>
    rw [subsecScaffold, filesOf_append, filesOf_append, filesOf_dirs ftcDirs_dirs, ih]
    rfl

theorem filesOf_secScaffold (c : ChapterSpec) (subsections : SubsecMap) :
    ∀ secl : List SectionSpec,
      (∀ s ∈ secl, s.num_subsections = (subsOf subsections s).length) →
      filesOf (secScaffold c subsections secl) =
        (secl.map (fun s =>
          ((subsOf subsections s).map (fun t => (subsecFileOf c s t,
            subsectionContent (chapterNameOf c ++ hyphen ++ secNameOf s ++ hyphen ++
              subsecNameOf t)))) ++
          [(secFileOf c s,
            sectionContent (chapterNameOf c ++ hyphen ++ secNameOf s) ++
              ((subsOf subsections s).map
                (fun t => input_stmt osSep (subsecFileOf c s t))).flatten)])).flatten := by
  intro secl
  induction secl with
  | nil => intro _; rfl
  | cons s rest ih =>
    intro h
    rw [secScaffold, List.map_cons, List.flatten_cons, filesOf_append,
      ih (fun r hr => h r (List.mem_cons_of_mem s hr))]
    congr 1
    rw [filesOf_append, filesOf_append, filesOf_append, filesOf_dirs ftcDirs_dirs]
    by_cases hz : s.num_subsections ≠ 0
    · rw [if_pos hz]
      rw [filesOf_append, filesOf_subsecScaffold]
      rfl
    · rw [if_neg hz]
      have hsub0 : subsOf subsections s = [] := by
        rw [← List.length_eq_zero, ← h s (List.mem_cons_self s rest)]
        simpa using hz
      rw [hsub0]
      rfl

theorem filesOf_chapterScaffold (c : ChapterSpec) (secs : List SectionSpec)
    (subsections : SubsecMap) (hcount : c.num_sections = secs.length)
    (hcnts : ∀ s ∈ secs, s.num_subsections = (subsOf subsections s).length) :
    filesOf (chapterScaffold c secs subsections) = expectedFiles c secs subsections := by
  unfold chapterScaffold expectedFiles
  rw [filesOf_append, filesOf_append, filesOf_append, filesOf_dirs ftcDirs_dirs]
  by_cases hz : c.num_sections ≠ 0
  · rw [if_pos hz, filesOf_append, filesOf_secScaffold c subsections secs hcnts]
    rfl
  · rw [if_neg hz]
    have hsecs : secs = [] := by
      rw [← List.length_eq_zero, ← hcount]
      simpa using hz
    subst hsecs
    rfl

theorem findInputs_nil_of_TBFree {s : Str} (h : TBFree s) : findInputs s = [] := by
  have h2 := findInputs_append_free (t := []) (by simpa using h)
  simpa using h2

theorem existsP_of_mem : ∀ {fs : FS} {p : FPath} {e : Entry},
    (p, e) ∈ fs → existsP fs p = true := by
  intro fs
  induction fs with
  | nil => intro p e h; cases h
  | cons pe rest ih =>
    intro p e h
    obtain ⟨q, v⟩ := pe
    show (Option.isSome (if q = p then some v else entryAt rest p)) = true
    by_cases hqp : q = p
    · rw [if_pos hqp]
      rfl
    · rw [if_neg hqp]
      rcases List.mem_cons.mp h with he | hm
      · exact absurd (congrArg Prod.fst he).symm hqp
      · exact ih hm

theorem mem_of_filesOf : ∀ {fs : FS} {pr : FPath × Str},
    pr ∈ filesOf fs → (pr.1, Entry.efile pr.2) ∈ fs := by
  intro fs
  induction fs with
  | nil => intro pr h; cases h
  | cons pe rest ih =>
    intro pr h
    obtain ⟨q, v⟩ := pe
    cases v with
    | edir =>
      have h' : pr ∈ filesOf rest := h
      exact List.mem_cons_of_mem (q, Entry.edir) (ih h')
    | efile t =>
      have h' : pr ∈ (q, t) :: filesOf rest := h
      rcases List.mem_cons.mp h' with he | hm
      · rw [he]
        exact List.mem_cons_self (q, Entry.efile t) rest
      · exact List.mem_cons_of_mem (q, Entry.efile t) (ih hm)

theorem brokenTargets_zero {fs : FS} {content : Str}
    (h : ∀ tg ∈ findInputs content, existsP fs (parsePath tg) = true) :
    brokenTargets fs content = 0 := by
  unfold brokenTargets
  rw [List.length_eq_zero, List.filter_eq_nil_iff]
  intro tg htg
  simp [h tg htg]

theorem brokenUnder_eq_zero {fs' : FS} {root : FPath}
    (h : ∀ pe ∈ fs', ∀ content : Str, pe.2 = Entry.efile content →
      strictUnder root pe.1 = true → brokenTargets fs' content = 0) :
    brokenUnder fs' root = 0 := by
  unfold brokenUnder
  refine List.sum_eq_zero ?_
  intro x hx
  rw [List.mem_map] at hx
  obtain ⟨pe, hpe, hxe⟩ := hx
  rw [← hxe]
  obtain ⟨p, v⟩ := pe
  cases v with
  | edir => rfl
  | efile content =>
    show (if strictUnder root p && isInfixStr texExt (p.getLastD []) then
      brokenTargets fs' content else 0) = 0
    by_cases hsu : strictUnder root p = true
    · rw [h (p, Entry.efile content) hpe content rfl hsu]
      simp
    · have : strictUnder root p = false := by
        cases hv : strictUnder root p
        · rfl
        · exact absurd hv hsu
      rw [this]
      rfl

theorem findInputs_subsecContent (c : ChapterSpec) (s : SectionSpec)
    (t : SubsectionSpec) :
    findInputs (subsectionContent (chapterNameOf c ++ hyphen ++ secNameOf s ++ hyphen ++
      subsecNameOf t)) = [] :=
  findInputs_nil_of_TBFree (TBFree_subsectionContent (TBFree_title3 c s t)
    (headNotBrace_title3 c s t))

theorem findInputs_secContent (c : ChapterSpec) (s : SectionSpec)
    (subs : List SubsectionSpec) :
    findInputs (sectionContent (chapterNameOf c ++ hyphen ++ secNameOf s) ++
      (subs.map (fun t => input_stmt osSep (subsecFileOf c s t))).flatten) =
      subs.map (fun t => reformat_path osSep (subsecFileOf c s t)) := by
  rw [show subs.map (fun t => input_stmt osSep (subsecFileOf c s t)) =
      (subs.map (fun t => subsecFileOf c s t)).map (input_stmt osSep) from by
    rw [List.map_map]
    rfl]
  rw [findInputs_content _ (TBFree_sectionContent (TBFree_title2 c s)
    (headNotBrace_title2 c s)) ?_]
  · rw [List.map_map]
    rfl
  · intro p hp
    rw [List.mem_map] at hp
    obtain ⟨t, ht, he⟩ := hp
    rw [← he]
    exact ⟨(target_subsecFile c s t).1, (target_subsecFile c s t).2.1⟩

theorem findInputs_chapterContent (c : ChapterSpec) (secs : List SectionSpec) :
    findInputs (chapterContent (chapterNameOf c) ++
      (secs.map (fun s => input_stmt osSep (secFileOf c s))).flatten) =
      secs.map (fun s => reformat_path osSep (secFileOf c s)) := by
  rw [show secs.map (fun s => input_stmt osSep (secFileOf c s)) =
      (secs.map (fun s => secFileOf c s)).map (input_stmt osSep) from by
    rw [List.map_map]
    rfl]
  rw [findInputs_content _ (TBFree_chapterContent (TBFree_chapterName c)
    (headNotBrace_chapterName c)) ?_]
  · rw [List.map_map]
    rfl
  · intro p hp
    rw [List.mem_map] at hp
    obtain ⟨s, hs, he⟩ := hp
    rw [← he]
    exact ⟨(target_secFile c s).1, (target_secFile c s).2.1⟩

theorem secFile_mem_expected (c : ChapterSpec) {secs : List SectionSpec}
    (subsections : SubsecMap) {s : SectionSpec} (hs : s ∈ secs) :
    (secFileOf c s,
      sectionContent (chapterNameOf c ++ hyphen ++ secNameOf s) ++
        ((subsOf subsections s).map
          (fun t => input_stmt osSep (subsecFileOf c s t))).flatten) ∈
      expectedFiles c secs subsections := by
  unfold expectedFiles
  refine List.mem_append.mpr (Or.inl ?_)
  rw [List.mem_flatten]
  refine ⟨_, List.mem_map_of_mem _ hs, ?_⟩
  exact List.mem_append.mpr (Or.inr (List.mem_singleton.mpr rfl))

theorem subsecFile_mem_expected (c : ChapterSpec) {secs : List SectionSpec}
    (subsections : SubsecMap) {s : SectionSpec} (hs : s ∈ secs)
    {t : SubsectionSpec} (ht : t ∈ subsOf subsections s) :
    (subsecFileOf c s t,
      subsectionContent (chapterNameOf c ++ hyphen ++ secNameOf s ++ hyphen ++
        subsecNameOf t)) ∈ expectedFiles c secs subsections := by
  unfold expectedFiles
  refine List.mem_append.mpr (Or.inl ?_)
  rw [List.mem_flatten]
  refine ⟨_, List.mem_map_of_mem _ hs, ?_⟩
  exact List.mem_append.mpr (Or.inl (List.mem_map_of_mem _ ht))

theorem expected_targets (c : ChapterSpec) (secs : List SectionSpec)
    (subsections : SubsecMap) {fs' : FS}
    (hmem : ∀ pr ∈ expectedFiles c secs subsections, existsP fs' pr.1 = true) :
    ∀ pr ∈ expectedFiles c secs subsections, ∀ tg ∈ findInputs pr.2,
      existsP fs' (parsePath tg) = true := by
  intro pr hpr tg htg
  rcases List.mem_append.mp hpr with hfl | hch
  · rw [List.mem_flatten] at hfl
    obtain ⟨blk, hblk, hprb⟩ := hfl
    rw [List.mem_map] at hblk
    obtain ⟨s, hs, hbe⟩ := hblk
    rw [← hbe] at hprb
    rcases List.mem_append.mp hprb with hsub | hsec
    · rw [List.mem_map] at hsub
      obtain ⟨t, ht, hpe⟩ := hsub
      rw [← hpe] at htg
      rw [findInputs_subsecContent] at htg
      cases htg
    · rw [List.mem_singleton] at hsec
      rw [hsec] at htg
      rw [findInputs_secContent] at htg
      rw [List.mem_map] at htg
      obtain ⟨t, ht, hte⟩ := htg
      rw [← hte, (target_subsecFile c s t).2.2]
      exact hmem _ (subsecFile_mem_expected c subsections hs ht)
  · rw [List.mem_singleton] at hch
    rw [hch] at htg
    rw [findInputs_chapterContent] at htg
    rw [List.mem_map] at htg
    obtain ⟨s, hs, hte⟩ := htg
    rw [← hte, (target_secFile c s).2.2]
    exact hmem _ (secFile_mem_expected c subsections hs)

theorem expectedFiles_length (c : ChapterSpec) (secs : List SectionSpec)
    (subsections : SubsecMap) :
    (expectedFiles c secs subsections).length =
      1 + secs.length + (secs.map (fun s => (subsOf subsections s).length)).sum := by
  unfold expectedFiles
  rw [List.length_append]
  have hfl : ∀ l : List SectionSpec,
      ((l.map (fun s =>
        ((subsOf subsections s).map (fun t => (subsecFileOf c s t,
          subsectionContent (chapterNameOf c ++ hyphen ++ secNameOf s ++ hyphen ++
            subsecNameOf t)))) ++
        [(secFileOf c s,
          sectionContent (chapterNameOf c ++ hyphen ++ secNameOf s) ++
            ((subsOf subsections s).map
              (fun t => input_stmt osSep (subsecFileOf c s t))).flatten)])).flatten).length =
      (l.map (fun s => (subsOf subsections s).length)).sum + l.length := by
    intro l
    induction l with
    | nil => rfl
    | cons s rest ih =>
      rw [List.map_cons, List.flatten_cons, List.length_append, ih]
      simp
      omega
  rw [hfl]
  simp
  omega

theorem filesOf_of_mem : ∀ {fs : FS} {p : FPath} {content : Str},
    (p, Entry.efile content) ∈ fs → (p, content) ∈ filesOf fs := by
  intro fs
  induction fs with
  | nil => intro p content h; cases h
  | cons pe rest ih =>
    intro p content h
    obtain ⟨q, v⟩ := pe
    rcases List.mem_cons.mp h with he | hm
    · have h1 : q = p ∧ v = Entry.efile content := by
        constructor
        · exact (congrArg Prod.fst he).symm
        · exact (congrArg Prod.snd he).symm
      rw [h1.1, h1.2]
      show (p, content) ∈ (p, content) :: filesOf rest
      exact List.mem_cons_self _ _
    · cases v with
      | edir => exact ih hm
      | efile t =>
        show (p, content) ∈ (q, t) :: filesOf rest
        exact List.mem_cons_of_mem _ (ih hm)

theorem withChaptersDir_mem {fs : FS} {pe : FPath × Entry}
    (h : pe ∈ withChaptersDir fs) : pe ∈ fs ∨ pe = ([chaptersSeg], Entry.edir) := by
  unfold withChaptersDir at h
  by_cases he : existsP fs [chaptersSeg]
  · rw [if_pos he] at h
    exact Or.inl h
  · rw [if_neg he] at h
    rcases List.mem_append.mp h with h1 | h2
    · exact Or.inl h1
    · rw [List.mem_singleton] at h2
      exact Or.inr h2

theorem strictUnder_below {root p : FPath} (h : strictUnder root p = true) :
    root <+: p := by
  unfold strictUnder at h
  rw [Bool.and_eq_true] at h
  exact List.isPrefixOf_iff_prefix.mp h.1

/-- C2: with matching counts, pairwise-distinct section numbers,
per-section distinct subsection numbers, and a filesystem on which the
chapter directory does not yet exist, `init_chapter_dir` succeeds and
creates exactly one `.tex` file for the chapter, one per section and one
per subsection; every `\input` target of every generated file resolves
on disk, so `check_inputs` over the new tree leaves the counter
unchanged. -/
theorem init_scaffold_correct (c : ChapterSpec) (secs : List SectionSpec)
    (subsections : SubsecMap) (fs : FS) (cnt : Nat)
    (hcount : c.num_sections = secs.length)
    (hfresh : ∀ pe ∈ fs, ¬ (chapterPathOf c) <+: pe.1)
    (hchfile : isFileAt fs [chaptersSeg] = false)
    (hnd : (secs.map (fun s => s.sec)).Nodup)
    (hlk : ∀ s ∈ secs,
      lookupA subsections (natRepr s.sec) = some (subsOf subsections s) ∧
      s.num_subsections = (subsOf subsections s).length ∧
      ((subsOf subsections s).map (fun t => t.subsec)).Nodup) :
    ∃ fs' : FS,
      init_chapter_dir c secs subsections ⟨fs, cnt⟩ = .ok () ⟨fs', cnt⟩ ∧
      filesOf fs' = filesOf fs ++ expectedFiles c secs subsections ∧
      (expectedFiles c secs subsections).length =
        1 + secs.length + (secs.map (fun s => (subsOf subsections s).length)).sum ∧
      (∀ pr ∈ expectedFiles c secs subsections, ∀ tg ∈ findInputs pr.2,
        existsP fs' (parsePath tg) = true) ∧
      check_inputs (chapterPathOf c) ⟨fs', cnt⟩ = .ok () ⟨fs', cnt⟩ := by
  refine ⟨withChaptersDir fs ++ chapterScaffold c secs subsections,
    init_run c secs subsections fs cnt hcount hfresh hchfile hnd hlk, ?_, ?_, ?_, ?_⟩
  · rw [filesOf_append, filesOf_withChaptersDir,
      filesOf_chapterScaffold c secs subsections hcount
        (fun s hs => (hlk s hs).2.1)]
  · exact expectedFiles_length c secs subsections
  · refine expected_targets c secs subsections ?_
    intro pr hpr
    refine existsP_of_mem (e := Entry.efile pr.2) ?_
    refine List.mem_append.mpr (Or.inr ?_)
    refine mem_of_filesOf ?_
    rw [filesOf_chapterScaffold c secs subsections hcount
      (fun s hs => (hlk s hs).2.1)]
    exact hpr
  · have hmem : ∀ pr ∈ expectedFiles c secs subsections,
        existsP (withChaptersDir fs ++ chapterScaffold c secs subsections) pr.1 =
          true := by
      intro pr hpr
      refine existsP_of_mem (e := Entry.efile pr.2) ?_
      refine List.mem_append.mpr (Or.inr ?_)
      refine mem_of_filesOf ?_
      rw [filesOf_chapterScaffold c secs subsections hcount
        (fun s hs => (hlk s hs).2.1)]
      exact hpr
    have hb : brokenUnder (withChaptersDir fs ++ chapterScaffold c secs subsections)
        (chapterPathOf c) = 0 := by
      refine brokenUnder_eq_zero ?_
      intro pe hpe content hfe hsu
      rcases List.mem_append.mp hpe with hw | hsc
      · rcases withChaptersDir_mem hw with hin | hch
        · exact absurd (strictUnder_below hsu) (hfresh pe hin)
        · rw [hch] at hfe
          cases hfe
      · have hfm : (pe.1, content) ∈ expectedFiles c secs subsections := by
          rw [← filesOf_chapterScaffold c secs subsections hcount
            (fun s hs => (hlk s hs).2.1)]
          refine filesOf_of_mem ?_
          rw [← hfe]
          exact hsc
        refine brokenTargets_zero ?_
        exact expected_targets c secs subsections hmem (pe.1, content) hfm
    unfold check_inputs
    rw [hb]
    rfl

/-- C2 counterexample: two sections that share the number 1 satisfy every
count check (`num_sections = 2` and each `num_subsections = 0`), yet the
run writes only 2 `.tex` files — the second section's file already
exists, so `tex_file` skips it — instead of the claimed 1 + 2 + 0. -/
theorem init_scaffold_duplicate_sections :
    (ChapterSpec.mk 1 2 ⟨false, false, false⟩).num_sections =
      ([SectionSpec.mk 1 0 ⟨false, false, false⟩,
        SectionSpec.mk 1 0 ⟨false, false, false⟩] : List SectionSpec).length ∧
    (∀ s ∈ ([SectionSpec.mk 1 0 ⟨false, false, false⟩,
        SectionSpec.mk 1 0 ⟨false, false, false⟩] : List SectionSpec),
      lookupA ([(natRepr 1, [])] : SubsecMap) (natRepr s.sec) =
          some ([] : List SubsectionSpec) ∧
        s.num_subsections = ([] : List SubsectionSpec).length) ∧
    resOk (init_chapter_dir (ChapterSpec.mk 1 2 ⟨false, false, false⟩)
      [SectionSpec.mk 1 0 ⟨false, false, false⟩,
        SectionSpec.mk 1 0 ⟨false, false, false⟩]
      ([(natRepr 1, [])] : SubsecMap) ⟨[], 0⟩) = true ∧
    (filesOf (resSt (init_chapter_dir (ChapterSpec.mk 1 2 ⟨false, false, false⟩)
      [SectionSpec.mk 1 0 ⟨false, false, false⟩,
        SectionSpec.mk 1 0 ⟨false, false, false⟩]
      ([(natRepr 1, [])] : SubsecMap) ⟨[], 0⟩)).fs).length = 2 ∧
    2 ≠ 1 + 2 + 0 := by
  refine ⟨by decide, by decide, by decide, by decide, by decide⟩

/-- Closed witness for `init_scaffold_correct`. -/
theorem init_scaffold_correct_witness :
    ((ChapterSpec.mk 1 1 ⟨false, false, false⟩).num_sections =
      ([SectionSpec.mk 1 1 ⟨false, false, false⟩] : List SectionSpec).length) ∧
    (∀ pe ∈ ([] : FS),
      ¬ (chapterPathOf (ChapterSpec.mk 1 1 ⟨false, false, false⟩)) <+: pe.1) ∧
    (isFileAt ([] : FS) [chaptersSeg] = false) ∧
    ((([SectionSpec.mk 1 1 ⟨false, false, false⟩] : List SectionSpec).map
      (fun s => s.sec)).Nodup) ∧
    (∀ s ∈ ([SectionSpec.mk 1 1 ⟨false, false, false⟩] : List SectionSpec),
      lookupA [(natRepr 1, [SubsectionSpec.mk 1 ⟨false, false, false⟩])]
          (natRepr s.sec) =
        some (subsOf [(natRepr 1, [SubsectionSpec.mk 1 ⟨false, false, false⟩])] s) ∧
      s.num_subsections =
        (subsOf [(natRepr 1, [SubsectionSpec.mk 1 ⟨false, false, false⟩])] s).length ∧
      ((subsOf [(natRepr 1, [SubsectionSpec.mk 1 ⟨false, false, false⟩])] s).map
        (fun t => t.subsec)).Nodup) ∧
    (∃ fs' : FS,
      init_chapter_dir (ChapterSpec.mk 1 1 ⟨false, false, false⟩)
          [SectionSpec.mk 1 1 ⟨false, false, false⟩]
          [(natRepr 1, [SubsectionSpec.mk 1 ⟨false, false, false⟩])] ⟨[], 0⟩ =
        .ok () ⟨fs', 0⟩ ∧
      filesOf fs' = filesOf ([] : FS) ++
        expectedFiles (ChapterSpec.mk 1 1 ⟨false, false, false⟩)
          [SectionSpec.mk 1 1 ⟨false, false, false⟩]
          [(natRepr 1, [SubsectionSpec.mk 1 ⟨false, false, false⟩])] ∧
      (expectedFiles (ChapterSpec.mk 1 1 ⟨false, false, false⟩)
          [SectionSpec.mk 1 1 ⟨false, false, false⟩]
          [(natRepr 1, [SubsectionSpec.mk 1 ⟨false, false, false⟩])]).length =
        1 + ([SectionSpec.mk 1 1 ⟨false, false, false⟩] : List SectionSpec).length +
          (([SectionSpec.mk 1 1 ⟨false, false, false⟩] : List SectionSpec).map
            (fun s => (subsOf [(natRepr 1,
              [SubsectionSpec.mk 1 ⟨false, false, false⟩])] s).length)).sum ∧
      (∀ pr ∈ expectedFiles (ChapterSpec.mk 1 1 ⟨false, false, false⟩)
          [SectionSpec.mk 1 1 ⟨false, false, false⟩]
          [(natRepr 1, [SubsectionSpec.mk 1 ⟨false, false, false⟩])],
        ∀ tg ∈ findInputs pr.2, existsP fs' (parsePath tg) = true) ∧
      check_inputs (chapterPathOf (ChapterSpec.mk 1 1 ⟨false, false, false⟩))
          ⟨fs', 0⟩ = .ok () ⟨fs', 0⟩) :=
  ⟨by decide, by decide, by decide, by decide, by decide,
    init_scaffold_correct _ _ _ _ 0 (by decide) (by decide) (by decide) (by decide)
      (by decide)⟩
